import Mathlib

/-!
Clyde: request handlers of the node-local cluster cache.

A shallow embedding of the three artifact handlers of `clyde`
(`pkg/registry/registry.go`, `pkg/pip/pip.go`, `pkg/hf/hf.go`).

* Go strings are lists of characters.
* A handler is a function from the request, the configuration of the handler
  and an environment (what the router, the content store, the peers, the
  upstream and the file system answer) to a `World`: the calls made on the
  response writer, the calls made on the router / content store / HTTP
  clients, and the file system.
* Logging, metrics and the copying of HTTP response headers are left out:
  no decision of the handlers depends on them.
-/

namespace Clyde

/-! ## Go standard library: `unicode`, `strings`, `path`, `path/filepath` -/

namespace unicode

/-- The lower-case mappings of Go `unicode.ToLower` above ASCII, the simple
lower-case mappings of the Unicode character database: an entry
`(first, last, stride, delta)` maps every rune `first + k * stride` up to
`last` to the rune `delta` further on. -/
def lowerRanges : List (Nat × Nat × Nat × Int) :=
  [(192, 214, 1, 32), (216, 222, 1, 32), (256, 302, 2, 1), (304, 304, 1, -199), (306, 310, 2, 1),
   (313, 327, 2, 1), (330, 374, 2, 1), (376, 376, 1, -121), (377, 381, 2, 1), (385, 385, 1, 210),
   (386, 388, 2, 1), (390, 390, 1, 206), (391, 391, 1, 1), (393, 394, 1, 205), (395, 395, 1, 1),
   (398, 398, 1, 79), (399, 399, 1, 202), (400, 400, 1, 203), (401, 401, 1, 1),
   (403, 403, 1, 205), (404, 404, 1, 207), (406, 406, 1, 211), (407, 407, 1, 209),
   (408, 408, 1, 1), (412, 412, 1, 211), (413, 413, 1, 213), (415, 415, 1, 214),
   (416, 420, 2, 1), (422, 422, 1, 218), (423, 423, 1, 1), (425, 425, 1, 218), (428, 428, 1, 1),
   (430, 430, 1, 218), (431, 431, 1, 1), (433, 434, 1, 217), (435, 437, 2, 1),
   (439, 439, 1, 219), (440, 440, 1, 1), (444, 444, 1, 1), (452, 452, 1, 2), (453, 453, 1, 1),
   (455, 455, 1, 2), (456, 456, 1, 1), (458, 458, 1, 2), (459, 475, 2, 1), (478, 494, 2, 1),
   (497, 497, 1, 2), (498, 500, 2, 1), (502, 502, 1, -97), (503, 503, 1, -56), (504, 542, 2, 1),
   (544, 544, 1, -130), (546, 562, 2, 1), (570, 570, 1, 10795), (571, 571, 1, 1),
   (573, 573, 1, -163), (574, 574, 1, 10792), (577, 577, 1, 1), (579, 579, 1, -195),
   (580, 580, 1, 69), (581, 581, 1, 71), (582, 590, 2, 1), (880, 882, 2, 1), (886, 886, 1, 1),
   (895, 895, 1, 116), (902, 902, 1, 38), (904, 906, 1, 37), (908, 908, 1, 64),
   (910, 911, 1, 63), (913, 929, 1, 32), (931, 939, 1, 32), (975, 975, 1, 8), (984, 1006, 2, 1),
   (1012, 1012, 1, -60), (1015, 1015, 1, 1), (1017, 1017, 1, -7), (1018, 1018, 1, 1),
   (1021, 1023, 1, -130), (1024, 1039, 1, 80), (1040, 1071, 1, 32), (1120, 1152, 2, 1),
   (1162, 1214, 2, 1), (1216, 1216, 1, 15), (1217, 1229, 2, 1), (1232, 1326, 2, 1),
   (1329, 1366, 1, 48), (4256, 4293, 1, 7264), (4295, 4295, 1, 7264), (4301, 4301, 1, 7264),
   (5024, 5103, 1, 38864), (5104, 5109, 1, 8), (7312, 7354, 1, -3008), (7357, 7359, 1, -3008),
   (7680, 7828, 2, 1), (7838, 7838, 1, -7615), (7840, 7934, 2, 1), (7944, 7951, 1, -8),
   (7960, 7965, 1, -8), (7976, 7983, 1, -8), (7992, 7999, 1, -8), (8008, 8013, 1, -8),
   (8025, 8031, 2, -8), (8040, 8047, 1, -8), (8072, 8079, 1, -8), (8088, 8095, 1, -8),
   (8104, 8111, 1, -8), (8120, 8121, 1, -8), (8122, 8123, 1, -74), (8124, 8124, 1, -9),
   (8136, 8139, 1, -86), (8140, 8140, 1, -9), (8152, 8153, 1, -8), (8154, 8155, 1, -100),
   (8168, 8169, 1, -8), (8170, 8171, 1, -112), (8172, 8172, 1, -7), (8184, 8185, 1, -128),
   (8186, 8187, 1, -126), (8188, 8188, 1, -9), (8486, 8486, 1, -7517), (8490, 8490, 1, -8383),
   (8491, 8491, 1, -8262), (8498, 8498, 1, 28), (8544, 8559, 1, 16), (8579, 8579, 1, 1),
   (9398, 9423, 1, 26), (11264, 11311, 1, 48), (11360, 11360, 1, 1), (11362, 11362, 1, -10743),
   (11363, 11363, 1, -3814), (11364, 11364, 1, -10727), (11367, 11371, 2, 1),
   (11373, 11373, 1, -10780), (11374, 11374, 1, -10749), (11375, 11375, 1, -10783),
   (11376, 11376, 1, -10782), (11378, 11378, 1, 1), (11381, 11381, 1, 1),
   (11390, 11391, 1, -10815), (11392, 11490, 2, 1), (11499, 11501, 2, 1), (11506, 11506, 1, 1),
   (42560, 42604, 2, 1), (42624, 42650, 2, 1), (42786, 42798, 2, 1), (42802, 42862, 2, 1),
   (42873, 42875, 2, 1), (42877, 42877, 1, -35332), (42878, 42886, 2, 1), (42891, 42891, 1, 1),
   (42893, 42893, 1, -42280), (42896, 42898, 2, 1), (42902, 42920, 2, 1),
   (42922, 42922, 1, -42308), (42923, 42923, 1, -42319), (42924, 42924, 1, -42315),
   (42925, 42925, 1, -42305), (42926, 42926, 1, -42308), (42928, 42928, 1, -42258),
   (42929, 42929, 1, -42282), (42930, 42930, 1, -42261), (42931, 42931, 1, 928),
   (42932, 42946, 2, 1), (42948, 42948, 1, -48), (42949, 42949, 1, -42307),
   (42950, 42950, 1, -35384), (42951, 42953, 2, 1), (42960, 42960, 1, 1), (42966, 42968, 2, 1),
   (42997, 42997, 1, 1), (65313, 65338, 1, 32), (66560, 66599, 1, 40), (66736, 66771, 1, 40),
   (66928, 66938, 1, 39), (66940, 66954, 1, 39), (66956, 66962, 1, 39), (66964, 66965, 1, 39),
   (68736, 68786, 1, 64), (71840, 71871, 1, 32), (93760, 93791, 1, 32), (125184, 125217, 1, 34)]

/-- The rune a list of lower-case mappings sends the rune `r` to, `r` itself
when no entry holds it. -/
def lowerIn : List (Nat × Nat × Nat × Int) → Nat → Nat
  | [], r => r
  | (first, last, stride, delta) :: rest, r =>
    if first ≤ r ∧ r ≤ last ∧ (r - first) % stride = 0 then ((r : Int) + delta).toNat
    else lowerIn rest r

/-- Go `unicode.ToLower`. -/
def ToLower (r : Char) : Char :=
  if r.toNat < 128 then Char.toLower r else Char.ofNat (lowerIn lowerRanges r.toNat)

end unicode

namespace strings

/-- Go `strings.HasPrefix`. -/
def HasPrefix (s pre : List Char) : Bool := pre.isPrefixOf s

/-- Go `strings.HasSuffix`. -/
def HasSuffix (s suf : List Char) : Bool := suf.reverse.isPrefixOf s.reverse

/-- Go `strings.TrimPrefix`. -/
def TrimPrefix (s pre : List Char) : List Char :=
  if HasPrefix s pre then s.drop pre.length else s

/-- Go `strings.TrimSuffix`. -/
def TrimSuffix (s suf : List Char) : List Char :=
  if HasSuffix s suf then s.take (s.length - suf.length) else s

/-- Go `strings.Contains`. -/
def Contains : List Char → List Char → Bool
  | [], sub => sub.isPrefixOf []
  | c :: cs, sub => sub.isPrefixOf (c :: cs) || Contains cs sub

/-- Go `strings.ToLower`: `unicode.ToLower` rune by rune. -/
def ToLower (s : List Char) : List Char := s.map unicode.ToLower

/-- Go `strings.Split(s, sep)` for a separator of one character. -/
def Split (sep : Char) : List Char → List (List Char)
  | [] => [[]]
  | c :: cs =>
    if c = sep then [] :: Split sep cs
    else
      match Split sep cs with
      | [] => [[c]]
      | h :: t => (c :: h) :: t

/-- Go `strings.Join`. -/
def Join (sep : List Char) : List (List Char) → List Char
  | [] => []
  | [x] => x
  | x :: y :: rest => x ++ sep ++ Join sep (y :: rest)

/-- Go `unicode.IsSpace`: tab, line feed, vertical tab, form feed, carriage
return, space, U+0085, U+00A0, U+1680, U+2000 to U+200A, U+2028, U+2029,
U+202F, U+205F and U+3000. -/
def isSpace (c : Char) : Bool :=
  c = ' ' || c = '\t' || c = '\n' || c = '\r' || c.toNat = 11 || c.toNat = 12
    || c.toNat = 0x85 || c.toNat = 0xA0 || c.toNat = 0x1680
    || (0x2000 ≤ c.toNat && c.toNat ≤ 0x200A) || c.toNat = 0x2028 || c.toNat = 0x2029
    || c.toNat = 0x202F || c.toNat = 0x205F || c.toNat = 0x3000

/-- Go `strings.TrimSpace`. -/
def TrimSpace (s : List Char) : List Char :=
  ((s.dropWhile isSpace).reverse.dropWhile isSpace).reverse

/-- The scan of Go `strings.Replace(s, old, new, n)` for a non-empty `old`:
non-overlapping occurrences of `old` are replaced from left to right, at most
`limit` of them when `limit` is `some _`.  `skip` counts the characters of
the occurrence just replaced that are still to be passed over. -/
def replaceScan (old new : List Char) : Option Nat → Nat → List Char → List Char
  | _, _, [] => []
  | limit, skip + 1, _ :: cs => replaceScan old new limit skip cs
  | limit, 0, c :: cs =>
    if old.isPrefixOf (c :: cs) && limit != some 0 then
      new ++ replaceScan old new (limit.map Nat.pred) (old.length - 1) cs
    else c :: replaceScan old new limit 0 cs

/-- Go `strings.Replace(s, old, new, n)` with `n ≥ 0`, `old` non-empty. -/
def Replace (s old new : List Char) (n : Nat) : List Char :=
  replaceScan old new (some n) 0 s

/-- Go `strings.ReplaceAll(s, old, new)`, `old` non-empty. -/
def ReplaceAll (s old new : List Char) : List Char :=
  replaceScan old new none 0 s

end strings

namespace path

/-- The element stack of Go `path.Clean`: empty and `.` elements are dropped,
`..` removes the element before it, is dropped at the root and is kept at the
start of a relative path. -/
def cleanElems (rooted : Bool) : List (List Char) → List (List Char) → List (List Char)
  | [], st => st.reverse
  | seg :: rest, st =>
    if seg = [] ∨ seg = ['.'] then cleanElems rooted rest st
    else if seg = ['.', '.'] then
      match st with
      | top :: st' =>
        if top = ['.', '.'] then cleanElems rooted rest (seg :: st)
        else cleanElems rooted rest st'
      | [] => if rooted then cleanElems rooted rest [] else cleanElems rooted rest [seg]
    else cleanElems rooted rest (seg :: st)

/-- Go `path.Clean`: the shortest path name equivalent to `p`. -/
def Clean (p : List Char) : List Char :=
  if p = [] then ['.']
  else
    let rooted := p.head? == some '/'
    let body := strings.Join ['/'] (cleanElems rooted (strings.Split '/' p) [])
    if rooted then '/' :: body
    else if body = [] then ['.'] else body

end path

namespace filepath

/-- Go `filepath.Base` (Unix): the last element of the path. -/
def Base (p : List Char) : List Char :=
  if p = [] then ['.']
  else
    let q := (p.reverse.dropWhile (· == '/')).reverse
    let b := (q.reverse.takeWhile (· != '/')).reverse
    if b = [] then ['/'] else b

/-- Go `filepath.Join` (Unix): empty elements are ignored, the rest is joined
with `/` and cleaned. -/
def Join (elems : List (List Char)) : List Char :=
  let ne := elems.filter (· != [])
  if ne = [] then [] else path.Clean (strings.Join ['/'] ne)

end filepath

/-! ## Go standard library: `net/url` -/

namespace url

/-- The bytes of the UTF-8 encoding of a rune. -/
def utf8 (c : Char) : List Nat :=
  let n := c.toNat
  if n < 0x80 then [n]
  else if n < 0x800 then [0xC0 + n / 0x40, 0x80 + n % 0x40]
  else if n < 0x10000 then [0xE0 + n / 0x1000, 0x80 + n / 0x40 % 0x40, 0x80 + n % 0x40]
  else [0xF0 + n / 0x40000, 0x80 + n / 0x1000 % 0x40, 0x80 + n / 0x40 % 0x40, 0x80 + n % 0x40]

/-- The modes of `escape` that `URL.String` uses. -/
inductive encoding where
  | encodePath
  | encodeHost
  deriving DecidableEq, Repr

/-- Go `shouldEscape` on a byte.  The bytes 39 and 34 are the single and the
double quotation mark. -/
def shouldEscape (c : Nat) (mode : encoding) : Bool :=
  if ('a'.toNat ≤ c ∧ c ≤ 'z'.toNat) ∨ ('A'.toNat ≤ c ∧ c ≤ 'Z'.toNat) ∨
      ('0'.toNat ≤ c ∧ c ≤ '9'.toNat) then false
  else if mode = .encodeHost ∧
      (c ∈ "!$&()*+,;=:[]<>".toList.map Char.toNat ∨ c = 39 ∨ c = 34) then false
  else if c ∈ "-_.~".toList.map Char.toNat then false
  else if c ∈ "$&+,/:;=?@".toList.map Char.toNat then
    match mode with
    | .encodePath => c == '?'.toNat
    | .encodeHost => true
  else true

/-- The upper-case hexadecimal digit of a number below 16. -/
def upperhex (n : Nat) : Char := "0123456789ABCDEF".toList.getD n '0'

/-- Go `escape` on the bytes of a text. -/
def escapeBytes (mode : encoding) : List Nat → List Char
  | [] => []
  | c :: rest =>
    if shouldEscape c mode then
      '%' :: upperhex (c / 16) :: upperhex (c % 16) :: escapeBytes mode rest
    else Char.ofNat c :: escapeBytes mode rest

/-- Go `escape(s, mode)`. -/
def escape (s : List Char) (mode : encoding) : List Char :=
  escapeBytes mode (s.flatMap utf8)

/-- Go `url.URL` as the handlers build it: the fields `Scheme`, `Host`, `Path`
and `RawQuery`, all others empty. -/
structure URL where
  Scheme : List Char
  Host : List Char
  Path : List Char
  RawQuery : List Char := []
  deriving DecidableEq, Repr

/-- Go `URL.EscapedPath` for an empty `RawPath`. -/
def URL.EscapedPath (u : URL) : List Char :=
  if u.Path = ['*'] then ['*'] else escape u.Path .encodePath

/-- Go `URL.String`. -/
def URL.String (u : URL) : List Char :=
  let scheme := if u.Scheme ≠ [] then u.Scheme ++ [':'] else []
  let authority :=
    if u.Scheme ≠ [] ∨ u.Host ≠ [] then
      (if u.Host ≠ [] ∨ u.Path ≠ [] then "//".toList else []) ++
        (if u.Host ≠ [] then escape u.Host .encodeHost else [])
    else []
  let path := u.EscapedPath
  let slash := if path ≠ [] ∧ path.head? ≠ some '/' ∧ u.Host ≠ [] then ['/'] else []
  let dot :=
    if scheme ++ authority ++ slash = [] ∧ ':' ∈ path.takeWhile (· != '/') then "./".toList
    else []
  scheme ++ authority ++ slash ++ dot ++ path ++
    (if u.RawQuery ≠ [] then '?' :: u.RawQuery else [])

end url

/-! ## Requests, responses and the environment of a handler -/

/-- What a handler reads of an `*http.Request`. -/
structure Request where
  /-- The field `req.Method`. -/
  method : List Char
  /-- The field `req.URL.Path`. -/
  path : List Char
  /-- The field `req.URL.RawQuery`. -/
  rawQuery : List Char := []
  /-- The value `req.Header.Get("X-Spegel-Mirrored")`, empty when absent. -/
  mirrored : List Char := []
  /-- The user name and password of `req.BasicAuth()`, empty when absent. -/
  basicAuth : List Char × List Char := ([], [])
  /-- Whether `req.TLS != nil`. -/
  tls : Bool := false
  /-- When `some i`: `req.Context().Done()` is what the `select` of the
  mirror loop receives in its iteration `i` (counted from 0). -/
  cancelAfter : Option Nat := none

/-- A call on the response writer (`mux.ResponseWriter`, `http.ResponseWriter`
and the `net/http` helpers that take it). -/
inductive RwCall where
  | setHandler (name : List Char)
  | writeHeader (status : Nat)
  | writeError (status : Nat)
  | write (bytes : List Char)
  | httpError (status : Nat)
  | serveFile (file : List Char)
  | serveContent (bytes : List Char)
  deriving DecidableEq, Repr

/-- A call on a collaborator of the handlers. -/
inductive Call where
  | routerResolve (key : List Char)
  | routerAdvertise (keys : List (List Char))
  | ociResolve (ref : List Char)
  | ociSize (dgst : List Char)
  | ociGetManifest (dgst : List Char)
  | ociGetBlob (dgst : List Char)
  | peerRequest (peer method url mirrored : List Char)
  | upstreamRequest (method url : List Char)
  deriving DecidableEq, Repr

/-- The answer of an HTTP client to a request sent to a peer. -/
inductive PeerResult where
  /-- The request could not be built or `client.Do` returned an error. -/
  | failed
  /-- A response arrived.  With `readFails = some k` reading the body yields
  its first `k` bytes and then an error; with `none` the whole body. -/
  | response (status : Nat) (body : List Char) (readFails : Option Nat)
  deriving DecidableEq, Repr

/-- The answer of the upstream origin. -/
inductive UpstreamResult where
  /-- Go `http.NewRequestWithContext` returned an error. -/
  | requestError
  /-- Go `client.Do` returned an error. -/
  | failed
  /-- A response arrived; `finalPath` is `resp.Request.URL.Path`, the path of
  the last request after redirects. -/
  | response (status : Nat) (finalPath : List Char) (body : List Char)
      (readFails : Option Nat)
  deriving DecidableEq, Repr

/-- Regular files by path. -/
abbrev FS := List Char → Option (List Char)

/-- The file system after `file` has been written with `content`. -/
def FS.put (fs : FS) (file content : List Char) : FS :=
  fun q => if q = file then some content else fs q

/-- What the collaborators answer. -/
structure Env where
  /-- Go `Router.Resolve(ctx, key, count)`: `none` for an error, else the
  peers the channel delivers before it is closed, in order. -/
  resolve : List Char → Option (List (List Char))
  /-- Go `client.Do` for a request to a peer: peer, method, path. -/
  peerDo : List Char → List Char → List Char → PeerResult
  /-- Go `client.Do` for a request to the upstream: method, URL. -/
  upstreamDo : List Char → List Char → UpstreamResult
  /-- Go `ociClient.Resolve(ctx, ref)`: the digest, `none` for an error. -/
  ociResolve : List Char → Option (List Char) := fun _ => none
  /-- Go `ociClient.Size(ctx, dgst)`. -/
  ociSize : List Char → Option Nat := fun _ => none
  /-- Go `ociClient.GetManifest(ctx, dgst)`: the bytes (the media type is a
  header). -/
  ociGetManifest : List Char → Option (List Char) := fun _ => none
  /-- Go `ociClient.GetBlob(ctx, dgst)`. -/
  ociGetBlob : List Char → Option (List Char) := fun _ => none
  /-- Whether `os.MkdirAll(dir)` returns an error. -/
  mkdirFails : List Char → Bool := fun _ => false
  /-- Whether `os.Create(file)` / `os.WriteFile(file)` returns an error. -/
  createFails : List Char → Bool := fun _ => false

/-- The observable state a handler works on. -/
structure World where
  /-- Calls on the response writer, oldest first. -/
  rw : List RwCall := []
  /-- Calls on the collaborators, oldest first. -/
  calls : List Call := []
  /-- The file system. -/
  fs : FS := fun _ => none

/-- Record a call on the response writer. -/
def World.respond (w : World) (c : RwCall) : World := { w with rw := w.rw ++ [c] }

/-- Record a call on a collaborator. -/
def World.call (w : World) (c : Call) : World := { w with calls := w.calls ++ [c] }

/-- Go `os.Stat(file)` returned no error. -/
def World.exists (w : World) (file : List Char) : Bool := (w.fs file).isSome

/-- Write a file. -/
def World.putFile (w : World) (file content : List Char) : World :=
  { w with fs := w.fs.put file content }

/-- The bytes delivered by reading a response body to its end or to its
read error. -/
def delivered (body : List Char) : Option Nat → List Char
  | none => body
  | some k => body.take k

/-- The status line the client receives: the first status written
(`net/http` ignores later ones), 200 when a body is written first. -/
def clientStatus : List RwCall → Option Nat
  | [] => none
  | .writeHeader s :: _ => some s
  | .writeError s :: _ => some s
  | .httpError s :: _ => some s
  | .write _ :: _ => some 200
  | .setHandler _ :: rest => clientStatus rest
  | .serveFile _ :: _ => none
  | .serveContent _ :: _ => none

/-- The body bytes the handler itself wrote with `Write`. -/
def clientBody : List RwCall → List Char
  | [] => []
  | .write b :: rest => b ++ clientBody rest
  | _ :: rest => clientBody rest

/-! ## Container handler: `pkg/registry/registry.go` -/

/-- The kinds of `oci.DistributionPath`. -/
inductive DistributionKind where
  | manifest
  | blob
  | other
  deriving DecidableEq, Repr

/-- Modelled from the spec: `oci.DistributionPath`, the type is declared in a
file of `pkg/oci` that is not among the sources.  The spec gives the fields
`{ registry, repository, kind, reference, digest }`. -/
structure DistributionPath where
  kind : DistributionKind
  registry : List Char
  name : List Char
  tag : List Char := []
  digest : List Char := []
  deriving DecidableEq, Repr

/-- Modelled from the spec: `DistributionPath.Reference`, missing with the
type.  "Tag keys are exactly `<registry>/<repo>:<tag>`", "Digest keys are
`<algo>:<hex>`". -/
def DistributionPath.Reference (d : DistributionPath) : List Char :=
  if d.digest ≠ [] then d.digest else d.registry ++ ['/'] ++ d.name ++ [':'] ++ d.tag

/-- Modelled from the spec: `DistributionPath.IsLatestTag`, missing with the
type.  "tags named exactly `latest`". -/
def DistributionPath.IsLatestTag (d : DistributionPath) : Bool :=
  d.tag == "latest".toList

/-- The fields of `Registry` the handlers read.  `parse` stands for
`oci.ParseDistributionPath(req.URL)`, which is not among the sources:
`none` is its error. -/
structure Registry where
  username : List Char := []
  password : List Char := []
  resolveLatestTag : Bool := true
  parse : List Char → List Char → Option DistributionPath

/-- The constant `MirroredHeaderKey`: the name of the header whose value is
`Request.mirrored`. -/
def MirroredHeaderKey : List Char := "X-Spegel-Mirrored".toList

/-- The value of the header `MirroredHeaderKey` that marks a request as
mirrored. -/
def mirroredValue : List Char := "true".toList

/-- The URL `u` of `Registry.forwardRequest`, as `u.String()` prints it. -/
def Registry.forwardURL (req : Request) (peer : List Char) : List Char :=
  let forwardScheme := if req.tls then "https".toList else "http".toList
  url.URL.String
    { Scheme := forwardScheme, Host := peer, Path := req.path, RawQuery := req.rawQuery }

/-- Go `Registry.forwardRequest`: the request is sent to the peer with the
method, path and query of the client request and its headers.  The result is
`true` for a `nil` error. -/
def Registry.forwardRequest (env : Env) (req : Request) (peer : List Char) (w : World) :
    Bool × World :=
  let w := w.call (.peerRequest peer req.method (Registry.forwardURL req peer) req.mirrored)
  match env.peerDo peer req.method req.path with
  | .failed => (false, w)
  | .response status body readFails =>
    if status ≠ 200 ∧ status ≠ 206 then (false, w)
    else
      let w := w.respond (.writeHeader status)
      match readFails with
      | some k => (false, w.respond (.write (body.take k)))
      | none => (true, w.respond (.write body))

/-- The `for { select { ... } }` loop of `Registry.handleMirror` over the
peers the channel still holds; `i` counts the iterations done. -/
def Registry.mirrorLoop (env : Env) (req : Request) : List (List Char) → Nat → World → World
  | [], i, w =>
    if req.cancelAfter = some i then w.respond (.writeError 404)
    else w.respond (.writeError 404)
  | peer :: rest, i, w =>
    if req.cancelAfter = some i then w.respond (.writeError 404)
    else
      match Registry.forwardRequest env req peer w with
      | (true, w') => w'
      | (false, w') => Registry.mirrorLoop env req rest (i + 1) w'

/-- Go `Registry.handleMirror`. -/
def Registry.handleMirror (r : Registry) (env : Env) (req : Request) (dist : DistributionPath)
    (w : World) : World :=
  if !r.resolveLatestTag && dist.IsLatestTag then w.respond (.writeHeader 404)
  else
    let w := w.call (.routerResolve dist.Reference)
    match env.resolve dist.Reference with
    | none => w.respond (.writeError 500)
    | some peers => Registry.mirrorLoop env req peers 0 w

/-- Go `Registry.handleManifest`. -/
def Registry.handleManifest (env : Env) (req : Request) (dist : DistributionPath) (w : World) :
    World :=
  let resolved : World × Option (List Char) :=
    if dist.digest = [] then
      (w.call (.ociResolve dist.Reference), env.ociResolve dist.Reference)
    else (w, some dist.digest)
  match resolved with
  | (w, none) => w.respond (.writeError 404)
  | (w, some dgst) =>
    let w := w.call (.ociGetManifest dgst)
    match env.ociGetManifest dgst with
    | none => w.respond (.writeError 404)
    | some b =>
      if req.method = "HEAD".toList then w
      else w.respond (.write b)

/-- Go `Registry.handleBlob`. -/
def Registry.handleBlob (env : Env) (req : Request) (dist : DistributionPath) (w : World) :
    World :=
  let w := w.call (.ociSize dist.digest)
  match env.ociSize dist.digest with
  | none => w.respond (.writeError 500)
  | some _ =>
    if req.method = "HEAD".toList then w
    else
      let w := w.call (.ociGetBlob dist.digest)
      match env.ociGetBlob dist.digest with
      | none => w.respond (.writeError 500)
      | some b => w.respond (.serveContent b)

/-- The `switch dist.Kind` at the end of `Registry.registryHandler`. -/
def Registry.serve (env : Env) (req : Request) (dist : DistributionPath) (w : World) : World :=
  match dist.kind with
  | .manifest => Registry.handleManifest env req dist (w.respond (.setHandler "manifest".toList))
  | .blob => Registry.handleBlob env req dist (w.respond (.setHandler "blob".toList))
  | .other => w.respond (.writeError 404)

/-- Go `Registry.registryHandler`. -/
def Registry.registryHandler (r : Registry) (env : Env) (req : Request) (w : World) : World :=
  let w := w.respond (.setHandler "registry".toList)
  if (r.username ≠ [] ∨ r.password ≠ []) ∧
      (r.username ≠ req.basicAuth.1 ∨ r.password ≠ req.basicAuth.2) then
    w.respond (.writeError 401)
  else if path.Clean req.path = "/v2".toList then
    (w.respond (.setHandler "v2".toList)).respond (.writeHeader 200)
  else
    match r.parse req.path req.rawQuery with
    | none => w.respond (.writeError 404)
    | some dist =>
      if req.mirrored ≠ mirroredValue then
        let req := { req with mirrored := mirroredValue }
        let probe : World × Bool :=
          if dist.digest = [] then
            (w.call (.ociResolve dist.Reference), (env.ociResolve dist.Reference).isSome)
          else (w.call (.ociSize dist.digest), (env.ociSize dist.digest).isSome)
        match probe with
        | (w, false) =>
          Registry.handleMirror r env req dist (w.respond (.setHandler "mirror".toList))
        | (w, true) => Registry.serve env req dist w
      else Registry.serve env req dist w

/-! ## Wheel handler: `pkg/pip/pip.go` -/

/-- The fields of `PipClient` the handler reads. -/
structure PipClient where
  PipCacheDir : List Char
  FallbackIndex : List Char

/-- The origin prefix of artifact links, first pattern of the index rewrite. -/
def filesOrigin : List Char := "https://files.pythonhosted.org/packages/".toList

/-- The origin prefix of index links, second pattern of the index rewrite. -/
def simpleOrigin : List Char := "https://pypi.org/simple/".toList

/-- The key of the wheel family: `fmt.Sprintf("pip:%s", strings.ToLower(name))`. -/
def pipKey (name : List Char) : List Char := "pip:".toList ++ strings.ToLower name

/-- The two `strings.ReplaceAll` of `serveFromFallback` on an index body. -/
def rewriteIndex (body : List Char) : List Char :=
  strings.ReplaceAll (strings.ReplaceAll body filesOrigin "/packages/".toList)
    simpleOrigin "/simple/".toList

/-- The local variable `cacheFile` of `PipClient.forwardRequest`. -/
def PipClient.peerCacheFile (p : PipClient) (req : Request) (name : List Char) : List Char :=
  let cacheDir := filepath.Join [p.PipCacheDir]
  filepath.Join [cacheDir, name] ++
    (if strings.HasPrefix req.path "/simple/".toList then ".html".toList else [])

/-- Go `PipClient.forwardRequest`.  The result is `true` for a `nil` error. -/
def PipClient.forwardRequest (p : PipClient) (env : Env) (req : Request)
    (peerAddr name : List Char) (w : World) : Bool × World :=
  let u := url.URL.String { Scheme := "http".toList, Host := peerAddr, Path := req.path }
  let w := w.call (.peerRequest peerAddr "GET".toList u req.mirrored)
  match env.peerDo peerAddr "GET".toList req.path with
  | .failed => (false, w)
  | .response status body readFails =>
    if status ≠ 200 then (false, w)
    else
      let w := w.respond (.writeHeader status)
      let cacheFile := p.peerCacheFile req name
      if env.createFails cacheFile then
        match readFails with
        | some k => (false, w.respond (.write (body.take k)))
        | none =>
          (true, (w.respond (.write body)).call (.routerAdvertise [pipKey name]))
      else
        match readFails with
        | some k =>
          (false, (w.putFile cacheFile (body.take k)).respond (.write (body.take k)))
        | none =>
          (true, ((w.putFile cacheFile body).respond (.write body)).call
            (.routerAdvertise [pipKey name]))

/-- Go `PipClient.serveFromFallback`. -/
def PipClient.serveFromFallback (p : PipClient) (env : Env) (req : Request)
    (name : List Char) (isIndex isArtifact : Bool) (trimmedPath : List Char) (w : World) :
    World :=
  let trimmedPath :=
    if isIndex && !strings.HasSuffix trimmedPath ['/'] then trimmedPath ++ ['/']
    else trimmedPath
  let upstreamURL :=
    if isIndex then strings.TrimSuffix p.FallbackIndex ['/'] ++ ['/'] ++ trimmedPath
    else if isArtifact then filesOrigin ++ trimmedPath
    else strings.TrimSuffix p.FallbackIndex ['/'] ++ ['/'] ++ trimmedPath
  match env.upstreamDo req.method upstreamURL with
  | .requestError => w.respond (.httpError 500)
  | .failed => (w.call (.upstreamRequest req.method upstreamURL)).respond (.httpError 502)
  | .response status finalPath body readFails =>
    let w := (w.call (.upstreamRequest req.method upstreamURL)).respond (.writeHeader status)
    let finalName := if isArtifact then filepath.Base finalPath else name
    let cacheDir := filepath.Join [p.PipCacheDir]
    if isIndex then
      match readFails with
      | some _ => w.respond (.httpError 500)
      | none =>
        let rewritten := rewriteIndex body
        let w := w.respond (.write rewritten)
        if env.mkdirFails cacheDir then w
        else
          let cacheFile := filepath.Join [cacheDir, finalName ++ ".html".toList]
          if env.createFails cacheFile then w
          else (w.putFile cacheFile rewritten).call (.routerAdvertise [pipKey finalName])
    else if isArtifact && (strings.HasSuffix finalName ".whl".toList ||
        strings.HasSuffix finalName ".tar.gz".toList) && !env.mkdirFails cacheDir then
      let cachePath := filepath.Join [cacheDir, finalName]
      if env.createFails cachePath then w.respond (.write (delivered body readFails))
      else
        let w := (w.putFile cachePath (delivered body readFails)).respond
          (.write (delivered body readFails))
        match readFails with
        | some _ => w
        | none => w.call (.routerAdvertise [pipKey finalName])
    else w.respond (.write (delivered body readFails))

/-- The `for peer := range peerCh` loop of `PipRegistryHandler`; `none` when
no peer served the request. -/
def PipClient.peerLoop (p : PipClient) (env : Env) (req : Request) (name : List Char) :
    List (List Char) → World → Option World × World
  | [], w => (none, w)
  | peer :: rest, w =>
    match p.forwardRequest env req peer name w with
    | (true, w') => (some w', w')
    | (false, w') => PipClient.peerLoop p env req name rest w'

/-- Go `PipClient.PipRegistryHandler`. -/
def PipClient.PipRegistryHandler (p : PipClient) (env : Env) (req : Request) (w : World) :
    World :=
  let cleanPath := path.Clean req.path
  if cleanPath = "/simple".toList ∨ cleanPath = "/simple/".toList then
    (w.respond (.writeHeader 200)).respond (.write "clyde pip simple index".toList)
  else
    let isArtifact := strings.HasPrefix cleanPath "/packages/".toList
    let isIndex := strings.HasPrefix cleanPath "/simple/".toList && !isArtifact
    let name := filepath.Base cleanPath
    if name = [] then w.respond (.httpError 400)
    else
      let trimmedPath :=
        if isIndex then strings.TrimPrefix cleanPath "/simple/".toList
        else if isArtifact then strings.TrimPrefix cleanPath "/packages/".toList
        else cleanPath
      let key := pipKey name
      let cacheDir := filepath.Join [p.PipCacheDir]
      let cacheFile := filepath.Join [cacheDir, name] ++
        (if isIndex then ".html".toList else [])
      if w.exists cacheFile then w.respond (.serveFile cacheFile)
      else
        let w := w.call (.routerResolve key)
        let afterPeers : Option World × World :=
          match env.resolve key with
          | some peers => PipClient.peerLoop p env req name peers w
          | none => (none, w)
        match afterPeers with
        | (some w', _) => w'
        | (none, w') => p.serveFromFallback env req name isIndex isArtifact trimmedPath w'

/-- A directory entry as `filepath.Walk` hands it to its callback: the error
of the walk for this entry, whether it is a directory, its base name. -/
structure WalkEntry where
  err : Bool := false
  isDir : Bool := false
  name : List Char
  /-- The path of the entry, as `filepath.Walk` passes it. -/
  path : List Char := []

/-- Go `PipClient.WalkPipDir` on the entries `filepath.Walk` visits, in order;
`none` is the error return. -/
def WalkPipDir : List WalkEntry → Option (List (List Char))
  | [] => some []
  | e :: rest =>
    if e.err then none
    else if e.isDir then WalkPipDir rest
    else
      let lower := strings.ToLower e.name
      if strings.HasSuffix lower ".whl".toList || strings.HasSuffix lower ".tar.gz".toList
          || strings.HasSuffix lower ".html".toList then
        (WalkPipDir rest).map (fun keys => ("pip:".toList ++ strings.ToLower e.name) :: keys)
      else WalkPipDir rest

/-! ## Model handler: `pkg/hf/hf.go` -/

/-- The fields of `HFClient` the handler reads. -/
structure HFClient where
  HFCacheDir : List Char
  BaseURL : List Char := "https://huggingface.co".toList

/-- The map `excludeFiles` of `HuggingFaceRegistryHandler`. -/
def excludeFiles (filename : List Char) : Bool :=
  filename = "model.safetensors.index.json".toList ||
  filename = "tokenizer.json".toList ||
  filename = "tokenizer_config.json".toList ||
  filename = "generation_config.json".toList

/-- Go `HFClient.forwardRequest`; the fifth parameter of the source (the cache
file path) is unnamed there and unused.  The result is `true` for a `nil`
error. -/
def HFClient.forwardRequest (env : Env) (req : Request) (peerAddr key : List Char)
    (isResolve : Bool) (w : World) : Bool × World :=
  let isXetAPI := strings.Contains req.path "/xet-read-token/".toList
  let target :=
    if isXetAPI && req.method = "HEAD".toList then req.path
    else if isXetAPI && req.method = "GET".toList then strings.TrimPrefix key "hf:".toList
    else if isResolve then req.path
    else strings.TrimPrefix key "hf:".toList
  let u := url.URL.String { Scheme := "http".toList, Host := peerAddr, Path := target }
  let w := w.call (.peerRequest peerAddr "GET".toList u req.mirrored)
  match env.peerDo peerAddr "GET".toList target with
  | .failed => (false, w)
  | .response status body readFails =>
    if status ≠ 200 ∧ status ≠ 206 then (false, w)
    else
      let w := w.respond (.writeHeader status)
      if req.method = "HEAD".toList then (true, w.call (.routerAdvertise [key]))
      else
        match readFails with
        | some k => (false, w.respond (.write (body.take k)))
        | none => (true, (w.respond (.write body)).call (.routerAdvertise [key]))

/-- Go `HFClient.serveFromFallback` (its result is always `true`). -/
def HFClient.serveFromFallback (h : HFClient) (env : Env) (req : Request)
    (cleanPath : List Char) (isResolve isAPI : Bool) (key : List Char) (w : World) : World :=
  let pathForUpstream :=
    if isAPI then strings.TrimPrefix cleanPath "/huggingface".toList
    else if isResolve then strings.TrimPrefix cleanPath "/huggingface".toList
    else cleanPath
  let upstreamURL := h.BaseURL ++ pathForUpstream
  match env.upstreamDo req.method upstreamURL with
  | .requestError => w.respond (.httpError 500)
  | .failed => (w.call (.upstreamRequest req.method upstreamURL)).respond (.httpError 502)
  | .response status _ body readFails =>
    let w := w.call (.upstreamRequest req.method upstreamURL)
    if (300 ≤ status ∧ status < 400) ∧ req.method = "HEAD".toList then
      w.respond (.writeHeader status)
    else if req.method = "HEAD".toList then w.respond (.writeHeader status)
    else
      let w := w.respond (.writeHeader status)
      if req.method = "GET".toList then
        (w.respond (.write (delivered body readFails))).call (.routerAdvertise [key])
      else w

/-- The outcome of the local cache lookup of `HuggingFaceRegistryHandler`. -/
inductive HFLookup where
  /-- An index expression `parts[i]` was out of range: a run-time panic. -/
  | panic
  /-- The handler returned. -/
  | done (w : World)
  /-- The handler goes on with these `cacheFilePath` and `filename`. -/
  | miss (cacheFilePath filename : List Char)

/-- The block `if len(parts) >= 2 { ... }` of `HuggingFaceRegistryHandler`,
after `modelDir` has been computed: the `/resolve/` and `/api/` lookup. -/
def HFClient.lookupSnapshot (key : List Char) (isResolve isAPI : Bool)
    (parts : List (List Char)) (modelDir : List Char) (w : World) : HFLookup :=
  if isResolve && decide (parts.length ≥ 5) then
    let filename := strings.Join ['/'] (parts.drop 4)
    let refFile := filepath.Join [modelDir, "refs".toList, "main".toList]
    match w.fs refFile with
    | some shaBytes =>
      let sha := strings.TrimSpace shaBytes
      let snapshotFile := filepath.Join [modelDir, "snapshots".toList, sha, filename]
      if w.exists snapshotFile then .done (w.respond (.serveFile snapshotFile))
      else .miss snapshotFile filename
    | none => .miss [] filename
  else if isAPI && decide (parts.length > 5) then
    let sha := parts.getD 5 []
    let filename := (strings.Split '/' key).getLastD []
    let snapshotFile := filepath.Join [modelDir, "snapshots".toList, sha, filename]
    if w.exists snapshotFile then .done (w.respond (.serveFile snapshotFile))
    else .miss snapshotFile filename
  else .miss [] []

/-- The local cache lookup of `HuggingFaceRegistryHandler`. -/
def HFClient.lookup (h : HFClient) (key : List Char) (isResolve isBlob isAPI : Bool)
    (parts : List (List Char)) (w : World) : HFLookup :=
  if parts.length ≥ 2 then
    let modelDir : Option (List Char) :=
      if isResolve then
        some (filepath.Join [h.HFCacheDir,
          "models--".toList ++ parts.getD 0 [] ++ "--".toList ++ parts.getD 1 []])
      else if isAPI then
        match parts.get? 2, parts.get? 3 with
        | some org, some model =>
          some (filepath.Join [h.HFCacheDir, "models--".toList ++ org ++ "--".toList ++ model])
        | _, _ => none
      else some []
    match modelDir with
    | none => .panic
    | some modelDir =>
      match HFClient.lookupSnapshot key isResolve isAPI parts modelDir w with
      | .miss cacheFilePath filename =>
        if isBlob && decide (parts.length ≥ 3) then
          let blobFile := filepath.Join [modelDir, "blobs".toList, parts.getLastD []]
          if w.exists blobFile then .done w
          else .miss blobFile filename
        else .miss cacheFilePath filename
      | r => r
  else .miss [] []

/-- The `for peer := range peerCh` loop of `HuggingFaceRegistryHandler`; the
flag tells whether a peer served the request. -/
def HFClient.peerLoop (env : Env) (req : Request) (key : List Char) (isResolve : Bool) :
    List (List Char) → World → Bool × World
  | [], w => (false, w)
  | peer :: rest, w =>
    match HFClient.forwardRequest env req peer key isResolve w with
    | (true, w') => (true, w')
    | (false, w') => HFClient.peerLoop env req key isResolve rest w'

/-- Go `HFClient.HuggingFaceRegistryHandler`; `none` is a run-time panic. -/
def HFClient.HuggingFaceRegistryHandler (h : HFClient) (env : Env) (req : Request)
    (w : World) : Option World :=
  let cleanPath := path.Clean req.path
  let isResolve := strings.Contains cleanPath "/resolve/".toList
  let isBlob := strings.Contains cleanPath "/blobs/".toList ||
    strings.Contains cleanPath "/cdn-lfs".toList
  let isAPI := strings.Contains cleanPath "/api/".toList ||
    strings.Contains cleanPath "/resolve-cache/".toList
  let key := "hf:".toList ++ cleanPath
  if !isResolve && !isBlob && !isAPI then some (w.respond (.httpError 400))
  else
    let parts := strings.Split '/' (strings.TrimPrefix cleanPath "/huggingface/".toList)
    match h.lookup key isResolve isBlob isAPI parts w with
    | .panic => none
    | .done w => some w
    | .miss cacheFilePath filename =>
      let afterPeers : Bool × World :=
        if isResolve && cacheFilePath != [] && req.method = "GET".toList
            && !excludeFiles filename then
          let w := w.call (.routerResolve key)
          match env.resolve key with
          | some peers => HFClient.peerLoop env req key isResolve peers w
          | none => (false, w)
        else (false, w)
      match afterPeers with
      | (true, w) => some w
      | (false, w) => some (h.serveFromFallback env req cleanPath isResolve isAPI key w)

/-! ## Example configurations -/

/-- A wheel handler with cache directory `/cache`. -/
def demoPip : PipClient :=
  { PipCacheDir := "/cache".toList, FallbackIndex := "https://pypi.org/simple/".toList }

/-- A model handler with cache directory `/hf`. -/
def demoHF : HFClient := { HFCacheDir := "/hf".toList }

/-- The path of an absolute URL without query: what follows the host. -/
def demoURLPath (url : List Char) : List Char :=
  (strings.TrimPrefix (strings.TrimPrefix url "https://".toList) "http://".toList).dropWhile
    (· != '/')

/-- One peer, which answers every request with 200 and `peer content`; the
upstream answers every request with 200 and `upstream content`, without
redirect. -/
def demoEnv : Env :=
  { resolve := fun _ => some ["10.0.0.2:5000".toList],
    peerDo := fun _ _ _ => .response 200 "peer content".toList none,
    upstreamDo := fun _ url => .response 200 (demoURLPath url) "upstream content".toList none }

/-- A model cache that holds `refs/dev` of `org/model`, with the commit
`abc123`, and the file `LICENSE` of that snapshot; there is no `refs/main`. -/
def demoModelDev : FS := fun q =>
  if q = "/hf/models--org--model/refs/dev".toList then some "abc123\n".toList
  else if q = "/hf/models--org--model/snapshots/abc123/LICENSE".toList then
    some "hello-license".toList
  else none

/-- A model cache that holds only `refs/main` of `org/model`, with the commit
`abc123`. -/
def demoModelRefs : FS := fun q =>
  if q = "/hf/models--org--model/refs/main".toList then some "abc123\n".toList else none

/-- An index page with one link to the artifact origin. -/
def demoIndexBody : List Char :=
  "<a href=https://files.pythonhosted.org/packages/n.whl>n.whl</a>".toList

/-! ## Predicates used in the statements -/

/-- Whether `Registry.forwardRequest` to this peer returns `nil`. -/
def Registry.forwardOk (env : Env) (req : Request) (peer : List Char) : Bool :=
  (Registry.forwardRequest env req peer {}).1

/-- The container handler's `forwardRequest` to this peer fails before
anything is relayed: the request fails or the status is neither 200 nor
206. -/
def Registry.peerRejected (env : Env) (req : Request) (peer : List Char) : Bool :=
  match env.peerDo peer req.method req.path with
  | .failed => true
  | .response status _ _ => status != 200 && status != 206

/-- The wheel handler's `forwardRequest` to this peer fails before anything
is relayed: the request fails or the status is not 200. -/
def PipClient.peerRejected (env : Env) (req : Request) (peer : List Char) : Bool :=
  match env.peerDo peer "GET".toList req.path with
  | .failed => true
  | .response status _ _ => status != 200

/-- The request the wheel handler sends to a peer. -/
def PipClient.peerCall (req : Request) (peer : List Char) : Call :=
  .peerRequest peer "GET".toList
    (url.URL.String { Scheme := "http".toList, Host := peer, Path := req.path }) req.mirrored

/-- The scheme and host of the artifact origin. -/
def filesHost : List Char := "https://files.pythonhosted.org".toList

/-- The scheme and host of the index origin. -/
def simpleHost : List Char := "https://pypi.org".toList

/-- Neither list is the start of the other. -/
def Apart (v r : List Char) : Prop := ¬ v <+: r ∧ ¬ r <+: v

instance (v r : List Char) : Decidable (Apart v r) := by
  unfold Apart
  exact inferInstance

/-- The call relays a peer response: `WriteHeader` or `Write`. -/
def RwCall.isRelay : RwCall → Bool
  | .writeHeader _ => true
  | .write _ => true
  | _ => false

/-- The call is a read of the local content store. -/
def Call.isOci : Call → Bool
  | .ociResolve _ => true
  | .ociSize _ => true
  | .ociGetManifest _ => true
  | .ociGetBlob _ => true
  | _ => false

/-- From `w` to `w'` the collaborators were called only to read the local
content store. -/
def OciOnly (w w' : World) : Prop :=
  ∃ extra, w'.calls = w.calls ++ extra ∧ ∀ c ∈ extra, c.isOci = true

/-- The manifest the request asks for is not in the local content store: the
tag does not resolve, or the digest has no manifest. -/
def Registry.manifestAbsent (env : Env) (dist : DistributionPath) : Prop :=
  (dist.digest = [] ∧ env.ociResolve dist.Reference = none) ∨
  (∃ dgst, (if dist.digest = [] then env.ociResolve dist.Reference else some dist.digest) =
      some dgst ∧ env.ociGetManifest dgst = none)

/-- A content store in which nothing is present. -/
def demoEmptyStore : Env :=
  { resolve := fun _ => some [], peerDo := fun _ _ _ => .failed,
    upstreamDo := fun _ _ => .failed }

/-! ## Router: `pkg/routing/p2p.go` -/

/-- A result of Go code that can also fail with an error or a run-time
panic. -/
inductive Outcome (α : Type) where
  | ok (a : α)
  | err
  | panic
  deriving DecidableEq, Repr

/-- The protocol of the first component of a multiaddress. -/
inductive MaProto where
  | ip4
  | ip6
  | other
  deriving DecidableEq, Repr

/-- A multiaddress (`ma.Multiaddr`) as far as the router reads it: the
protocol of its first component, the raw bytes of that component (the IP
address for `ip4` and `ip6`) and the text of the components after it. -/
structure Multiaddr where
  proto : MaProto
  raw : List Nat := []
  rest : List Char := []
  deriving DecidableEq, Repr

/-- Go `netip.AddrPort`: the bytes of the IP address and the port. -/
structure AddrPort where
  addr : List Nat
  port : Nat
  deriving DecidableEq, Repr

/-- Go `peer.AddrInfo`: the identity of a peer (empty when unknown) and its
addresses. -/
structure AddrInfo where
  ID : List Char
  Addrs : List Multiaddr
  deriving DecidableEq, Repr

/-- Go `net.IP.To4`: the 4-byte form of an IPv4 address, also when it is given
as an IPv4-mapped IPv6 address. -/
def ipTo4 (ip : List Nat) : Option (List Nat) :=
  if ip.length = 4 then some ip
  else if ip.length = 16 ∧ ip.take 10 = List.replicate 10 0 ∧ (ip.drop 10).take 2 = [255, 255]
  then some (ip.drop 12)
  else none

/-- Go `net.IPv6loopback`. -/
def IPv6loopback : List Nat := List.replicate 15 0 ++ [1]

/-- Go `net.IP.IsLoopback`. -/
def ipIsLoopback (ip : List Nat) : Bool :=
  match ipTo4 ip with
  | some ip4 => ip4.head? == some 127
  | none => ip == IPv6loopback

/-- Go `net.IP.Equal`: an IPv4 address equals its IPv4-mapped IPv6 form. -/
def ipEqual (ip x : List Nat) : Bool :=
  if ip.length = x.length then ip == x
  else if ip.length = 4 ∧ x.length = 16 then
    x.take 12 == List.replicate 10 0 ++ [255, 255] && ip == x.drop 12
  else if ip.length = 16 ∧ x.length = 4 then
    ip.take 12 == List.replicate 10 0 ++ [255, 255] && ip.drop 12 == x
  else false

/-- Go `manet.ToIP`: the IP address of a multiaddress that starts with an IP
component, `none` for its error. -/
def ToIP (m : Multiaddr) : Option (List Nat) :=
  match m.proto with
  | .ip4 => some m.raw
  | .ip6 => some m.raw
  | .other => none

/-- Go `manet.IsIPLoopback`. -/
def IsIPLoopback (m : Multiaddr) : Bool :=
  match m.proto with
  | .ip4 => ipIsLoopback m.raw
  | .ip6 => ipIsLoopback m.raw
  | .other => false

/-- The function `isIp6`: the first component is an `ip6` component. -/
def isIp6 (m : Multiaddr) : Bool := m.proto == .ip6

/-- Go `netip.AddrFromSlice`: `none` unless the slice has 4 or 16 bytes. -/
def AddrFromSlice (ip : List Nat) : Option (List Nat) :=
  if ip.length = 4 ∨ ip.length = 16 then some ip else none

/-- The loop of the address factory in `NewP2PRouter`: the variables `ip4Ma`
and `ip6Ma` after the addresses have been read. -/
def addrFactoryScan :
    List Multiaddr → Option Multiaddr × Option Multiaddr → Option Multiaddr × Option Multiaddr
  | [], acc => acc
  | addr :: rest, (ip4Ma, ip6Ma) =>
    if IsIPLoopback addr then addrFactoryScan rest (ip4Ma, ip6Ma)
    else if isIp6 addr then addrFactoryScan rest (ip4Ma, some addr)
    else addrFactoryScan rest (some addr, ip6Ma)

/-- The address factory `NewP2PRouter` passes to `libp2p.AddrsFactory`. -/
def addrFactory (addrs : List Multiaddr) : List Multiaddr :=
  match addrFactoryScan addrs (none, none) with
  | (_, some ip6Ma) => [ip6Ma]
  | (some ip4Ma, none) => [ip4Ma]
  | (none, none) => []

/-- The constant `PeerIndexKey`. -/
def PeerIndexKey : List Char := "__peer_index__".toList

/-- The fields of `P2PRouter` that `Resolve` and `FetchPeerKeys` use; the map
`peerIDByAddr` is an association list, newest binding first. -/
structure P2PRouter where
  registryPort : Nat
  peerIDByAddr : List (AddrPort × List Char) := []

/-- Go map read `peerIDByAddr[ap]`. -/
def P2PRouter.peerID (r : P2PRouter) (ap : AddrPort) : Option (List Char) :=
  (r.peerIDByAddr.find? (fun e => e.1 == ap)).map (·.2)

/-- Go map write `peerIDByAddr[ap] = id`. -/
def P2PRouter.setPeerID (r : P2PRouter) (ap : AddrPort) (id : List Char) : P2PRouter :=
  { r with peerIDByAddr := (ap, id) :: r.peerIDByAddr }

/-- The channel `peerCh` with its consumer.  `sent` are the values the
channel accepted so far, `attempts` counts the `select` statements run, and
`reads k` is the number of values the consumer has taken from the channel
when the `select` number `k` runs. -/
structure PeerChan where
  cap : Nat
  reads : Nat → Nat
  sent : List AddrPort := []
  attempts : Nat := 0

/-- The statement `select { case peerCh <- ap: default: }`: the value is
accepted when the buffer has a free slot and dropped otherwise. -/
def PeerChan.offer (ch : PeerChan) (ap : AddrPort) : PeerChan :=
  if ch.sent.length - ch.reads ch.attempts < ch.cap then
    { ch with sent := ch.sent ++ [ap], attempts := ch.attempts + 1 }
  else { ch with attempts := ch.attempts + 1 }

/-- The candidate the generic loop of `Resolve` builds from one provider
record, `none` when the record is skipped. -/
def resolveRecord (registryPort : Nat) (addrInfo : AddrInfo) : Option AddrPort :=
  match addrInfo.Addrs with
  | [maddr] =>
    match ToIP maddr with
    | none => none
    | some ip =>
      match AddrFromSlice ip with
      | none => none
      | some ipAddr => some { addr := ipAddr, port := registryPort }
  | _ => none

/-- The generic goroutine of `Resolve` over the provider records
`addrInfoCh` delivers. -/
def resolveLoop (registryPort : Nat) : List AddrInfo → PeerChan → PeerChan
  | [], ch => ch
  | addrInfo :: rest, ch =>
    match resolveRecord registryPort addrInfo with
    | none => resolveLoop registryPort rest ch
    | some peer => resolveLoop registryPort rest (ch.offer peer)

/-- The candidate the peer-index loop of `Resolve` builds from one address,
`none` when the address is skipped. -/
def peerIndexAddr (registryPort : Nat) (maddr : Multiaddr) : Option AddrPort :=
  match ToIP maddr with
  | none => none
  | some ip =>
    match AddrFromSlice ip with
    | none => none
    | some ipAddr => some { addr := ipAddr, port := registryPort }

/-- The inner loop `for _, maddr := range addrInfo.Addrs` of the peer-index
goroutine of `Resolve`. -/
def peerIndexAddrs (id : List Char) : List Multiaddr → P2PRouter × PeerChan → P2PRouter × PeerChan
  | [], st => st
  | maddr :: rest, (r, ch) =>
    match peerIndexAddr r.registryPort maddr with
    | none => peerIndexAddrs id rest (r, ch)
    | some ap => peerIndexAddrs id rest (r.setPeerID ap id, ch.offer ap)

/-- The peer-index goroutine of `Resolve` over the provider records. -/
def peerIndexLoop : List AddrInfo → P2PRouter × PeerChan → P2PRouter × PeerChan
  | [], st => st
  | addrInfo :: rest, st => peerIndexLoop rest (peerIndexAddrs addrInfo.ID addrInfo.Addrs st)

/-- Go `P2PRouter.Resolve`, run until the goroutine has closed `peerCh`:
`providers` are the records `FindProvidersAsync` delivers, `reads` is the
consumer of the channel.  The result is the router afterwards and the values
the channel carried. -/
def P2PRouter.Resolve (r : P2PRouter) (providers : List AddrInfo) (reads : Nat → Nat)
    (key : List Char) (count : Nat) : P2PRouter × List AddrPort :=
  let peerBufferSize := if count = 0 then 20 else count
  let ch : PeerChan := { cap := peerBufferSize, reads := reads }
  if key = PeerIndexKey then
    let st := peerIndexLoop providers (r, ch)
    (st.1, st.2.sent)
  else (r, (resolveLoop r.registryPort providers ch).sent)

/-- The result of `FetchPeerKeys`. -/
inductive FetchResult where
  /-- The error `unknown peer id for ...`. -/
  | unknownPeer
  /-- Another error: the address, the connection or the stream. -/
  | failed
  | keys (data : List Char)
  deriving DecidableEq, Repr

/-- Go `P2PRouter.FetchPeerKeys`; `dial` stands for connecting to the peer,
opening the key-exchange stream and reading it to its end. -/
def P2PRouter.FetchPeerKeys (r : P2PRouter) (dial : List Char → AddrPort → Option (List Char))
    (peerAddr : AddrPort) : FetchResult :=
  match r.peerID peerAddr with
  | none => .unknownPeer
  | some pid =>
    if (ipTo4 peerAddr.addr).isNone then .failed
    else
      match dial pid peerAddr with
      | none => .failed
      | some jsonData => .keys jsonData

/-- The function `hostMatches`, the loop over `addrInfo.Addrs`. -/
def hostMatchesAddrs (hostIP : List Nat) : List Multiaddr → Outcome Bool
  | [] => .ok false
  | addr :: rest =>
    match ToIP addr with
    | none => .err
    | some addrIP => if ipEqual hostIP addrIP then .ok true else hostMatchesAddrs hostIP rest

/-- The function `hostMatches`. -/
def hostMatches (host addrInfo : AddrInfo) : Outcome Bool :=
  if host.ID ≠ [] ∧ addrInfo.ID ≠ [] then .ok (host.ID == addrInfo.ID)
  else
    match host.Addrs with
    | [] => .panic
    | h0 :: _ =>
      match ToIP h0 with
      | none => .err
      | some hostIP => hostMatchesAddrs hostIP addrInfo.Addrs

/-- What `Ready` reads: the result of `bootstrapper.Get` (`none` for its
error), the `peer.AddrInfo` of the host, the size of the routing table of the
DHT and whether `kdht.Bootstrap` succeeds. -/
structure ReadyEnv where
  get : Option (List AddrInfo)
  host : AddrInfo
  tableSize : Nat
  bootstrapOk : Bool := true

/-- The tail of `P2PRouter.Ready`, after the bootstrap peers were looked
at. -/
def readyByTable (env : ReadyEnv) : Outcome Bool :=
  if env.tableSize > 0 then .ok true
  else if env.bootstrapOk then .ok false
  else .err

/-- Go `P2PRouter.Ready`; `err` stands for the result `(false, err)`. -/
def P2PRouter.Ready (env : ReadyEnv) : Outcome Bool :=
  match env.get with
  | none => .err
  | some addrInfos =>
    match addrInfos with
    | [] => .ok false
    | [addrInfo] =>
      match hostMatches env.host addrInfo with
      | .err => .err
      | .panic => .panic
      | .ok true => .ok true
      | .ok false => readyByTable env
    | _ => readyByTable env

/-- An ed25519 private key, by its raw bytes. -/
abbrev PrivKey := List Nat

/-- What decoding the bytes of a key file yields: no PEM block, a block of
another type, a block that does not hold an ed25519 key, or the key. -/
inductive DecodedKey where
  | noBlock
  | wrongType
  | invalid
  | key (k : PrivKey)
  deriving DecidableEq, Repr

/-- The encoding of a key as a PEM block of PKCS#8 bytes and its decoding
(`pem`, `x509` and `crypto` of the Go libraries). -/
structure KeyCodec where
  encode : PrivKey → List Char
  decode : List Char → DecodedKey

/-- Go `NewInMemoryFileSystem`: a new, empty file system in memory. -/
def NewInMemoryFileSystem : FS := fun _ => none

/-- The function `loadOrCreatePrivateKey`.  `generate` is the key
`crypto.GenerateEd25519Key(rand.Reader)` draws (`none` for its error) and
`disk` the file system of the operating system, which the function hands
back: its file operations go to the file system `fs` it has just made with
`NewInMemoryFileSystem`. -/
def loadOrCreatePrivateKey (codec : KeyCodec) (generate : Option PrivKey)
    (dataDir : List Char) (disk : FS) : Outcome PrivKey × FS :=
  let keyPath := filepath.Join [dataDir, "private.key".toList]
  let fs : FS := NewInMemoryFileSystem
  match fs keyPath with
  | none =>
    match generate with
    | none => (.err, disk)
    | some privKey =>
      let _fs := fs.put keyPath (codec.encode privKey)
      (.ok privKey, disk)
  | some b =>
    match codec.decode b with
    | .noBlock => (.panic, disk)
    | .wrongType => (.err, disk)
    | .invalid => (.err, disk)
    | .key privKey => (.ok privKey, disk)

/-- Provider records number `0` to `n - 1`, each of its own peer with the one
address `/ip4/10.0.0.<i>/tcp/5001`. -/
def demoProviders (n : Nat) : List AddrInfo :=
  (List.range n).map fun i =>
    { ID := "peer".toList ++ (Nat.repr i).toList,
      Addrs := [{ proto := .ip4, raw := [10, 0, 0, i], rest := "/tcp/5001".toList }] }

/-- A multiaddress is an IP multiaddress: its first component is `ip4` with 4
bytes or `ip6` with 16 bytes. -/
def Multiaddr.isIP (m : Multiaddr) : Bool :=
  (m.proto == .ip4 && m.raw.length == 4) || (m.proto == .ip6 && m.raw.length == 16)

/-- The bindings the peer-index loop of `Resolve` makes for one provider
record, in the order of its addresses. -/
def recordPairs (registryPort : Nat) (id : List Char) :
    List Multiaddr → List (AddrPort × List Char)
  | [] => []
  | maddr :: rest =>
    match peerIndexAddr registryPort maddr with
    | none => recordPairs registryPort id rest
    | some ap => (ap, id) :: recordPairs registryPort id rest

/-- The bindings the peer-index loop of `Resolve` makes for the provider
records, in the order of the records. -/
def peerIndexPairs (registryPort : Nat) : List AddrInfo → List (AddrPort × List Char)
  | [] => []
  | addrInfo :: rest =>
    recordPairs registryPort addrInfo.ID addrInfo.Addrs ++ peerIndexPairs registryPort rest

/-- One provider record with the `n` addresses `/ip4/10.0.0.<i>/tcp/5001`. -/
def demoManyAddrs (n : Nat) : AddrInfo :=
  { ID := "peer".toList,
    Addrs := (List.range n).map fun i =>
      { proto := .ip4, raw := [10, 0, 0, i], rest := "/tcp/5001".toList } }

/-- The host of the examples: identity `self`, one address `10.0.0.1`. -/
def demoHost : AddrInfo :=
  { ID := "self".toList,
    Addrs := [{ proto := .ip4, raw := [10, 0, 0, 1], rest := "/tcp/5001".toList }] }

/-- Another peer: identity `peer0`, one address `10.0.0.2`. -/
def demoPeer : AddrInfo :=
  { ID := "peer0".toList,
    Addrs := [{ proto := .ip4, raw := [10, 0, 0, 2], rest := "/tcp/5001".toList }] }

/-! ## The state package: `blobs.go`, `workers.go` -/

/-- Go `strings.SplitN(s, sep, n)` for a separator of one character and
`n ≥ 0`. -/
def strings.SplitN (sep : Char) : Nat → List Char → List (List Char)
  | 0, _ => []
  | 1, s => [s]
  | n + 2, s =>
    match s.span (· != sep) with
    | (a, []) => [a]
    | (a, _ :: rest) => a :: strings.SplitN sep (n + 1) rest

/-- The file system after `file` has been removed. -/
def FS.remove (fs : FS) (file : List Char) : FS :=
  fun q => if q = file then none else fs q

namespace digest

/-- The size in bytes of the hash of the algorithms the package `go-digest`
has available: `sha256`, `sha384` and `sha512`. -/
def algorithmSize (a : List Char) : Option Nat :=
  if a = "sha256".toList then some 32
  else if a = "sha384".toList then some 48
  else if a = "sha512".toList then some 64
  else none

/-- A character of `[a-f0-9]`. -/
def isHex (c : Char) : Bool := c.isDigit || ('a'.toNat ≤ c.toNat && c.toNat ≤ 'f'.toNat)

/-- Go `Digest.Algorithm()` of a digest that has a `:`: the text before the
first `:`. -/
def Algorithm (d : List Char) : List Char := d.takeWhile (· != ':')

/-- Go `Digest.Encoded()` of a digest that has a `:`: the text after the
first `:`. -/
def Encoded (d : List Char) : List Char := (d.dropWhile (· != ':')).drop 1

/-- Go `digest.Parse` of the package `go-digest`: the digest when it
validates, `<algorithm>:<hex>` with an available algorithm and a lower-case
hexadecimal text of twice the size of its hash, and `none` for an error. -/
def Parse (s : List Char) : Option (List Char) :=
  if ':' ∉ s ∨ Algorithm s = [] ∨ Encoded s = [] then none
  else
    match algorithmSize (Algorithm s) with
    | none => none
    | some size =>
      if (Encoded s).length = size * 2 ∧ (Encoded s).all isHex = true then some s else none

end digest

namespace state

/-- Go `oci.Image` as far as the state package reads it: `img.String()`, the
fields it copies, what `oci.WalkImage` returns for the image (`none` for an
error, else the digests of the image), and the results of `img.TagName()`
(`none` when its second result is false) and `img.IsLatestTag()`. -/
structure Image where
  name : List Char
  Registry : List Char := []
  Tag : List Char := []
  Digest : List Char := []
  walk : Option (List (List Char))
  TagName : Option (List Char) := none
  IsLatestTag : Bool := false

/-- Go `ImageLayers`. -/
structure ImageLayers where
  ImageName : List Char
  Registry : List Char
  LayerKeys : List (List Char)
  Tag : List Char
  Digest : List Char
  deriving DecidableEq, Repr

/-- Go `KeySource`. -/
structure KeySource where
  PeerAddr : List Char
  ImageName : List Char
  Registry : List Char
  deriving DecidableEq, Repr

/-- The function `isIncludedImage`, the loop over `images`. -/
def isIncludedImageLoop (imageWithTag : List Char) : List (List Char) → Bool
  | [] => false
  | image :: rest =>
    if strings.Contains imageWithTag image then true else isIncludedImageLoop imageWithTag rest

/-- The function `isIncludedImage`. -/
def isIncludedImage (imageWithTag : List Char) (images : List (List Char)) : Bool :=
  if images.length = 0 then false else isIncludedImageLoop imageWithTag images

/-- The function `getLocalBlobs`, the loop over the images `ListImages`
returned. -/
def getLocalBlobsLoop (includedImages : List (List Char)) : List Image → List ImageLayers
  | [] => []
  | img :: rest =>
    match img.walk with
    | none => getLocalBlobsLoop includedImages rest
    | some dgsts =>
      if isIncludedImage img.name includedImages then
        { ImageName := img.name, LayerKeys := dgsts, Registry := img.Registry, Tag := img.Tag,
          Digest := img.Digest } :: getLocalBlobsLoop includedImages rest
      else getLocalBlobsLoop includedImages rest

/-- The function `getLocalBlobs`, the loop that fills `localKeySet` from the
layer keys of the entries. -/
def localKeySet : List ImageLayers → List (List Char)
  | [] => []
  | image :: rest => image.LayerKeys ++ localKeySet rest

/-- The function `getLocalBlobs`.  `listImages` is what `ociClient.ListImages`
returns (`none` for an error).  The result is `none` for an error, else the
entries the JSON text encodes (no entry for the text `[]`) and the set of
local keys (a `nil` set reads as the empty set). -/
def getLocalBlobs (listImages : Option (List Image)) (includedImages : List (List Char)) :
    Option (List ImageLayers × List (List Char)) :=
  match listImages with
  | none => none
  | some imgs =>
    let imageLayers := getLocalBlobsLoop includedImages imgs
    if imageLayers.length = 0 then some ([], [])
    else some (imageLayers, localKeySet imageLayers)

/-- One element of the inventory of a peer after `json.Unmarshal`, as far as
`synchronise` reads it: the field `image_name` when it is a string, the field
`layer_keys` when it is an array (an item is `some` when it is a string) and
the field `registry` when it is a string. -/
structure PeerImage where
  image_name : Option (List Char)
  layer_keys : Option (List (Option (List Char)))
  registry : Option (List Char)
  deriving DecidableEq, Repr

/-- What `synchronise` gets for a peer: `FetchPeerKeys` fails, the answer is
the empty text, the answer does not parse as an array of JSON objects, or the
parsed inventory. -/
inductive PeerFetch where
  | failed
  | empty
  | malformed
  | inventory (imageLayers : List PeerImage)
  deriving DecidableEq, Repr

/-- The map `missingKeyInfo`, its keys in the order they were first set. -/
abbrev MissingKeyInfo := List (List Char × List KeySource)

/-- The lookup `missingKeyInfo[digest]`. -/
def MissingKeyInfo.get : MissingKeyInfo → List Char → Option (List KeySource)
  | [], _ => none
  | (k, v) :: rest, digest => if k = digest then some v else MissingKeyInfo.get rest digest

/-- The assignment `missingKeyInfo[digest] = sources`. -/
def MissingKeyInfo.set : MissingKeyInfo → List Char → List KeySource → MissingKeyInfo
  | [], digest, sources => [(digest, sources)]
  | (k, v) :: rest, digest, sources =>
    if k = digest then (k, sources) :: rest else (k, v) :: MissingKeyInfo.set rest digest sources

/-- The duplicate check of `synchronise`: some existing source has the peer
address and the image name of `source`. -/
def isDuplicate (source : KeySource) : List KeySource → Bool
  | [] => false
  | existing :: rest =>
    if existing.PeerAddr = source.PeerAddr ∧ existing.ImageName = source.ImageName then true
    else isDuplicate source rest

/-- The body of `synchronise` for a layer digest that is missing locally
(workers.go, lines 129 to 150). -/
def addSource (missingKeyInfo : MissingKeyInfo) (digest : List Char) (source : KeySource) :
    MissingKeyInfo :=
  match missingKeyInfo.get digest with
  | some existingSources =>
    if isDuplicate source existingSources then missingKeyInfo
    else missingKeyInfo.set digest (existingSources ++ [source])
  | none => missingKeyInfo.set digest [source]

/-- The loop of `synchronise` over the layers of one image of a peer. -/
def layerLoop (localSet : List (List Char)) (peerAddr imageName registry : List Char) :
    List (Option (List Char)) → MissingKeyInfo → MissingKeyInfo
  | [], m => m
  | none :: rest, m => layerLoop localSet peerAddr imageName registry rest m
  | some digest :: rest, m =>
    if digest ∈ localSet then layerLoop localSet peerAddr imageName registry rest m
    else
      layerLoop localSet peerAddr imageName registry rest
        (addSource m digest { PeerAddr := peerAddr, ImageName := imageName, Registry := registry })

/-- The loop of `synchronise` over the images of the inventory of a peer. -/
def imageLoop (localSet : List (List Char)) (peerAddr : List Char) :
    List PeerImage → MissingKeyInfo → MissingKeyInfo
  | [], m => m
  | image :: rest, m =>
    match image.image_name with
    | none => imageLoop localSet peerAddr rest m
    | some imageName =>
      match image.layer_keys with
      | none => imageLoop localSet peerAddr rest m
      | some layers =>
        match image.registry with
        | none => imageLoop localSet peerAddr rest m
        | some registry =>
          imageLoop localSet peerAddr rest
            (layerLoop localSet peerAddr imageName registry layers m)

/-- The loop of `synchronise` over the peers the channel delivers; a peer is
named by the text `peerAddr.String()`. -/
def peerLoop (fetch : List Char → PeerFetch) (localSet : List (List Char)) :
    List (List Char) → MissingKeyInfo → MissingKeyInfo
  | [], m => m
  | peerAddr :: rest, m =>
    match fetch peerAddr with
    | .failed => peerLoop fetch localSet rest m
    | .empty => peerLoop fetch localSet rest m
    | .malformed => peerLoop fetch localSet rest m
    | .inventory imageLayers =>
      peerLoop fetch localSet rest (imageLoop localSet peerAddr imageLayers m)

/-- What the discovery part of `synchronise` reads: the answer of
`ociClient.ListImages`, the peers the channel of
`router.Resolve(ctx, PeerIndexKey, 0)` delivers (`none` for its error) and the
answer of `router.FetchPeerKeys` for each peer. -/
structure SyncEnv where
  listImages : Option (List Image)
  resolve : Option (List (List Char))
  fetch : List Char → PeerFetch

/-- The variable `localSet` of `synchronise`: the second result of
`getLocalBlobs`, `nil` when it fails. -/
def localSet (env : SyncEnv) (images : List (List Char)) : List (List Char) :=
  match getLocalBlobs env.listImages images with
  | none => []
  | some r => r.2

/-- The map `missingKeyInfo` of `synchronise` after the discovery loop
(workers.go, lines 49 to 168); `none` when `Resolve` fails and `synchronise`
returns before the loop. -/
def discover (env : SyncEnv) (images : List (List Char)) : Option MissingKeyInfo :=
  match env.resolve with
  | none => none
  | some peers => some (peerLoop env.fetch (localSet env images) peers [])

/-- An image of the inventory of a peer lists the digest `d` under the name
`n` and the registry `r`. -/
def PeerImage.lists (img : PeerImage) (d n r : List Char) : Prop :=
  img.image_name = some n ∧ img.registry = some r ∧
    ∃ layers, img.layer_keys = some layers ∧ some d ∈ layers

/-- The source `s` stands for an image of the well-formed inventory of one of
the peers that lists the digest `d`. -/
def Listed (fetch : List Char → PeerFetch) (peers : List (List Char)) (d : List Char)
    (s : KeySource) : Prop :=
  s.PeerAddr ∈ peers ∧ ∃ imageLayers, fetch s.PeerAddr = .inventory imageLayers ∧
    ∃ img ∈ imageLayers, img.lists d s.ImageName s.Registry

/-- The map has the source `s` in its entry for the digest `d`. -/
def MissingKeyInfo.Holds (m : MissingKeyInfo) (d : List Char) (s : KeySource) : Prop :=
  ∃ sources, m.get d = some sources ∧ s ∈ sources

end state

/-- A well-formed digest: `sha256:` and 64 times the letter `a`. -/
def demoDigest : List Char := "sha256:".toList ++ List.replicate 64 'a'

/-- The name of the image of the examples. -/
def demoImageName : List Char := "docker.io/library/nginx:latest".toList

/-- The peer of the examples. -/
def demoPeerAddr : List Char := "10.0.0.2:5000".toList

/-- A node that holds the image `nginx` with the layer `demoDigest` in its
content store, and one peer whose inventory lists the same image and layer. -/
def demoSyncEnv : state.SyncEnv :=
  { listImages := some [{ name := demoImageName, Registry := "docker.io".toList,
                          walk := some [demoDigest] }],
    resolve := some [demoPeerAddr],
    fetch := fun _ => .inventory [{ image_name := some demoImageName,
                                    layer_keys := some [some demoDigest],
                                    registry := some "docker.io".toList }] }

namespace state

/-- The body of an HTTP response of `client.Do`: `http.NoBody` for a response
that announces no content, else the reader of the transport over the bytes of
the body. -/
inductive Body where
  | NoBody
  | stream (data : List Char)
  deriving DecidableEq, Repr

/-- Go `http.Response` as far as `fetchBlob` reads it. -/
structure Response where
  StatusCode : Nat
  Body : Body
  deriving DecidableEq, Repr

/-- The request `fetchBlob` sends: a GET for `url` with the headers `header`. -/
structure BlobRequest where
  url : List Char
  header : List (List Char × List Char)
  deriving DecidableEq, Repr

/-- The value of type `io.ReadCloser` that `fetchBlob` returns: `nil`, or the
body of the response and whether `Close` has been called on it. -/
inductive Reader where
  | nil
  | body (b : Body) (closed : Bool)
  deriving DecidableEq, Repr

/-- What `worker` reads from its surroundings: the answer to the request of
`fetchBlob` (`none` when the request cannot be built or `client.Do` fails),
`netip.ParseAddrPort` followed by `String()` (`none` for a parse error), the
number the random source draws, and whether the operations of the operating
system on the blob file succeed. -/
structure WorkerEnv where
  Do : BlobRequest → Option Response
  parseAddrPort : List Char → Option (List Char) := fun s => some s
  rnd : Nat := 0
  mkdirAllOk : Bool := true
  createOk : Bool := true
  syncOk : Bool := true
  closeOk : Bool := true
  renameOk : Bool := true

/-- The function `checkBlobExists`: `os.Stat` on the blob path succeeds. -/
def checkBlobExists (fs : FS) (dgst ContainerdContentPath : List Char) : Bool :=
  if digest.Algorithm dgst = [] ∨ digest.Encoded dgst = [] then false
  else
    (fs (filepath.Join [ContainerdContentPath, "blobs".toList, digest.Algorithm dgst,
      digest.Encoded dgst])).isSome

/-- The URL `fetchBlob` builds. -/
def blobURL (peer registry name dgst : List Char) : List Char :=
  let parts := strings.SplitN '@' 2 name
  let repoWithTag := parts.headD []
  let repoParts := strings.SplitN ':' 2 repoWithTag
  let repoName := repoParts.headD []
  "http://".toList ++ peer ++ "/v2/".toList ++ repoName ++ "/blobs/".toList ++ dgst ++
    "?ns=".toList ++ registry

/-- The function `fetchBlob`: the reader and whether the error is non-nil.
For a status other than 200 it returns `nil, err` with the `err` of
`client.Do`, which is nil there; for the status 200 it returns the body after
the deferred `resp.Body.Close()` has run. -/
def fetchBlob (env : WorkerEnv) (peer registry name dgst : List Char) : Reader × Bool :=
  match env.Do { url := blobURL peer registry name dgst,
                 header := [("X-Clyde-Mirrored".toList, "true".toList)] } with
  | none => (.nil, true)
  | some resp =>
    if resp.StatusCode ≠ 200 then (.nil, false)
    else (.body resp.Body true, false)

/-- What `io.Copy(f, r)` does: it copies the bytes, fails, or panics. -/
inductive CopyResult where
  | written (data : List Char)
  | failed
  | panics
  deriving DecidableEq, Repr

/-- Go `io.Copy(f, r)` for the readers of `fetchBlob`: calling `Read` on a
nil reader is a nil dereference, the reader of the transport fails every
`Read` after `Close`, and `http.NoBody` is at its end at once. -/
def ioCopy : Reader → CopyResult
  | .nil => .panics
  | .body .NoBody _ => .written []
  | .body (.stream data) closed => if closed then .failed else .written data

/-- The function `writeBlobToLocalPath`. -/
def writeBlobToLocalPath (env : WorkerEnv) (r : Reader) (dgst path : List Char) (fs : FS) :
    Outcome Unit × FS :=
  let dst := filepath.Join [path, "blobs".toList, digest.Algorithm dgst, digest.Encoded dgst]
  if env.mkdirAllOk = false then (.err, fs)
  else
    let tmp := dst ++ ".tmp".toList
    if env.createOk = false then (.err, fs)
    else
      let fs₁ := fs.put tmp []
      match ioCopy r with
      | .panics => (.panic, fs₁)
      | .failed => (.err, fs₁.remove tmp)
      | .written data =>
        let fs₂ := fs₁.put tmp data
        if env.syncOk = false then (.err, fs₂.remove tmp)
        else if env.closeOk = false then (.err, fs₂.remove tmp)
        else if env.renameOk = false then (.err, fs₂.remove tmp)
        else (.ok (), (fs₂.remove tmp).put dst data)

/-- The function `worker`: `ok` for the result `nil`, `err` for an error and
`panic` for a run-time panic, with the file system it leaves. -/
def worker (env : WorkerEnv) (key : List Char) (sources : List KeySource)
    (ContainerdContentPath : List Char) (fs : FS) : Outcome Unit × FS :=
  match sources with
  | [] => (.ok (), fs)
  | source₀ :: _ =>
    let source :=
      if sources.length = 1 then source₀ else sources.getD (env.rnd % sources.length) source₀
    match env.parseAddrPort source.PeerAddr with
    | none => (.err, fs)
    | some peerAddr =>
      match digest.Parse key with
      | none => (.err, fs)
      | some dgst =>
        if checkBlobExists fs dgst ContainerdContentPath then (.ok (), fs)
        else
          match fetchBlob env peerAddr source.Registry source.ImageName dgst with
          | (_, true) => (.ok (), fs)
          | (resp, false) =>
            match writeBlobToLocalPath env resp dgst ContainerdContentPath fs with
            | (.panic, fs₁) => (.panic, fs₁)
            | (_, fs₁) => (.ok (), fs₁)

end state

/-- The content path of the examples. -/
def demoContentPath : List Char := "/var/lib/containerd/io.containerd.content.v1.content".toList

/-- The blob file of `demoDigest` under `demoContentPath`. -/
def demoBlobFile : List Char :=
  demoContentPath ++ "/blobs/sha256/".toList ++ List.replicate 64 'a'

/-- The one source of the examples: the peer `demoPeerAddr` with the image
`nginx`. -/
def demoSources : List state.KeySource :=
  [{ PeerAddr := demoPeerAddr, ImageName := demoImageName ++ "@".toList ++ demoDigest,
     Registry := "docker.io".toList }]

/-- The request `worker` sends for `demoDigest` to the source of the
examples. -/
def demoBlobRequest : state.BlobRequest :=
  { url := "http://10.0.0.2:5000/v2/docker.io/library/nginx/blobs/".toList ++ demoDigest ++
      "?ns=docker.io".toList,
    header := [("X-Clyde-Mirrored".toList, "true".toList)] }

/-- A peer that answers the request of the examples with the given response
and any other request not at all. -/
def demoWorkerEnv (resp : state.Response) : state.WorkerEnv :=
  { Do := fun req => if req = demoBlobRequest then some resp else none }

/-- The empty file system. -/
def emptyFS : FS := fun _ => none

/-! ## A prefetch request as the peer receives it -/

/-- Go `http.Header.Get(key)` on the headers of a request with canonical
names: the first value of the header, empty when it is absent. -/
def headerGet (header : List (List Char × List Char)) (key : List Char) : List Char :=
  match header with
  | [] => []
  | (k, v) :: rest => if k = key then v else headerGet rest key

/-- The part of the URL `http://<host>/<path>?<query>` after the host: the
path and the raw query. -/
def urlPathQuery (url : List Char) : List Char × List Char :=
  let afterScheme := strings.TrimPrefix url "http://".toList
  let fromPath := afterScheme.dropWhile (· != '/')
  (fromPath.takeWhile (· != '?'), (fromPath.dropWhile (· != '?')).drop 1)

/-- The request of `fetchBlob` as the handler of the peer reads it: a GET
for the path and the query of the URL, and for `req.Header.Get` of the header
named `MirroredHeaderKey` what the headers of the request hold under that
name. -/
def state.BlobRequest.received (r : state.BlobRequest) : Request :=
  { method := "GET".toList,
    path := (urlPathQuery r.url).1,
    rawQuery := (urlPathQuery r.url).2,
    mirrored := headerGet r.header MirroredHeaderKey }

/-- A registry without credentials whose path parser reads the blob path of
the examples: the blob `demoDigest` of `docker.io/library/nginx` in the
registry `docker.io`. -/
def demoRegistry : Registry :=
  { parse := fun p q =>
      if p = "/v2/docker.io/library/nginx/blobs/".toList ++ demoDigest ∧
          q = "ns=docker.io".toList then
        some { kind := .blob, registry := "docker.io".toList,
               name := "docker.io/library/nginx".toList, digest := demoDigest }
      else none }

/-- No entry of the map has two sources with the same peer address and image
name. -/
def state.MissingKeyInfo.NoDuplicate (m : state.MissingKeyInfo) : Prop :=
  ∀ d sources, m.get d = some sources →
    sources.Pairwise (fun a b => ¬ (a.PeerAddr = b.PeerAddr ∧ a.ImageName = b.ImageName))

/-- The entry of the map for the digest `d` has a source with the peer
address `p` and the image name `n`. -/
def state.MissingKeyInfo.HoldsPair (m : state.MissingKeyInfo) (d p n : List Char) : Prop :=
  ∃ t, m.Holds d t ∧ t.PeerAddr = p ∧ t.ImageName = n

/-- Two peers that both list the layer `demoDigest` of the image `nginx`, the
second of them twice; the node holds no image. -/
def demoTwoPeers : state.SyncEnv :=
  { listImages := some [],
    resolve := some ["10.0.0.2:5000".toList, "10.0.0.3:5000".toList, "10.0.0.3:5000".toList],
    fetch := fun p =>
      if p = "10.0.0.2:5000".toList then
        .inventory [{ image_name := some demoImageName, layer_keys := some [some demoDigest],
                      registry := some "docker.io".toList }]
      else
        .inventory [{ image_name := some demoImageName,
                      layer_keys := some [some demoDigest, some demoDigest],
                      registry := some "docker.io".toList }] }

namespace state

/-- What `synchronise` leaves behind: the global flag `busy`, the file
system, and whether it returned (`ok`, its result is always `nil`) or a
worker ended in a run-time panic. -/
structure SyncResult where
  busy : Bool
  fs : FS
  result : Outcome Unit

/-- The loop of `synchronise` over the entries of `missingKeyInfo`
(workers.go, lines 188 to 203): each worker runs in a goroutine that the loop
waits for, then the flag is set to false.  The entries are taken in the order
of the list. -/
def workerLoop (wenv : WorkerEnv) (ContainerdContentPath : List Char) :
    MissingKeyInfo → Bool → FS → SyncResult
  | [], busy, fs => { busy := busy, fs := fs, result := .ok () }
  | (key, sources) :: rest, busy, fs =>
    match worker wenv key sources ContainerdContentPath fs with
    | (.panic, fs₁) => { busy := busy, fs := fs₁, result := .panic }
    | (_, fs₁) => workerLoop wenv ContainerdContentPath rest false fs₁

/-- The function `synchronise`.  It starts with `setBusy(true)`; the errors
of `getLocalBlobs`, `ServeKeys` and `Advertise` are logged only. -/
def synchronise (env : SyncEnv) (wenv : WorkerEnv) (images : List (List Char))
    (ContainerdContentPath : List Char) (fs : FS) : SyncResult :=
  match discover env images with
  | none => { busy := true, fs := fs, result := .ok () }
  | some missingKeyInfo =>
    let r := workerLoop wenv ContainerdContentPath missingKeyInfo true fs
    match r.result with
    | .panic => r
    | _ => { r with busy := false }

/-- Go `oci.EventType`. -/
inductive EventType where
  | CreateEvent
  | UpdateEvent
  | DeleteEvent
  deriving DecidableEq, Repr

/-- The function `update`: the number of keys, `none` for an error.
`advertise` tells whether `router.Advertise` succeeds for the keys. -/
def update (advertise : List (List Char) → Bool) (image : Image) (type : EventType)
    (skipDigests resolveLatestTag : Bool) : Option Nat :=
  let tagKeys : List (List Char) :=
    if !(!resolveLatestTag && image.IsLatestTag) then
      match image.TagName with
      | some tagName => [tagName]
      | none => []
    else []
  if type = .DeleteEvent then some 0
  else
    let walked : Option (List (List Char)) :=
      if !skipDigests then
        match image.walk with
        | none => none
        | some dgsts => some (tagKeys ++ dgsts)
      else some tagKeys
    match walked with
    | none => none
    | some imageKeys =>
      if imageKeys.length > 0 then
        if advertise imageKeys then some imageKeys.length else none
      else some imageKeys.length

/-- The function `all`, the loop over the images: the number of errors
collected in `errs`; `targets` holds the digests of the images done. -/
def allLoop (advertise : List (List Char) → Bool) (resolveLatestTag : Bool) :
    List Image → List (List Char) → Nat
  | [], _ => 0
  | img :: rest, targets =>
    let skipDigests := decide (img.Digest ∈ targets)
    match update advertise img .UpdateEvent skipDigests resolveLatestTag with
    | none => allLoop advertise resolveLatestTag rest targets + 1
    | some _ => allLoop advertise resolveLatestTag rest (img.Digest :: targets)

/-- The function `all`: `true` when it returns `nil`, `false` when it returns
an error (that of `ListImages` or the errors of `update` joined). -/
def all (listImages : Option (List Image)) (advertise : List (List Char) → Bool)
    (resolveLatestTag : Bool) : Bool :=
  match listImages with
  | none => false
  | some imgs => allLoop advertise resolveLatestTag imgs [] = 0

/-- The functions that one ticker cycle of `Track` invokes. -/
inductive TrackStep where
  | all
  | synchronise
  | syncPip
  | syncHF
  deriving DecidableEq, Repr

/-- What a ticker cycle of `Track` reads: the surroundings of `synchronise`
and of its workers, and whether `router.Advertise` succeeds for given keys. -/
structure TrackEnv where
  sync : SyncEnv
  worker : WorkerEnv
  advertise : List (List Char) → Bool

/-- The case `<-tickerCh` of the loop of `Track`, run with the flag `busy`
and the file system `fs`: the functions it invokes, in order, and the flag
and the file system it leaves. -/
def tickerCycle (env : TrackEnv) (resolveLatestTag : Bool) (includeImages : List (List Char))
    (ContainerdContentPath : List Char) (busy : Bool) (fs : FS) :
    List TrackStep × SyncResult :=
  if !busy then
    if all env.sync.listImages env.advertise resolveLatestTag = false then
      ([.all], { busy := busy, fs := fs, result := .ok () })
    else
      let r := synchronise env.sync env.worker includeImages ContainerdContentPath fs
      match r.result with
      | .panic => ([.all, .synchronise], r)
      | _ => ([.all, .synchronise, .syncPip, .syncHF], r)
  else ([.syncPip, .syncHF], { busy := busy, fs := fs, result := .ok () })

end state

/-! ## The seeding planner of `clydectl`: `internal/seed/planner.go` -/

namespace seed

/-- The number of binary digits of `n`, for `n < 2 ^ fuel`. -/
def bitLen : Nat → Nat → Nat
  | 0, _ => 0
  | fuel + 1, n => if n = 0 then 0 else bitLen fuel (n / 2) + 1

/-- The `float64` nearest to the natural number `n < 2 ^ 128`, as a natural
number: `n` rounded to 53 significant binary digits, ties to the even
significand. -/
def roundFloat64 (n : Nat) : Nat :=
  let shift := bitLen 128 n - 53
  let unit := 2 ^ shift
  let q := n / unit
  let r := n % unit
  if 2 * r < unit then q * unit
  else if 2 * r > unit then (q + 1) * unit
  else if q % 2 = 0 then q * unit
  else (q + 1) * unit

/-- The constant `0.1` as a `float64`: `7205759403792794 / 2 ^ 56`. -/
def tenthNumerator : Nat := 7205759403792794

/-- Go `math.Floor(float64(total) * 0.1)` as an integer: `total` is
converted to the nearest `float64`, the exact product with the `float64`
constant `0.1` is rounded to the nearest `float64`, and the floor is taken
(the scale `2 ^ 56` of the constant is `72057594037927936`). -/
def floorTenth (total : Int) : Int :=
  let m := roundFloat64 (roundFloat64 total.natAbs * tenthNumerator)
  if total < 0 then -(Int.ofNat ((m + 72057594037927935) / 72057594037927936))
  else Int.ofNat (m / 72057594037927936)

/-- The value of a Go `int` (64-bit, two's complement) after an operation
whose exact result is `x`: `x` wrapped into the range from `-2 ^ 63` to
`2 ^ 63 - 1`. -/
def wrapInt (x : Int) : Int :=
  (x + 9223372036854775808) % 18446744073709551616 - 9223372036854775808

/-- Go `DoublingPlanner`; the fields are Go `int` values. -/
structure DoublingPlanner where
  current : Int
  total : Int
  initial : Int
  started : Bool
  deriving DecidableEq, Repr

/-- Go `NewDoublingPlanner`. -/
def NewDoublingPlanner (total initialCount : Int) : DoublingPlanner :=
  let initialSeeds : Int :=
    if initialCount > 0 then initialCount
    else max 2 (floorTenth total)
  let initialSeeds : Int := if initialSeeds > total then total else initialSeeds
  { current := 0, total := total, initial := initialSeeds, started := false }

/-- Go `DoublingPlanner.HasNext`. -/
def DoublingPlanner.HasNext (p : DoublingPlanner) : Bool := decide (p.current < p.total)

/-- Go `DoublingPlanner.Remaining`. -/
def DoublingPlanner.Remaining (p : DoublingPlanner) : Int :=
  if p.current ≥ p.total then 0 else wrapInt (p.total - p.current)

/-- Go `DoublingPlanner.NextBatch`: the batch it returns and the planner it
leaves. -/
def DoublingPlanner.NextBatch (p : DoublingPlanner) : Int × DoublingPlanner :=
  let batch : Int := if !p.started then p.initial else p.current
  let batch : Int :=
    if wrapInt (p.current + batch) > p.total then wrapInt (p.total - p.current) else batch
  (batch, { p with started := true, current := wrapInt (p.current + batch) })

/-- The loop `for planner.HasNext() { batchSize := planner.NextBatch(); ... }`
of `deployCmd`, every `Seed` succeeding: the batches in order, each with the
value of `current` after it; `none` when the loop has not ended after `fuel`
iterations. -/
def seedLoop : Nat → DoublingPlanner → Option (List (Int × Int))
  | 0, p => if p.HasNext then none else some []
  | fuel + 1, p =>
    if p.HasNext then
      match seedLoop fuel p.NextBatch.2 with
      | none => none
      | some waves => some ((p.NextBatch.1, p.NextBatch.2.current) :: waves)
    else some []

end seed

/-! ## Cluster nodes of `clydectl`: `internal/kube/nodes.go` -/

/-- Go `net.IP.IsLinkLocalMulticast`. -/
def ipIsLinkLocalMulticast (ip : List Nat) : Bool :=
  match ipTo4 ip with
  | some ip4 => ip4.getD 0 0 == 224 && ip4.getD 1 0 == 0 && ip4.getD 2 0 == 0
  | none => ip.length == 16 && ip.getD 0 0 == 0xff && (ip.getD 1 0 &&& 0x0f) == 0x02

/-- Go `net.IP.IsLinkLocalUnicast`. -/
def ipIsLinkLocalUnicast (ip : List Nat) : Bool :=
  match ipTo4 ip with
  | some ip4 => ip4.getD 0 0 == 169 && ip4.getD 1 0 == 254
  | none => ip.length == 16 && ip.getD 0 0 == 0xfe && (ip.getD 1 0 &&& 0xc0) == 0x80

/-- Go `net.IP.IsPrivate`. -/
def ipIsPrivate (ip : List Nat) : Bool :=
  match ipTo4 ip with
  | some ip4 =>
    ip4.getD 0 0 == 10 || (ip4.getD 0 0 == 172 && (ip4.getD 1 0 &&& 0xf0) == 16) ||
      (ip4.getD 0 0 == 192 && ip4.getD 1 0 == 168)
  | none => ip.length == 16 && (ip.getD 0 0 &&& 0xfe) == 0xfc

namespace kube

/-- Go `corev1.NodeAddress`. -/
structure NodeAddress where
  /-- The field `Type`. -/
  Type_ : List Char
  Address : List Char
  deriving DecidableEq, Repr

/-- Go `corev1.Node` as far as the functions read it: `node.Status.Addresses`. -/
structure Node where
  Addresses : List NodeAddress
  deriving DecidableEq, Repr

/-- The constant `corev1.NodeExternalIP`. -/
def NodeExternalIP : List Char := "ExternalIP".toList

/-- Go `NodeExternalIPs`, the loop over the addresses. -/
def externalIPsLoop : List NodeAddress → List (List Char)
  | [] => []
  | addr :: rest =>
    if addr.Type_ = NodeExternalIP ∧ addr.Address ≠ [] then addr.Address :: externalIPsLoop rest
    else externalIPsLoop rest

/-- Go `NodeExternalIPs`. -/
def NodeExternalIPs (node : Node) : List (List Char) := externalIPsLoop node.Addresses

/-- Go `IsPrivateIP`.  `parseIP` stands for `net.ParseIP`: the bytes of the
address, `none` for `nil`. -/
def IsPrivateIP (parseIP : List Char → Option (List Nat)) (ip : List Char) : Bool :=
  match parseIP ip with
  | none => true
  | some parsed =>
    ipIsLoopback parsed || ipIsLinkLocalMulticast parsed || ipIsLinkLocalUnicast parsed ||
      ipIsPrivate parsed

/-- Go `NodeHasPublicExternalIP`, the loop over the external addresses. -/
def hasPublicLoop (parseIP : List Char → Option (List Nat)) : List (List Char) → Bool
  | [] => false
  | ip :: rest => if !IsPrivateIP parseIP ip then true else hasPublicLoop parseIP rest

/-- Go `NodeHasPublicExternalIP`. -/
def NodeHasPublicExternalIP (parseIP : List Char → Option (List Nat)) (node : Node) : Bool :=
  hasPublicLoop parseIP (NodeExternalIPs node)

/-- Go `ClusterHasOnlyPublicNodes`, the loop over the nodes. -/
def onlyPublicLoop (parseIP : List Char → Option (List Nat)) : List Node → Bool
  | [] => true
  | node :: rest =>
    if !NodeHasPublicExternalIP parseIP node then false else onlyPublicLoop parseIP rest

/-- Go `ClusterHasOnlyPublicNodes`. -/
def ClusterHasOnlyPublicNodes (parseIP : List Char → Option (List Nat)) (nodes : List Node) :
    Bool :=
  if nodes.length = 0 then false else onlyPublicLoop parseIP nodes

/-- The node has a public external address: an address of type `ExternalIP`
that is not empty, parses as an IP address and is not loopback, link-local
or private. -/
def HasPublicExternalIP (parseIP : List Char → Option (List Nat)) (node : Node) : Prop :=
  ∃ a ∈ node.Addresses, a.Type_ = NodeExternalIP ∧ a.Address ≠ [] ∧
    ∃ ip, parseIP a.Address = some ip ∧ ipIsLoopback ip = false ∧
      ipIsLinkLocalMulticast ip = false ∧ ipIsLinkLocalUnicast ip = false ∧
      ipIsPrivate ip = false

end kube

/-- A parser for the addresses of the tests of `nodes_test.go`: what
`net.ParseIP` returns for them. -/
def demoParseIP (s : List Char) : Option (List Nat) :=
  if s = "34.100.1.1".toList then some (List.replicate 10 0 ++ [255, 255, 34, 100, 1, 1])
  else if s = "34.86.1.2".toList then some (List.replicate 10 0 ++ [255, 255, 34, 86, 1, 2])
  else if s = "192.168.1.40".toList then
    some (List.replicate 10 0 ++ [255, 255, 192, 168, 1, 40])
  else if s = "10.0.0.2".toList then some (List.replicate 10 0 ++ [255, 255, 10, 0, 0, 2])
  else none

/-- The node `publicNode` of `TestClusterHasOnlyPublicNodes`. -/
def demoPublicNode : kube.Node :=
  { Addresses := [{ Type_ := kube.NodeExternalIP, Address := "34.100.1.1".toList }] }

/-- The node `privateNode` of `TestClusterHasOnlyPublicNodes`. -/
def demoPrivateNode : kube.Node :=
  { Addresses := [{ Type_ := "InternalIP".toList, Address := "10.0.0.2".toList }] }

/-! ## The walk of the model cache: `HFClient.WalkHFCacheDir` -/

/-- The elements of a cleaned path as the loop of `filepath.Rel` reads them:
the texts between the separators, none after the separator of the root. -/
def filepath.relElems (p : List Char) : List (List Char) :=
  if p = [] then [] else if p = ['/'] then [[]] else strings.Split '/' p

/-- The loop of `filepath.Rel` and what follows it: the elements of the
result, `none` for the error. -/
def filepath.relLoop : List (List Char) → List (List Char) → Option (List (List Char))
  | [], ts => some ts
  | _ :: bs, [] => some (List.replicate (bs.length + 1) "..".toList)
  | b :: bs, t :: ts =>
    if b = t then filepath.relLoop bs ts
    else if b = "..".toList then none
    else some (List.replicate (bs.length + 1) "..".toList ++ t :: ts)

/-- Go `filepath.Rel` (Unix), `none` for its error. -/
def filepath.Rel (basepath targpath : List Char) : Option (List Char) :=
  let base := path.Clean basepath
  let targ := path.Clean targpath
  if targ = base then some ['.']
  else
    let base := if base = ['.'] then [] else base
    let baseSlashed := base.head? == some '/'
    let targSlashed := targ.head? == some '/'
    if baseSlashed != targSlashed then none
    else
      (filepath.relLoop (filepath.relElems base) (filepath.relElems targ)).map
        (strings.Join ['/'])

/-- Go `HFClient.WalkHFCacheDir` on the entries `filepath.Walk` visits, in
order; `none` is the error return. -/
def HFClient.WalkHFCacheDir (h : HFClient) : List WalkEntry → Option (List (List Char))
  | [] => some []
  | e :: rest =>
    if e.err then none
    else if e.isDir then h.WalkHFCacheDir rest
    else if !strings.Contains e.path "/snapshots/".toList then h.WalkHFCacheDir rest
    else
      let lower := strings.ToLower e.name
      if !(strings.HasSuffix lower ".bin".toList || strings.HasSuffix lower ".json".toList ||
          strings.HasSuffix lower ".msgpack".toList || strings.HasSuffix lower ".onnx".toList ||
          strings.HasSuffix lower ".safetensors".toList ||
          strings.HasSuffix lower ".md".toList) then h.WalkHFCacheDir rest
      else
        match filepath.Rel h.HFCacheDir e.path with
        | none => none
        | some relPath =>
          let parts := strings.SplitN '/' 3 relPath
          if parts.length < 3 then h.WalkHFCacheDir rest
          else
            let modelDir := parts.getD 0 []
            let rest₁ := strings.TrimPrefix relPath (modelDir ++ "/".toList)
            let modelPath := strings.TrimPrefix modelDir "models--".toList
            let modelPath := strings.ReplaceAll modelPath "--".toList "/".toList
            let modelPath := "/huggingface/".toList ++ modelPath
            let rest₂ := strings.Replace rest₁ "snapshots/".toList "resolve/".toList 1
            let key := "hf:".toList ++ modelPath ++ "/".toList ++ rest₂
            match h.WalkHFCacheDir rest with
            | none => none
            | some keys => some (key :: keys)

/-- What `filepath.Walk` visits in the cache `/hf` of a node that holds
`model.bin` of the commit `abc123` of `org/model`, with `refs/main` naming
that commit. -/
def demoModelWalk : List WalkEntry :=
  [{ isDir := true, name := "hf".toList, path := "/hf".toList },
   { isDir := true, name := "models--org--model".toList,
     path := "/hf/models--org--model".toList },
   { isDir := true, name := "refs".toList, path := "/hf/models--org--model/refs".toList },
   { name := "main".toList, path := "/hf/models--org--model/refs/main".toList },
   { isDir := true, name := "snapshots".toList,
     path := "/hf/models--org--model/snapshots".toList },
   { isDir := true, name := "abc123".toList,
     path := "/hf/models--org--model/snapshots/abc123".toList },
   { name := "model.bin".toList,
     path := "/hf/models--org--model/snapshots/abc123/model.bin".toList }]

/-! ## Theorems -/

theorem OciOnly.rfl (w : World) : OciOnly w w := ⟨[], by simp, by simp⟩

theorem OciOnly.trans {a b c : World} (h₁ : OciOnly a b) (h₂ : OciOnly b c) : OciOnly a c := by
  obtain ⟨e₁, he₁, hp₁⟩ := h₁
  obtain ⟨e₂, he₂, hp₂⟩ := h₂
  refine ⟨e₁ ++ e₂, by rw [he₂, he₁, List.append_assoc], ?_⟩
  intro c hc
  rcases List.mem_append.mp hc with h | h
  · exact hp₁ c h
  · exact hp₂ c h

theorem OciOnly.respond {a b : World} (h : OciOnly a b) (c : RwCall) : OciOnly a (b.respond c) := by
  obtain ⟨e, he, hp⟩ := h
  exact ⟨e, he, hp⟩

theorem OciOnly.call {a b : World} (h : OciOnly a b) (c : Call) (hc : c.isOci = true) :
    OciOnly a (b.call c) := by
  obtain ⟨e, he, hp⟩ := h
  refine ⟨e ++ [c], by simp [World.call, he], ?_⟩
  intro x hx
  rcases List.mem_append.mp hx with h | h
  · exact hp x h
  · simp at h; subst h; exact hc

theorem handleManifest_ociOnly (env : Env) (req : Request) (dist : DistributionPath)
    (w₀ w : World) (h : OciOnly w₀ w) : OciOnly w₀ (Registry.handleManifest env req dist w) := by
  unfold Registry.handleManifest
  by_cases hd : dist.digest = []
  · simp only [hd, if_true]
    cases hr : env.ociResolve dist.Reference with
    | none => exact (h.call _ (by rfl)).respond _
    | some dgst =>
      simp only
      cases hm : env.ociGetManifest dgst with
      | none => exact ((h.call _ (by rfl)).call _ (by rfl)).respond _
      | some b =>
        simp only
        split
        · exact (h.call _ (by rfl)).call _ (by rfl)
        · exact ((h.call _ (by rfl)).call _ (by rfl)).respond _
  · simp only [hd, if_false]
    cases hm : env.ociGetManifest dist.digest with
    | none => exact (h.call _ (by rfl)).respond _
    | some b =>
      simp only
      split
      · exact h.call _ (by rfl)
      · exact (h.call _ (by rfl)).respond _

theorem handleBlob_ociOnly (env : Env) (req : Request) (dist : DistributionPath)
    (w₀ w : World) (h : OciOnly w₀ w) : OciOnly w₀ (Registry.handleBlob env req dist w) := by
  unfold Registry.handleBlob
  cases hs : env.ociSize dist.digest with
  | none => exact (h.call _ (by rfl)).respond _
  | some n =>
    simp only
    split
    · exact h.call _ (by rfl)
    · cases hb : env.ociGetBlob dist.digest with
      | none => exact ((h.call _ (by rfl)).call _ (by rfl)).respond _
      | some b => exact ((h.call _ (by rfl)).call _ (by rfl)).respond _

theorem serve_ociOnly (env : Env) (req : Request) (dist : DistributionPath)
    (w₀ w : World) (h : OciOnly w₀ w) : OciOnly w₀ (Registry.serve env req dist w) := by
  unfold Registry.serve
  cases dist.kind with
  | manifest => exact handleManifest_ociOnly env req dist w₀ _ (h.respond _)
  | blob => exact handleBlob_ociOnly env req dist w₀ _ (h.respond _)
  | other => exact h.respond _

/-- C1: a request to the container handler that carries the mirror header
with value `true` makes the handler call nothing but the local content store
(so never `router.Resolve`, and no peer); once basic authentication and path
parsing have passed it is dispatched straight to `handleManifest` /
`handleBlob`. -/
theorem registryHandler_mirrored_never_resolves (r : Registry) (env : Env) (req : Request)
    (w : World) (hm : req.mirrored = mirroredValue) :
    OciOnly w (r.registryHandler env req w) ∧
    (∀ key, Call.routerResolve key ∈ (r.registryHandler env req w).calls →
      Call.routerResolve key ∈ w.calls) ∧
    (∀ dist, ¬ ((r.username ≠ [] ∨ r.password ≠ []) ∧
          (r.username ≠ req.basicAuth.1 ∨ r.password ≠ req.basicAuth.2)) →
        path.Clean req.path ≠ "/v2".toList →
        r.parse req.path req.rawQuery = some dist →
        r.registryHandler env req w =
          Registry.serve env req dist (w.respond (.setHandler "registry".toList))) := by
  have key : OciOnly w (r.registryHandler env req w) := by
    unfold Registry.registryHandler
    simp only [hm, ne_eq, not_true_eq_false, if_false]
    split
    · exact ((OciOnly.rfl w).respond _).respond _
    · split
      · exact (((OciOnly.rfl w).respond _).respond _).respond _
      · cases hp : r.parse req.path req.rawQuery with
        | none => exact ((OciOnly.rfl w).respond _).respond _
        | some dist => exact serve_ociOnly env req dist w _ ((OciOnly.rfl w).respond _)
  refine ⟨key, ?_, ?_⟩
  · intro k hk
    obtain ⟨e, he, hp⟩ := key
    rw [he] at hk
    rcases List.mem_append.mp hk with h | h
    · exact h
    · have := hp _ h
      simp [Call.isOci] at this
  · intro dist hauth hv2 hparse
    unfold Registry.registryHandler
    simp only [hm, ne_eq, not_true_eq_false, if_false]
    rw [if_neg hauth, if_neg hv2, hparse]

/-- Witness for C1: `GET /v2/library/nginx/manifests/1.27` with the mirror
header, the manifest absent from the content store. -/
theorem registryHandler_mirrored_never_resolves_witness :
    OciOnly {}
      (Registry.registryHandler
        { parse := fun _ _ => some { kind := .manifest, registry := "docker.io".toList,
                                     name := "library/nginx".toList, tag := "1.27".toList } }
        { resolve := fun _ => some ["10.0.0.2:5000".toList],
          peerDo := fun _ _ _ => .response 200 "m".toList none,
          upstreamDo := fun _ _ => .failed }
        { method := "GET".toList, path := "/v2/library/nginx/manifests/1.27".toList,
          mirrored := "true".toList } {}) :=
  (registryHandler_mirrored_never_resolves _ _ _ _ (by decide)).1

/-- C2 (the code at the failing input): a request that carries the mirror
header with value `true` and misses the local cache makes the wheel handler
call `Router.Resolve`, and so does the model handler. -/
theorem mirrored_wheel_and_model_requests_resolve :
    Call.routerResolve "pip:foo.whl".toList ∈
      (demoPip.PipRegistryHandler demoEnv
        { method := "GET".toList, path := "/packages/foo.whl".toList,
          mirrored := "true".toList } {}).calls ∧
    (demoHF.HuggingFaceRegistryHandler demoEnv
        { method := "GET".toList, path := "/huggingface/org/model/resolve/main/model.bin".toList,
          mirrored := "true".toList } { fs := demoModelRefs }).map
      (fun w => decide (Call.routerResolve
        "hf:/huggingface/org/model/resolve/main/model.bin".toList ∈ w.calls)) = some true := by
  constructor <;> decide

theorem registry_forwardRequest_spec (env : Env) (req : Request) (p : List Char) (w : World) :
    (Registry.forwardRequest env req p w).1 = Registry.forwardOk env req p ∧
    (Registry.forwardRequest env req p w).2.calls =
      w.calls ++ [Call.peerRequest p req.method (Registry.forwardURL req p) req.mirrored] ∧
    ∃ relayed, (Registry.forwardRequest env req p w).2.rw = w.rw ++ relayed ∧
      ∀ c ∈ relayed, c.isRelay = true := by
  unfold Registry.forwardOk Registry.forwardRequest
  cases h : env.peerDo p req.method req.path with
  | failed => exact ⟨rfl, rfl, [], by simp [World.call], by simp⟩
  | response status body readFails =>
    by_cases hs : status ≠ 200 ∧ status ≠ 206
    · simp only [if_pos hs]
      exact ⟨trivial, rfl, [], by simp [World.call], by simp⟩
    · simp only [if_neg hs]
      cases readFails with
      | none =>
        exact ⟨rfl, rfl, [.writeHeader status, .write body],
          by simp [World.call, World.respond], by simp [RwCall.isRelay]⟩
      | some k =>
        exact ⟨rfl, rfl, [.writeHeader status, .write (body.take k)],
          by simp [World.call, World.respond], by simp [RwCall.isRelay]⟩

theorem registry_mirrorLoop_spec (env : Env) (req : Request) (hctx : req.cancelAfter = none) :
    ∀ (peers : List (List Char)) (i : Nat) (w : World),
      (Registry.mirrorLoop env req peers i w).calls =
        w.calls ++ ((peers.takeWhile (fun p => !Registry.forwardOk env req p) ++
          (peers.find? (Registry.forwardOk env req)).toList).map
          (fun p => Call.peerRequest p req.method (Registry.forwardURL req p) req.mirrored)) ∧
      ∃ relayed, (Registry.mirrorLoop env req peers i w).rw =
          w.rw ++ relayed ++
            (if peers.any (Registry.forwardOk env req) then [] else [RwCall.writeError 404]) ∧
        ∀ c ∈ relayed, c.isRelay = true := by
  intro peers
  induction peers with
  | nil =>
    intro i w
    simp only [Registry.mirrorLoop, hctx]
    exact ⟨by simp [World.respond], [], by simp [World.respond], by simp⟩
  | cons p rest ih =>
    intro i w
    obtain ⟨h1, h2, rel, h3, h4⟩ := registry_forwardRequest_spec env req p w
    simp only [Registry.mirrorLoop, hctx]
    rw [if_neg (by simp)]
    cases hf : Registry.forwardRequest env req p w with
    | mk ok w' =>
      rw [hf] at h1 h2 h3
      simp only at h1 h2 h3
      cases ok with
      | true =>
        simp only
        have hok : Registry.forwardOk env req p = true := h1.symm
        refine ⟨?_, rel, ?_, h4⟩
        · simp [List.takeWhile, List.find?, hok, h2]
        · simp [List.any, hok, h3]
      | false =>
        simp only
        have hok : Registry.forwardOk env req p = false := h1.symm
        obtain ⟨ih1, rel', ih2, ih3⟩ := ih (i + 1) w'
        refine ⟨?_, rel ++ rel', ?_, ?_⟩
        · rw [ih1, h2]
          simp [List.takeWhile, List.find?, hok]
        · rw [ih2, h3]
          simp [List.any, hok]
        · intro c hc
          rcases List.mem_append.mp hc with h | h
          · exact h4 c h
          · exact ih3 c h

theorem clientStatus_after_setHandler (rest : List RwCall) :
    ∀ l : List RwCall, (∀ c ∈ l, ∃ n, c = RwCall.setHandler n) →
      clientStatus (l ++ rest) = clientStatus rest := by
  intro l
  induction l with
  | nil => intro _; rfl
  | cons c l ih =>
    intro h
    obtain ⟨n, hn⟩ := h c (List.mem_cons_self _ _)
    subst hn
    rw [List.cons_append, clientStatus]
    exact ih (fun d hd => h d (List.mem_cons_of_mem _ hd))

theorem registry_forwardRequest_rejected (env : Env) (req : Request) (p : List Char)
    (w : World) (h : Registry.peerRejected env req p = true) :
    (Registry.forwardRequest env req p w).1 = false ∧
    (Registry.forwardRequest env req p w).2.rw = w.rw := by
  unfold Registry.peerRejected at h
  unfold Registry.forwardRequest
  cases hd : env.peerDo p req.method req.path with
  | failed => exact ⟨rfl, rfl⟩
  | response status body readFails =>
    rw [hd] at h
    have hs : status ≠ 200 ∧ status ≠ 206 := by simpa using h
    simp only [if_pos hs]
    exact ⟨trivial, rfl⟩

theorem registry_mirrorLoop_rejected (env : Env) (req : Request)
    (hctx : req.cancelAfter = none) :
    ∀ (peers : List (List Char)) (i : Nat) (w : World),
      (∀ p ∈ peers, Registry.peerRejected env req p = true) →
      (Registry.mirrorLoop env req peers i w).rw = w.rw ++ [RwCall.writeError 404] := by
  intro peers
  induction peers with
  | nil =>
    intro i w _
    simp [Registry.mirrorLoop, World.respond]
  | cons p rest ih =>
    intro i w h
    obtain ⟨h1, h2⟩ := registry_forwardRequest_rejected env req p w
      (h p (List.mem_cons_self _ _))
    simp only [Registry.mirrorLoop, hctx]
    rw [if_neg (by simp)]
    cases hf : Registry.forwardRequest env req p w with
    | mk ok w' =>
      rw [hf] at h1 h2
      simp only at h1 h2
      subst h1
      simp only
      rw [ih (i + 1) w' (fun q hq => h q (List.mem_cons_of_mem _ hq)), h2]

/-- Counterexample for C3: the only peer answers 200 and its body breaks
after two bytes.  The attempt fails, so every attempt has failed, but
`forwardRequest` has already written the status 200 and the two bytes: the
client receives status 200, and the `WriteError(404)` that follows comes too
late to change it. -/
theorem handleMirror_broken_relay_answers_200 :
    Registry.forwardOk
        { resolve := fun _ => some ["a".toList],
          peerDo := fun _ _ _ => .response 200 "blob".toList (some 2),
          upstreamDo := fun _ _ => .failed }
        { method := "GET".toList, path := "/v2/x/blobs/sha256:ab".toList,
          mirrored := "true".toList } "a".toList = false ∧
    (Registry.handleMirror { parse := fun _ _ => none }
        { resolve := fun _ => some ["a".toList],
          peerDo := fun _ _ _ => .response 200 "blob".toList (some 2),
          upstreamDo := fun _ _ => .failed }
        { method := "GET".toList, path := "/v2/x/blobs/sha256:ab".toList,
          mirrored := "true".toList }
        { kind := .blob, registry := "docker.io".toList, name := "x".toList,
          digest := "sha256:ab".toList } {}).rw =
      [RwCall.writeHeader 200, RwCall.write "bl".toList, RwCall.writeError 404] ∧
    clientStatus (Registry.handleMirror { parse := fun _ _ => none }
        { resolve := fun _ => some ["a".toList],
          peerDo := fun _ _ _ => .response 200 "blob".toList (some 2),
          upstreamDo := fun _ _ => .failed }
        { method := "GET".toList, path := "/v2/x/blobs/sha256:ab".toList,
          mirrored := "true".toList }
        { kind := .blob, registry := "docker.io".toList, name := "x".toList,
          digest := "sha256:ab".toList } {}).rw = some 200 := by
  decide

/-- C3 (amended): `handleMirror`, given the peers `router.Resolve` emits and
a request context that is not cancelled, calls `forwardRequest` on the peers
one at a time in the order emitted, up to and including the first peer for
which it succeeds and on no later peer; what it writes to the response are
the relayed peer responses and, exactly when no attempt succeeded (also for
no peer at all), a final `WriteError(404)`.  When every peer is rejected
before anything is relayed (the request fails or the status is neither 200
nor 206; also for no peer at all) the `WriteError(404)` is all it writes,
and the client, to whom nothing but handler names was written before,
receives status 404. -/
theorem handleMirror_sequential_failover (r : Registry) (env : Env) (req : Request)
    (dist : DistributionPath) (w : World) (peers : List (List Char))
    (hgate : (!r.resolveLatestTag && dist.IsLatestTag) = false)
    (hres : env.resolve dist.Reference = some peers)
    (hctx : req.cancelAfter = none) :
    (∀ p w', (Registry.forwardRequest env req p w').1 = Registry.forwardOk env req p) ∧
    (r.handleMirror env req dist w).calls =
      w.calls ++ Call.routerResolve dist.Reference ::
        ((peers.takeWhile (fun p => !Registry.forwardOk env req p) ++
          (peers.find? (Registry.forwardOk env req)).toList).map
          (fun p => Call.peerRequest p req.method (Registry.forwardURL req p) req.mirrored)) ∧
    (∃ relayed, (r.handleMirror env req dist w).rw =
        w.rw ++ relayed ++
          (if peers.any (Registry.forwardOk env req) then [] else [RwCall.writeError 404]) ∧
      ∀ c ∈ relayed, c.isRelay = true) ∧
    ((∀ p ∈ peers, Registry.forwardOk env req p = false) →
      (r.handleMirror env req dist w).rw.getLast? = some (RwCall.writeError 404)) ∧
    ((∀ p ∈ peers, Registry.peerRejected env req p = true) →
      (r.handleMirror env req dist w).rw = w.rw ++ [RwCall.writeError 404] ∧
      ((∀ c ∈ w.rw, ∃ n, c = RwCall.setHandler n) →
        clientStatus (r.handleMirror env req dist w).rw = some 404)) := by
  have hloop := registry_mirrorLoop_spec env req hctx peers 0
    (w.call (.routerResolve dist.Reference))
  have hdef : r.handleMirror env req dist w =
      Registry.mirrorLoop env req peers 0 (w.call (.routerResolve dist.Reference)) := by
    unfold Registry.handleMirror
    rw [hgate]
    simp [hres]
  rw [hdef]
  obtain ⟨hc, rel, hr, hrel⟩ := hloop
  refine ⟨fun p w' => (registry_forwardRequest_spec env req p w').1, ?_, ⟨rel, ?_, hrel⟩, ?_,
    ?_⟩
  · rw [hc]; simp [World.call]
  · rw [hr]; simp [World.call]
  · intro hall
    have hany : peers.any (Registry.forwardOk env req) = false := by
      rw [List.any_eq_false]
      intro p hp
      simp [hall p hp]
    rw [hr, hany]
    simp
  · intro hall
    have hrw := registry_mirrorLoop_rejected env req hctx peers 0
      (w.call (.routerResolve dist.Reference)) hall
    have hw : (w.call (.routerResolve dist.Reference)).rw = w.rw := rfl
    rw [hw] at hrw
    refine ⟨hrw, fun hset => ?_⟩
    rw [hrw, clientStatus_after_setHandler _ w.rw hset]
    rfl

/-- Witness for C3: three peers, the first answers 503, the second 200, the
third is never contacted. -/
theorem handleMirror_sequential_failover_witness :
    (Registry.handleMirror { parse := fun _ _ => none }
        { resolve := fun _ => some ["a".toList, "b".toList, "c".toList],
          peerDo := fun p _ _ =>
            if p = "a".toList then .response 503 [] none else .response 200 "blob".toList none,
          upstreamDo := fun _ _ => .failed }
        { method := "GET".toList, path := "/v2/x/blobs/sha256:ab".toList,
          mirrored := "true".toList }
        { kind := .blob, registry := "docker.io".toList, name := "x".toList,
          digest := "sha256:ab".toList } {}).calls =
      [Call.routerResolve "sha256:ab".toList,
       Call.peerRequest "a".toList "GET".toList "http://a/v2/x/blobs/sha256:ab".toList
         "true".toList,
       Call.peerRequest "b".toList "GET".toList "http://b/v2/x/blobs/sha256:ab".toList
         "true".toList] := by
  have h := (handleMirror_sequential_failover { parse := fun _ _ => none }
        { resolve := fun _ => some ["a".toList, "b".toList, "c".toList],
          peerDo := fun p _ _ =>
            if p = "a".toList then .response 503 [] none else .response 200 "blob".toList none,
          upstreamDo := fun _ _ => .failed }
        { method := "GET".toList, path := "/v2/x/blobs/sha256:ab".toList,
          mirrored := "true".toList }
        { kind := .blob, registry := "docker.io".toList, name := "x".toList,
          digest := "sha256:ab".toList } {} ["a".toList, "b".toList, "c".toList]
        (by decide) (by decide) (by decide)).2.1
  rw [h]
  decide

/-- C4 (counterexample): the wheel handler's `forwardRequest` does not accept
a peer response with status 206: it returns an error and relays nothing. -/
theorem pip_forwardRequest_rejects_206 :
    (demoPip.forwardRequest
        { demoEnv with peerDo := fun _ _ _ => .response 206 "part".toList none }
        { method := "GET".toList, path := "/packages/foo.whl".toList }
        "10.0.0.2:5000".toList "foo.whl".toList {}).1 = false ∧
    (demoPip.forwardRequest
        { demoEnv with peerDo := fun _ _ _ => .response 206 "part".toList none }
        { method := "GET".toList, path := "/packages/foo.whl".toList }
        "10.0.0.2:5000".toList "foo.whl".toList {}).2.rw = [] := by
  constructor <;> decide

/-- C4 (amended): for a peer that answers with `status` and a body that is
read to its end, `forwardRequest` of the container handler and of the model
handler return `nil` exactly when the status is 200 or 206, and
`forwardRequest` of the wheel handler exactly when the status is 200.  For an
accepted status the status and the body are relayed to the client; for a
rejected status nothing is written to the client and the loop of the caller
goes on with the next peer. -/
theorem forwardRequest_accepted_statuses (p : PipClient) (env : Env) (req : Request)
    (peer name key : List Char) (isResolve : Bool) (w : World) (status : Nat)
    (body : List Char)
    (hpeer : ∀ m path, env.peerDo peer m path = .response status body none)
    (hget : req.method ≠ "HEAD".toList) :
    ((Registry.forwardRequest env req peer w).1 = decide (status = 200 ∨ status = 206) ∧
      ((status = 200 ∨ status = 206) →
        (Registry.forwardRequest env req peer w).2.rw =
          w.rw ++ [.writeHeader status, .write body]) ∧
      (¬ (status = 200 ∨ status = 206) →
        (Registry.forwardRequest env req peer w).2.rw = w.rw ∧
        ∀ rest i, req.cancelAfter = none →
          Registry.mirrorLoop env req (peer :: rest) i w =
            Registry.mirrorLoop env req rest (i + 1)
              (Registry.forwardRequest env req peer w).2)) ∧
    ((HFClient.forwardRequest env req peer key isResolve w).1 =
        decide (status = 200 ∨ status = 206) ∧
      ((status = 200 ∨ status = 206) →
        (HFClient.forwardRequest env req peer key isResolve w).2.rw =
          w.rw ++ [.writeHeader status, .write body]) ∧
      (¬ (status = 200 ∨ status = 206) →
        (HFClient.forwardRequest env req peer key isResolve w).2.rw = w.rw ∧
        ∀ rest, HFClient.peerLoop env req key isResolve (peer :: rest) w =
          HFClient.peerLoop env req key isResolve rest
            (HFClient.forwardRequest env req peer key isResolve w).2)) ∧
    ((p.forwardRequest env req peer name w).1 = decide (status = 200) ∧
      (status = 200 →
        (p.forwardRequest env req peer name w).2.rw =
          w.rw ++ [.writeHeader status, .write body]) ∧
      (status ≠ 200 →
        (p.forwardRequest env req peer name w).2.rw = w.rw ∧
        ∀ rest, p.peerLoop env req name (peer :: rest) w =
          p.peerLoop env req name rest (p.forwardRequest env req peer name w).2)) := by
  have hget' : ¬ req.method = ['H', 'E', 'A', 'D'] := hget
  refine ⟨?_, ?_, ?_⟩
  · by_cases hs : status = 200 ∨ status = 206
    · have hs' : ¬ (status ≠ 200 ∧ status ≠ 206) := by
        rcases hs with h | h <;> simp [h]
      refine ⟨?_, ?_, fun h => absurd hs h⟩
      · simp [Registry.forwardRequest, hpeer, if_neg hs', hs]
      · intro _
        simp [Registry.forwardRequest, hpeer, if_neg hs', World.respond, World.call]
    · have hs' : status ≠ 200 ∧ status ≠ 206 := by
        constructor <;> intro h <;> simp [h] at hs
      refine ⟨?_, fun h => absurd h hs, fun _ => ⟨?_, ?_⟩⟩
      · simp [Registry.forwardRequest, hpeer, if_pos hs', hs]
      · simp [Registry.forwardRequest, hpeer, if_pos hs', World.call]
      · intro rest i hctx
        simp [Registry.mirrorLoop, Registry.forwardRequest, hpeer, if_pos hs', hctx]
  · by_cases hs : status = 200 ∨ status = 206
    · have hs' : ¬ (status ≠ 200 ∧ status ≠ 206) := by
        rcases hs with h | h <;> simp [h]
      refine ⟨?_, ?_, fun h => absurd hs h⟩
      · simp [HFClient.forwardRequest, hpeer, if_neg hs', hs, hget']
      · intro _
        simp [HFClient.forwardRequest, hpeer, if_neg hs', World.respond, World.call, hget']
    · have hs' : status ≠ 200 ∧ status ≠ 206 := by
        constructor <;> intro h <;> simp [h] at hs
      refine ⟨?_, fun h => absurd h hs, fun _ => ⟨?_, ?_⟩⟩
      · simp [HFClient.forwardRequest, hpeer, if_pos hs', hs]
      · simp [HFClient.forwardRequest, hpeer, if_pos hs', World.call]
      · intro rest
        simp [HFClient.peerLoop, HFClient.forwardRequest, hpeer, if_pos hs']
  · by_cases hs : status = 200
    · subst hs
      refine ⟨?_, ?_, fun h => absurd rfl h⟩
      · simp only [PipClient.forwardRequest, hpeer, ne_eq, not_true_eq_false, if_false]
        split <;> simp
      · intro _
        simp only [PipClient.forwardRequest, hpeer, ne_eq, not_true_eq_false, if_false]
        split <;> simp [World.respond, World.call, World.putFile]
    · refine ⟨?_, fun h => absurd h hs, fun _ => ⟨?_, ?_⟩⟩
      · simp [PipClient.forwardRequest, hpeer, hs]
      · simp [PipClient.forwardRequest, hpeer, hs, World.call]
      · intro rest
        simp [PipClient.peerLoop, PipClient.forwardRequest, hpeer, hs]

/-- Witness for C4: a peer that answers 206 is accepted by the container
handler. -/
theorem forwardRequest_accepted_statuses_witness :
    (Registry.forwardRequest
      { demoEnv with peerDo := fun _ _ _ => .response 206 "part".toList none }
      { method := "GET".toList, path := "/v2/x/blobs/sha256:ab".toList }
      "10.0.0.2:5000".toList {}).1 = decide ((206 : Nat) = 200 ∨ (206 : Nat) = 206) :=
  (forwardRequest_accepted_statuses demoPip
    { demoEnv with peerDo := fun _ _ _ => .response 206 "part".toList none }
    { method := "GET".toList, path := "/v2/x/blobs/sha256:ab".toList }
    "10.0.0.2:5000".toList "foo.whl".toList "hf:/x".toList true {} 206 "part".toList
    (fun _ _ => rfl) (by decide)).1.1

/-- C5 (the code at the failing input): the cache holds `refs/dev` with the
commit `abc123` and `snapshots/abc123/LICENSE`.  A request for
`/huggingface/org/model/resolve/dev/LICENSE` is not served from that file:
the handler reads `refs/main`, misses, fetches from the upstream and calls
`Router.Advertise`. -/
theorem hf_resolve_reads_refs_main_only :
    (demoHF.HuggingFaceRegistryHandler demoEnv
        { method := "GET".toList, path := "/huggingface/org/model/resolve/dev/LICENSE".toList }
        { fs := demoModelDev }).map (fun w => (w.rw, w.calls)) =
      some ([.writeHeader 200, .write "upstream content".toList],
        [.upstreamRequest "GET".toList
            "https://huggingface.co/org/model/resolve/dev/LICENSE".toList,
          .routerAdvertise ["hf:/huggingface/org/model/resolve/dev/LICENSE".toList]]) := by
  decide

theorem hf_forwardRequest_fs (env : Env) (req : Request) (peer key : List Char)
    (isResolve : Bool) (w : World) :
    (HFClient.forwardRequest env req peer key isResolve w).2.fs = w.fs := by
  unfold HFClient.forwardRequest
  simp only
  split
  · rfl
  · split
    · rfl
    · split
      · rfl
      · split <;> rfl

theorem hf_peerLoop_fs (env : Env) (req : Request) (key : List Char) (isResolve : Bool) :
    ∀ (peers : List (List Char)) (w : World),
      (HFClient.peerLoop env req key isResolve peers w).2.fs = w.fs := by
  intro peers
  induction peers with
  | nil => intro w; rfl
  | cons p rest ih =>
    intro w
    have h := hf_forwardRequest_fs env req p key isResolve w
    unfold HFClient.peerLoop
    cases hf : HFClient.forwardRequest env req p key isResolve w with
    | mk ok w' =>
      rw [hf] at h
      cases ok with
      | true => exact h
      | false => simp only; rw [ih w']; exact h

theorem hf_serveFromFallback_fs (h : HFClient) (env : Env) (req : Request)
    (cleanPath : List Char) (isResolve isAPI : Bool) (key : List Char) (w : World) :
    (h.serveFromFallback env req cleanPath isResolve isAPI key w).fs = w.fs := by
  unfold HFClient.serveFromFallback
  simp only
  split
  · rfl
  · rfl
  · split
    · rfl
    · split
      · rfl
      · split <;> rfl

theorem hf_lookup_done_fs (h : HFClient) (key : List Char) (isResolve isBlob isAPI : Bool)
    (parts : List (List Char)) (w w' : World)
    (hl : h.lookup key isResolve isBlob isAPI parts w = .done w') : w'.fs = w.fs := by
  have hsnap : ∀ modelDir w'',
      HFClient.lookupSnapshot key isResolve isAPI parts modelDir w = .done w'' →
        w''.fs = w.fs := by
    intro modelDir w'' hs
    unfold HFClient.lookupSnapshot at hs
    split at hs
    · simp only at hs
      split at hs
      · split at hs
        · cases hs; rfl
        · cases hs
      · cases hs
    · split at hs
      · simp only at hs
        split at hs
        · cases hs; rfl
        · cases hs
      · cases hs
  unfold HFClient.lookup at hl
  split at hl
  · simp only at hl
    split at hl
    · cases hl
    · rename_i modelDir _
      cases hs : HFClient.lookupSnapshot key isResolve isAPI parts modelDir w with
      | panic => rw [hs] at hl; cases hl
      | done w'' =>
        rw [hs] at hl
        cases hl
        exact hsnap modelDir _ hs
      | miss c f =>
        rw [hs] at hl
        simp only at hl
        split at hl
        · split at hl
          · cases hl; rfl
          · cases hl
        · cases hl
  · cases hl

/-- The model handler writes no file. -/
theorem hf_handler_fs (h : HFClient) (env : Env) (req : Request) (w w' : World)
    (hr : h.HuggingFaceRegistryHandler env req w = some w') : w'.fs = w.fs := by
  unfold HFClient.HuggingFaceRegistryHandler at hr
  simp only at hr
  split at hr
  · cases hr; rfl
  · split at hr
    · cases hr
    · rename_i w'' hl
      cases hr
      exact hf_lookup_done_fs h _ _ _ _ _ w _ hl
    · rename_i c f hl
      split at hr
      · rename_i w'' hp
        cases hr
        split at hp
        · cases hres : env.resolve ("hf:".toList ++ path.Clean req.path) with
          | none => rw [hres] at hp; cases hp
          | some peers =>
            rw [hres] at hp
            simp only at hp
            have := hf_peerLoop_fs env req ("hf:".toList ++ path.Clean req.path)
              (strings.Contains (path.Clean req.path) "/resolve/".toList) peers
              (w.call (.routerResolve ("hf:".toList ++ path.Clean req.path)))
            rw [hp] at this
            exact this
        · cases hp
      · rename_i w'' hp
        cases hr
        rw [hf_serveFromFallback_fs]
        split at hp
        · cases hres : env.resolve ("hf:".toList ++ path.Clean req.path) with
          | none => rw [hres] at hp; cases hp; rfl
          | some peers =>
            rw [hres] at hp
            simp only at hp
            have := hf_peerLoop_fs env req ("hf:".toList ++ path.Clean req.path)
              (strings.Contains (path.Clean req.path) "/resolve/".toList) peers
              (w.call (.routerResolve ("hf:".toList ++ path.Clean req.path)))
            rw [hp] at this
            exact this
        · cases hp; rfl

/-- C6 (the code at the failing input): `refs/main` is present, the file
`model.bin` is missing.  The request is served from the peer with status 200
and body `peer content`, and the cache target
`snapshots/abc123/model.bin` does not exist afterwards; the same holds when
there is no peer and the upstream serves the file. -/
theorem hf_served_file_not_cached :
    (demoHF.HuggingFaceRegistryHandler demoEnv
        { method := "GET".toList, path := "/huggingface/org/model/resolve/main/model.bin".toList }
        { fs := demoModelRefs }).map
      (fun w => (w.rw, w.fs "/hf/models--org--model/snapshots/abc123/model.bin".toList)) =
      some ([.writeHeader 200, .write "peer content".toList], none) ∧
    (demoHF.HuggingFaceRegistryHandler { demoEnv with resolve := fun _ => some [] }
        { method := "GET".toList, path := "/huggingface/org/model/resolve/main/model.bin".toList }
        { fs := demoModelRefs }).map
      (fun w => (w.rw, w.fs "/hf/models--org--model/snapshots/abc123/model.bin".toList)) =
      some ([.writeHeader 200, .write "upstream content".toList], none) := by
  constructor <;> decide

theorem filepath_Base_ne_nil (p : List Char) : filepath.Base p ≠ [] := by
  unfold filepath.Base
  split
  · simp
  · simp only
    split
    · simp
    · assumption

theorem packages_not_simple (s : List Char)
    (h : strings.HasPrefix s "/packages/".toList = true) :
    strings.HasPrefix s "/simple/".toList = false := by
  match s with
  | [] => simp [strings.HasPrefix, List.isPrefixOf] at h
  | [a] => simp [strings.HasPrefix, List.isPrefixOf] at h
  | a :: b :: rest =>
    simp [strings.HasPrefix, List.isPrefixOf] at h ⊢
    intro _ hb
    have := h.2.1
    rw [← hb] at this
    exact absurd this (by decide)

theorem pip_forwardRequest_rejected (p : PipClient) (env : Env) (req : Request)
    (q name : List Char) (w : World) (h : PipClient.peerRejected env req q = true) :
    p.forwardRequest env req q name w = (false, w.call (PipClient.peerCall req q)) := by
  unfold PipClient.peerRejected at h
  unfold PipClient.forwardRequest PipClient.peerCall
  cases hq : env.peerDo q "GET".toList req.path with
  | failed => rfl
  | response status body readFails =>
    rw [hq] at h
    simp only [bne_iff_ne, ne_eq] at h
    simp only [ne_eq, if_pos h]

theorem pip_peerLoop_rejected (p : PipClient) (env : Env) (req : Request) (name : List Char)
    (rest : List (List Char)) :
    ∀ (pre : List (List Char)) (w : World),
      (∀ q ∈ pre, PipClient.peerRejected env req q = true) →
      p.peerLoop env req name (pre ++ rest) w =
        p.peerLoop env req name rest
          { w with calls := w.calls ++ pre.map (PipClient.peerCall req) } := by
  intro pre
  induction pre with
  | nil => intro w _; simp
  | cons q pre ih =>
    intro w hq
    have h1 := pip_forwardRequest_rejected p env req q name w (hq q (by simp))
    have h2 := ih (w.call (PipClient.peerCall req q)) (fun x hx => hq x (by simp [hx]))
    simp only [List.cons_append, PipClient.peerLoop, h1]
    exact h2.trans (by simp [World.call])

/-- Counterexample for C7: `Router.Resolve` yields two peers for
`/packages/foo.whl`; the first answers 200 and its body breaks after two
bytes, the second answers 200 with body `good`.  The two bytes of the first
peer were already written to the client when the second peer is tried: the
client receives the body `XXgood`, not `good`. -/
theorem pip_artifact_body_follows_broken_relay :
    (demoPip.PipRegistryHandler
        { demoEnv with
            resolve := fun _ => some ["10.0.0.2:5000".toList, "10.0.0.3:5000".toList],
            peerDo := fun q _ _ =>
              if q = "10.0.0.2:5000".toList then .response 200 "XXXX".toList (some 2)
              else .response 200 "good".toList none }
        { method := "GET".toList, path := "/packages/foo.whl".toList } {}).rw =
      [RwCall.writeHeader 200, RwCall.write "XX".toList,
       RwCall.writeHeader 200, RwCall.write "good".toList] ∧
    clientBody (demoPip.PipRegistryHandler
        { demoEnv with
            resolve := fun _ => some ["10.0.0.2:5000".toList, "10.0.0.3:5000".toList],
            peerDo := fun q _ _ =>
              if q = "10.0.0.2:5000".toList then .response 200 "XXXX".toList (some 2)
              else .response 200 "good".toList none }
        { method := "GET".toList, path := "/packages/foo.whl".toList } {}).rw =
      "XXgood".toList := by
  decide

/-- C7 (amended): for a request `/packages/.../<name>` whose file is not in
the wheel cache, when `Router.Resolve` yields peers of which every one before
the peer `q` is rejected before anything is relayed (request failed or
status other than 200), `q` answers 200 with a body `b` that is read to its
end, and `os.Create` of the cache file succeeds: the handler writes status
200 and body `b` (all the client receives when nothing was written to it
before), the file `<PipCacheDir>/<name>` holds `b`, and the calls made are
`Router.Resolve`, one request to each peer up to `q` and one
`Router.Advertise` with the one key `pip:` followed by the lower-cased
name. -/
theorem pip_artifact_served_from_peer (p : PipClient) (env : Env) (req : Request) (w : World)
    (pre post : List (List Char)) (peer b : List Char)
    (hraw : strings.HasPrefix req.path "/packages/".toList = true)
    (hclean : strings.HasPrefix (path.Clean req.path) "/packages/".toList = true)
    (hmiss : w.exists (filepath.Join [filepath.Join [p.PipCacheDir],
      filepath.Base (path.Clean req.path)]) = false)
    (hres : env.resolve (pipKey (filepath.Base (path.Clean req.path))) =
      some (pre ++ peer :: post))
    (hpre : ∀ q ∈ pre, PipClient.peerRejected env req q = true)
    (hpeer : env.peerDo peer "GET".toList req.path = .response 200 b none)
    (hcreate : env.createFails (filepath.Join [filepath.Join [p.PipCacheDir],
      filepath.Base (path.Clean req.path)]) = false) :
    (p.PipRegistryHandler env req w).rw = w.rw ++ [.writeHeader 200, .write b] ∧
    (w.rw = [] → clientStatus (p.PipRegistryHandler env req w).rw = some 200 ∧
      clientBody (p.PipRegistryHandler env req w).rw = b) ∧
    (p.PipRegistryHandler env req w).fs (filepath.Join [filepath.Join [p.PipCacheDir],
      filepath.Base (path.Clean req.path)]) = some b ∧
    (p.PipRegistryHandler env req w).calls =
      w.calls ++ Call.routerResolve (pipKey (filepath.Base (path.Clean req.path))) ::
        (pre.map (PipClient.peerCall req) ++
          [PipClient.peerCall req peer,
           Call.routerAdvertise
             ["pip:".toList ++ strings.ToLower (filepath.Base (path.Clean req.path))]]) := by
  have hsimple := packages_not_simple _ hraw
  have hfile : p.peerCacheFile req (filepath.Base (path.Clean req.path)) =
      filepath.Join [filepath.Join [p.PipCacheDir], filepath.Base (path.Clean req.path)] := by
    simp only [PipClient.peerCacheFile, hsimple]
    simp
  have hne1 : path.Clean req.path ≠ "/simple".toList := by
    intro h; rw [h] at hclean; exact absurd hclean (by decide)
  have hne2 : path.Clean req.path ≠ "/simple/".toList := by
    intro h; rw [h] at hclean; exact absurd hclean (by decide)
  have hfwd : ∀ w' : World, p.forwardRequest env req peer (filepath.Base (path.Clean req.path)) w' =
      (true, (((((w'.call (PipClient.peerCall req peer)).respond (.writeHeader 200)).putFile
        (filepath.Join [filepath.Join [p.PipCacheDir], filepath.Base (path.Clean req.path)])
        b).respond (.write b)).call
        (.routerAdvertise [pipKey (filepath.Base (path.Clean req.path))]))) := by
    intro w'
    unfold PipClient.forwardRequest
    simp only [hpeer, hfile, hcreate, ne_eq, not_true_eq_false, if_false]
    rfl
  have hout : p.PipRegistryHandler env req w =
      (((((({ (w.call (.routerResolve (pipKey (filepath.Base (path.Clean req.path))))) with
        calls := (w.call (.routerResolve (pipKey (filepath.Base (path.Clean req.path))))).calls ++
          pre.map (PipClient.peerCall req) } : World).call
        (PipClient.peerCall req peer)).respond (.writeHeader 200)).putFile
        (filepath.Join [filepath.Join [p.PipCacheDir], filepath.Base (path.Clean req.path)])
        b).respond (.write b)).call
        (.routerAdvertise [pipKey (filepath.Base (path.Clean req.path))])) := by
    unfold PipClient.PipRegistryHandler
    simp only [hne1, hne2, or_self, if_false, filepath_Base_ne_nil, hclean, Bool.not_true,
      Bool.and_false, List.append_nil, hmiss, hres, Bool.false_eq_true]
    rw [pip_peerLoop_rejected p env req _ (peer :: post) pre _ hpre]
    simp only [PipClient.peerLoop, hfwd]
  rw [hout]
  refine ⟨?_, ?_, ?_, ?_⟩
  · simp [World.call, World.respond, World.putFile]
  · intro hw
    simp [World.call, World.respond, World.putFile, hw, clientStatus, clientBody]
  · simp [World.call, World.respond, World.putFile, FS.put]
  · simp [World.call, World.respond, World.putFile, pipKey]

/-- Witness for C7: `GET /packages/peerpkg-1.0.0-py3-none-any.whl`, one
peer that answers 200 with `peer content`. -/
theorem pip_artifact_served_from_peer_witness :
    (demoPip.PipRegistryHandler demoEnv
        { method := "GET".toList, path := "/packages/peerpkg-1.0.0-py3-none-any.whl".toList }
        {}).fs
      (filepath.Join [filepath.Join [demoPip.PipCacheDir], filepath.Base (path.Clean
        (({ method := "GET".toList,
            path := "/packages/peerpkg-1.0.0-py3-none-any.whl".toList } : Request).path))]) =
      some "peer content".toList :=
  (pip_artifact_served_from_peer demoPip demoEnv
    { method := "GET".toList, path := "/packages/peerpkg-1.0.0-py3-none-any.whl".toList } {}
    [] [] "10.0.0.2:5000".toList "peer content".toList
    (by decide) (by decide) (by decide) (by decide) (by simp) (by decide) (by decide)).2.2.1

/-- C8 (the code at the failing inputs): (1) the upstream answers the index
request `/simple/unknownpkg/` with 404 and body `Not Found`: the file
`unknownpkg.html` is left in the cache with that body and the next request is
served from it; (2) the same for the artifact `/packages/foo.whl`; (3) a peer
answers 200 and its body `peer content` breaks after 4 bytes: the file
`foo.whl` is left in the cache with the 4 bytes and the next request is
served from it; (4) there is no peer and the body `upstream content` of the
upstream breaks after 8 bytes: the file `foo.whl` is left in the cache with
the 8 bytes. -/
theorem pip_cache_keeps_error_pages_and_truncated_files :
    ((demoPip.PipRegistryHandler
        { demoEnv with resolve := fun _ => some [],
                       upstreamDo := fun _ url =>
                         .response 404 (demoURLPath url) "Not Found".toList none }
        { method := "GET".toList, path := "/simple/unknownpkg/".toList } {}).fs
        "/cache/unknownpkg.html".toList = some "Not Found".toList ∧
      (demoPip.PipRegistryHandler demoEnv
        { method := "GET".toList, path := "/simple/unknownpkg/".toList }
        { fs := (demoPip.PipRegistryHandler
            { demoEnv with resolve := fun _ => some [],
                           upstreamDo := fun _ url =>
                             .response 404 (demoURLPath url) "Not Found".toList none }
            { method := "GET".toList, path := "/simple/unknownpkg/".toList } {}).fs }).rw =
        [.serveFile "/cache/unknownpkg.html".toList]) ∧
    (demoPip.PipRegistryHandler
        { demoEnv with resolve := fun _ => some [],
                       upstreamDo := fun _ url =>
                         .response 404 (demoURLPath url) "Not Found".toList none }
        { method := "GET".toList, path := "/packages/foo.whl".toList } {}).fs
        "/cache/foo.whl".toList = some "Not Found".toList ∧
    ((demoPip.PipRegistryHandler
        { demoEnv with peerDo := fun _ _ _ => .response 200 "peer content".toList (some 4),
                       upstreamDo := fun _ _ => .failed }
        { method := "GET".toList, path := "/packages/foo.whl".toList } {}).fs
        "/cache/foo.whl".toList = some "peer".toList ∧
      (demoPip.PipRegistryHandler demoEnv
        { method := "GET".toList, path := "/packages/foo.whl".toList }
        { fs := (demoPip.PipRegistryHandler
            { demoEnv with peerDo := fun _ _ _ => .response 200 "peer content".toList (some 4),
                           upstreamDo := fun _ _ => .failed }
            { method := "GET".toList, path := "/packages/foo.whl".toList } {}).fs }).rw =
        [.serveFile "/cache/foo.whl".toList]) ∧
    (demoPip.PipRegistryHandler
        { demoEnv with resolve := fun _ => some [],
                       upstreamDo := fun _ url =>
                         .response 200 (demoURLPath url) "upstream content".toList (some 8) }
        { method := "GET".toList, path := "/packages/foo.whl".toList } {}).fs
        "/cache/foo.whl".toList = some "upstream".toList := by
  refine ⟨⟨?_, ?_⟩, ?_, ⟨?_, ?_⟩, ?_⟩ <;> decide

theorem toLower_html (p : List Char) :
    strings.ToLower (p ++ ".html".toList) = strings.ToLower p ++ ".html".toList := by
  simp only [strings.ToLower, List.map_append]
  congr 1

theorem hasSuffix_append (s suf : List Char) : strings.HasSuffix (s ++ suf) suf = true := by
  simp [strings.HasSuffix]

/-- C9 (the code at the failing input): for every package name `p` the key
`WalkPipDir` derives from the cache file `<p>.html` is `pip:` followed by the
lower-cased `<p>.html`, which is not the key `pip:` followed by the
lower-cased `p`; and for `/simple/numpy/` the handler resolves, and after the
upstream fetch advertises, `pip:numpy`, while the file it caches,
`numpy.html`, gets the tracker key `pip:numpy.html`. -/
theorem walkPipDir_index_key_keeps_html :
    (∀ p : List Char,
      WalkPipDir [{ name := p ++ ".html".toList }] = some [pipKey p ++ ".html".toList] ∧
      pipKey p ++ ".html".toList ≠ pipKey p) ∧
    (demoPip.PipRegistryHandler { demoEnv with resolve := fun _ => some [] }
        { method := "GET".toList, path := "/simple/numpy/".toList } {}).calls =
      [.routerResolve "pip:numpy".toList,
       .upstreamRequest "GET".toList "https://pypi.org/simple/numpy/".toList,
       .routerAdvertise ["pip:numpy".toList]] ∧
    (demoPip.PipRegistryHandler { demoEnv with resolve := fun _ => some [] }
        { method := "GET".toList, path := "/simple/numpy/".toList } {}).fs
      "/cache/numpy.html".toList = some "upstream content".toList ∧
    WalkPipDir [{ name := "numpy.html".toList }] = some ["pip:numpy.html".toList] := by
  refine ⟨fun p => ⟨?_, ?_⟩, by decide, by decide, by decide⟩
  · have h1 := toLower_html p
    have h2 := hasSuffix_append (strings.ToLower p) ".html".toList
    simp only [WalkPipDir, h1, h2, Bool.or_true, if_true, pipKey]
    simp
  · intro h
    have := congrArg List.length h
    simp at this

namespace strings

theorem replaceScan_nil (old new : List Char) (k : Nat) :
    replaceScan old new none k [] = [] := by
  cases k <;> rfl

theorem replaceScan_skip (old new : List Char) :
    ∀ (k : Nat) (s : List Char),
      replaceScan old new none k s = replaceScan old new none 0 (s.drop k) := by
  intro k
  induction k with
  | zero => intro s; rfl
  | succ k ih =>
    intro s
    cases s with
    | nil => rfl
    | cons c cs => simp only [replaceScan, List.drop_succ_cons]; exact ih cs

theorem ReplaceAll_nil (old new : List Char) : ReplaceAll [] old new = [] := rfl

theorem ReplaceAll_match (old new s : List Char) (hne : old ≠ [])
    (h : old.isPrefixOf s = true) :
    ReplaceAll s old new = new ++ ReplaceAll (s.drop old.length) old new := by
  cases s with
  | nil => cases old with
    | nil => exact absurd rfl hne
    | cons a l => simp [List.isPrefixOf] at h
  | cons c cs =>
    cases old with
    | nil => exact absurd rfl hne
    | cons a l =>
      unfold ReplaceAll
      rw [replaceScan]
      simp only [h, Bool.true_and, bne_self_eq_false, Option.map_none', List.length_cons,
        Nat.add_sub_cancel, List.drop_succ_cons]
      rw [replaceScan_skip]
      simp

theorem ReplaceAll_skip (old new : List Char) (c : Char) (cs : List Char)
    (h : old.isPrefixOf (c :: cs) = false) :
    ReplaceAll (c :: cs) old new = c :: ReplaceAll cs old new := by
  unfold ReplaceAll
  rw [replaceScan]
  simp [h]


theorem isPrefixOf_iff (a b : List Char) : a.isPrefixOf b = true ↔ a <+: b := by
  exact List.isPrefixOf_iff_prefix

theorem ReplaceAll_head_unmatched (old new : List Char) (hold : old ≠ []) :
    ∀ (u t : List Char), (∀ v, v <:+ u → v ≠ [] → Apart v new) →
      u <+: ReplaceAll t old new → u <+: t ∧ (u ≠ [] → old.isPrefixOf t = false) := by
  intro u
  induction u with
  | nil => intro t _ _; exact ⟨List.nil_prefix, fun h => absurd rfl h⟩
  | cons a u ih =>
    intro t hap hu
    cases t with
    | nil =>
      rw [ReplaceAll_nil] at hu
      simp at hu
    | cons c cs =>
      cases hm : old.isPrefixOf (c :: cs) with
      | true =>
        exfalso
        rw [ReplaceAll_match _ _ _ hold hm] at hu
        have hself := hap (a :: u) (List.suffix_refl _) (by simp)
        rcases ( List.prefix_or_prefix_of_prefix hu (List.prefix_append new _)) with h | h
        · exact hself.1 h
        · exact hself.2 h
      | false =>
        rw [ReplaceAll_skip _ _ _ _ hm, List.cons_prefix_cons] at hu
        obtain ⟨hac, hu'⟩ := hu
        refine ⟨?_, fun _ => rfl⟩
        rw [List.cons_prefix_cons]
        exact ⟨hac, (ih cs (fun v hv hne => hap v (hv.trans (List.suffix_cons _ _)) hne)
          hu').1⟩

theorem suffix_append_cases (A B t' : List Char) (h : t' <:+ A ++ B) :
    t' <:+ B ∨ ∃ c ∈ A, t'.head? = some c := by
  induction A with
  | nil => left; simpa using h
  | cons a A ih =>
    rw [List.cons_append, List.suffix_cons_iff] at h
    rcases h with h | h
    · right; exact ⟨a, by simp, by rw [h]; rfl⟩
    · rcases ih h with h' | ⟨c, hc, h'⟩
      · left; exact h'
      · right; exact ⟨c, by simp [hc], h'⟩

theorem ReplaceAll_suffix_cases (old new : List Char) (hold : old ≠ []) :
    ∀ (n : Nat) (s t' : List Char), s.length ≤ n → t' <:+ ReplaceAll s old new →
      (∃ t, t <:+ s ∧ t' = ReplaceAll t old new) ∨ (∃ c ∈ new, t'.head? = some c) := by
  intro n
  induction n with
  | zero =>
    intro s t' hn h
    have hs : s = [] := List.length_eq_zero.mp (Nat.le_zero.mp hn)
    subst hs
    rw [ReplaceAll_nil] at h
    left
    exact ⟨[], List.suffix_refl _, by simpa using h⟩
  | succ n ih =>
    intro s t' hn h
    cases s with
    | nil =>
      rw [ReplaceAll_nil] at h
      left
      exact ⟨[], List.suffix_refl _, by simpa using h⟩
    | cons c cs =>
      cases hm : old.isPrefixOf (c :: cs) with
      | true =>
        rw [ReplaceAll_match _ _ _ hold hm] at h
        rcases suffix_append_cases _ _ _ h with h' | h'
        · have hlen : ((c :: cs).drop old.length).length ≤ n := by
            have : 0 < old.length := List.length_pos.mpr hold
            simp only [List.length_drop, List.length_cons] at hn ⊢
            omega
          rcases ih _ t' hlen h' with ⟨t, ht, he⟩ | hr
          · left; exact ⟨t, ht.trans (List.drop_suffix _ _), he⟩
          · right; exact hr
        · right; exact h'
      | false =>
        rw [ReplaceAll_skip _ _ _ _ hm, List.suffix_cons_iff] at h
        rcases h with h | h
        · left
          exact ⟨c :: cs, List.suffix_refl _, by rw [h, ReplaceAll_skip _ _ _ _ hm]⟩
        · have hlen : cs.length ≤ n := by simpa using hn
          rcases ih cs t' hlen h with ⟨t, ht, he⟩ | hr
          · left; exact ⟨t, ht.trans (List.suffix_cons _ _), he⟩
          · right; exact hr

theorem ReplaceAll_keeps (old new P' : List Char) (p0 : Char) (hold : old = p0 :: P') :
    ∀ (u t : List Char), p0 ∉ u → u <+: t →
      ReplaceAll t old new = u ++ ReplaceAll (t.drop u.length) old new := by
  intro u
  induction u with
  | nil => intro t _ _; simp
  | cons b u ih =>
    intro t hp hu
    cases t with
    | nil => simp at hu
    | cons c cs =>
      rw [List.cons_prefix_cons] at hu
      obtain ⟨hbc, hu'⟩ := hu
      subst hbc
      have hb : p0 ≠ b := fun h => hp (by simp [h])
      have hp' : p0 ∉ u := fun h => hp (by simp [h])
      have hm : old.isPrefixOf (b :: cs) = false := by
        rw [hold]
        simp [List.isPrefixOf, hb]
      rw [ReplaceAll_skip _ _ _ _ hm, ih cs hp' hu']
      simp


theorem ReplaceAll_descend (old new u u' : List Char) (m0 : Char) (hold : old ≠ [])
    (hu : u = m0 :: u') (hm0 : m0 ∉ new) (hap : ∀ v, v <:+ u → v ≠ [] → Apart v new)
    (s t' : List Char) (ht' : t' <:+ ReplaceAll s old new) (hut' : u <+: t') :
    ∃ t, t <:+ s ∧ t' = ReplaceAll t old new ∧ u <+: t ∧ old.isPrefixOf t = false := by
  rcases ReplaceAll_suffix_cases old new hold s.length s t' le_rfl ht' with
    ⟨t, ht, he⟩ | ⟨c, hc, hh⟩
  · subst he
    have h := ReplaceAll_head_unmatched old new hold u t hap hut'
    exact ⟨t, ht, rfl, h.1, h.2 (by rw [hu]; simp)⟩
  · exfalso
    rw [hu] at hut'
    obtain ⟨x, hx⟩ := hut'
    rw [← hx] at hh
    simp only [List.cons_append, List.head?_cons, Option.some.injEq] at hh
    exact absurd (hh ▸ hc) hm0

theorem ReplaceAll_keeps_other (old new other P' O' : List Char) (p0 o0 : Char)
    (hold : old = p0 :: P') (hother : other = o0 :: O') (hp0 : p0 ∉ O') (t : List Char)
    (hm : old.isPrefixOf t = false) (h : other <+: t) :
    other <+: ReplaceAll t old new := by
  rw [hother] at h ⊢
  cases t with
  | nil => simp at h
  | cons c cs =>
    rw [List.cons_prefix_cons] at h
    obtain ⟨hc, hO⟩ := h
    rw [ReplaceAll_skip _ _ _ _ hm, ReplaceAll_keeps old new P' p0 hold O' cs hp0 hO,
      List.cons_prefix_cons]
    exact ⟨hc, List.prefix_append _ _⟩

end strings

theorem apart_of_tails (u r : List Char) (h : ∀ v ∈ u.tails, v ≠ [] → Apart v r) :
    ∀ v, v <:+ u → v ≠ [] → Apart v r :=
  fun v hv hne => h v ((List.mem_tails _ _).mpr hv) hne

/-- When each of the two origin hosts occurs in the body only at the start of
its origin prefix, the rewritten body has no occurrence of an origin prefix. -/
theorem rewriteIndex_no_origin (body : List Char)
    (h1 : ∀ t, t <:+ body → filesHost <+: t → filesOrigin <+: t)
    (h2 : ∀ t, t <:+ body → simpleHost <+: t → simpleOrigin <+: t) :
    ¬ filesOrigin <:+: rewriteIndex body ∧ ¬ simpleOrigin <:+: rewriteIndex body := by
  have hF : filesOrigin ≠ [] := by decide
  have hS : simpleOrigin ≠ [] := by decide
  constructor
  · intro hin
    obtain ⟨t2, hpre, hsuf⟩ := List.infix_iff_prefix_suffix.mp hin
    have hh : filesHost <+: t2 := (by decide : filesHost <+: filesOrigin).trans hpre
    obtain ⟨t1, ht1, -, hh1, -⟩ := strings.ReplaceAll_descend simpleOrigin "/simple/".toList
      filesHost "ttps://files.pythonhosted.org".toList 'h' hS (by decide) (by decide)
      (apart_of_tails _ _ (by decide)) _ t2 hsuf hh
    obtain ⟨t0, ht0, -, hh0, hm0⟩ := strings.ReplaceAll_descend filesOrigin
      "/packages/".toList filesHost "ttps://files.pythonhosted.org".toList 'h' hF (by decide)
      (by decide) (apart_of_tails _ _ (by decide)) _ t1 ht1 hh1
    rw [(strings.isPrefixOf_iff _ _).mpr (h1 t0 ht0 hh0)] at hm0
    cases hm0
  · intro hin
    obtain ⟨t2, hpre, hsuf⟩ := List.infix_iff_prefix_suffix.mp hin
    have hh : simpleHost <+: t2 := (by decide : simpleHost <+: simpleOrigin).trans hpre
    obtain ⟨t1, ht1, -, hh1, hm1⟩ := strings.ReplaceAll_descend simpleOrigin
      "/simple/".toList simpleHost "ttps://pypi.org".toList 'h' hS (by decide) (by decide)
      (apart_of_tails _ _ (by decide)) _ t2 hsuf hh
    obtain ⟨t0, ht0, he0, hh0, hm0⟩ := strings.ReplaceAll_descend filesOrigin
      "/packages/".toList simpleHost "ttps://pypi.org".toList 'h' hF (by decide) (by decide)
      (apart_of_tails _ _ (by decide)) _ t1 ht1 hh1
    have hk := strings.ReplaceAll_keeps_other filesOrigin "/packages/".toList simpleOrigin
      "ttps://files.pythonhosted.org/packages/".toList "ttps://pypi.org/simple/".toList 'h' 'h'
      (by decide) (by decide) (by decide) t0 hm0 (h2 t0 ht0 hh0)
    rw [← he0] at hk
    rw [(strings.isPrefixOf_iff _ _).mpr hk] at hm1
    cases hm1

/-- C10 (counterexample): the upstream index body
`https://pypi.orghttps://pypi.org/simple/` is returned to the client, and
persisted, as `https://pypi.org/simple/`, which is an origin prefix. -/
theorem pip_index_rewrite_leaves_origin :
    (demoPip.PipRegistryHandler
        { demoEnv with resolve := fun _ => some [],
                       upstreamDo := fun _ url => .response 200 (demoURLPath url)
                         "https://pypi.orghttps://pypi.org/simple/".toList none }
        { method := "GET".toList, path := "/simple/numpy/".toList } {}).rw =
      [.writeHeader 200, .write simpleOrigin] ∧
    (demoPip.PipRegistryHandler
        { demoEnv with resolve := fun _ => some [],
                       upstreamDo := fun _ url => .response 200 (demoURLPath url)
                         "https://pypi.orghttps://pypi.org/simple/".toList none }
        { method := "GET".toList, path := "/simple/numpy/".toList } {}).fs
      "/cache/numpy.html".toList = some simpleOrigin ∧
    simpleOrigin <:+: simpleOrigin := by
  refine ⟨by decide, by decide, List.infix_refl _⟩

/-- C10 (amended): on an upstream index fetch whose body is read to its end,
the bytes written to the client are the body after the two replacements, the
bytes persisted as `<pkg>.html` are the same bytes, and when each of the two
origin hosts, `https://files.pythonhosted.org` and `https://pypi.org`, occurs
in the upstream body only at the start of its origin prefix, these bytes
contain no occurrence of `https://files.pythonhosted.org/packages/` or
`https://pypi.org/simple/`. -/
theorem pip_index_rewritten (p : PipClient) (env : Env) (req : Request)
    (name trimmedPath : List Char) (w : World) (status : Nat) (fp body : List Char)
    (hup : ∀ url, env.upstreamDo req.method url = .response status fp body none)
    (h1 : ∀ t, t <:+ body → filesHost <+: t → filesOrigin <+: t)
    (h2 : ∀ t, t <:+ body → simpleHost <+: t → simpleOrigin <+: t) :
    (p.serveFromFallback env req name true false trimmedPath w).rw =
      w.rw ++ [.writeHeader status, .write (rewriteIndex body)] ∧
    (env.mkdirFails (filepath.Join [p.PipCacheDir]) = false →
      env.createFails (filepath.Join [filepath.Join [p.PipCacheDir],
        name ++ ".html".toList]) = false →
      (p.serveFromFallback env req name true false trimmedPath w).fs
        (filepath.Join [filepath.Join [p.PipCacheDir], name ++ ".html".toList]) =
        some (rewriteIndex body)) ∧
    (∀ f c, (p.serveFromFallback env req name true false trimmedPath w).fs f = some c →
      w.fs f = some c ∨ c = rewriteIndex body) ∧
    ¬ filesOrigin <:+: rewriteIndex body ∧ ¬ simpleOrigin <:+: rewriteIndex body := by
  have hno := rewriteIndex_no_origin body h1 h2
  refine ⟨?_, ?_, ?_, hno.1, hno.2⟩
  · unfold PipClient.serveFromFallback
    simp only [hup, if_true, Bool.false_eq_true, if_false]
    split
    · simp [World.respond, World.call]
    · split <;> simp [World.respond, World.call, World.putFile]
  · intro hmk hcr
    unfold PipClient.serveFromFallback
    simp only [hup, if_true, Bool.false_eq_true, if_false, hmk, hcr]
    simp [World.respond, World.call, World.putFile, FS.put]
  · intro f c
    unfold PipClient.serveFromFallback
    simp only [hup, if_true, Bool.false_eq_true, if_false]
    split
    · intro h; left; exact h
    · split
      · intro h; left; exact h
      · simp only [World.respond, World.call, World.putFile, FS.put]
        split
        · intro h; right; exact (Option.some.inj h).symm
        · intro h; left; exact h

/-- Witness for C10: an index page with one link to
`https://files.pythonhosted.org/packages/n.whl`. -/
theorem pip_index_rewritten_witness :
    ¬ filesOrigin <:+: rewriteIndex demoIndexBody ∧
    ¬ simpleOrigin <:+: rewriteIndex demoIndexBody :=
  (pip_index_rewritten demoPip
    { demoEnv with
      upstreamDo := fun _ _ => UpstreamResult.response 200 "/simple/n/".toList demoIndexBody none }
    { method := "GET".toList, path := "/simple/n/".toList } "n".toList "n".toList {} 200
    "/simple/n/".toList demoIndexBody (fun _ => rfl)
    (fun t ht => (by decide : ∀ t ∈ demoIndexBody.tails,
      filesHost <+: t → filesOrigin <+: t) t ((List.mem_tails _ _).mpr ht))
    (fun t ht => (by decide : ∀ t ∈ demoIndexBody.tails,
      simpleHost <+: t → simpleOrigin <+: t) t ((List.mem_tails _ _).mpr ht))).2.2.2

theorem handleManifest_absent (env : Env) (req : Request) (dist : DistributionPath)
    (w : World) (h : Registry.manifestAbsent env dist) :
    (Registry.handleManifest env req dist w).rw = w.rw ++ [.writeError 404] := by
  unfold Registry.handleManifest
  rcases h with ⟨hd, hr⟩ | ⟨dgst, hd, hm⟩
  · simp [hd, hr, World.respond, World.call]
  · by_cases hnil : dist.digest = []
    · simp only [hnil, if_true] at hd
      simp [hnil, hd, hm, World.respond, World.call]
    · simp only [hnil, if_false, Option.some.injEq] at hd
      subst hd
      simp [hnil, hm, World.respond, World.call]

/-- C11 (counterexample): a mirrored `GET /v2/x/blobs/sha256:ab` whose blob is
absent from the content store is answered with status 500. -/
theorem registryHandler_absent_blob_500 :
    clientStatus (Registry.registryHandler
        { parse := fun _ _ => some { kind := .blob, registry := "docker.io".toList,
                                     name := "x".toList, digest := "sha256:ab".toList } }
        demoEmptyStore
        { method := "GET".toList, path := "/v2/x/blobs/sha256:ab".toList,
          mirrored := "true".toList } {}).rw = some 500 := by
  decide

/-- C11 (amended): for a request to the container handler that carries the
mirror header with value `true` (basic authentication and path parsing
passed): when it asks for a manifest that is absent from the local content
store the response status is 404, and when it asks for a blob whose size the
content store cannot give (the blob is absent) the response status is 500. -/
theorem registryHandler_absent_status (r : Registry) (env : Env) (req : Request)
    (dist : DistributionPath) (w : World)
    (hm : req.mirrored = mirroredValue)
    (hauth : ¬ ((r.username ≠ [] ∨ r.password ≠ []) ∧
      (r.username ≠ req.basicAuth.1 ∨ r.password ≠ req.basicAuth.2)))
    (hv2 : path.Clean req.path ≠ "/v2".toList)
    (hparse : r.parse req.path req.rawQuery = some dist) :
    (dist.kind = .manifest → Registry.manifestAbsent env dist →
      (r.registryHandler env req w).rw =
        w.rw ++ [.setHandler "registry".toList, .setHandler "manifest".toList,
          .writeError 404] ∧
      (w.rw = [] → clientStatus (r.registryHandler env req w).rw = some 404)) ∧
    (dist.kind = .blob → env.ociSize dist.digest = none →
      (r.registryHandler env req w).rw =
        w.rw ++ [.setHandler "registry".toList, .setHandler "blob".toList,
          .writeError 500] ∧
      (w.rw = [] → clientStatus (r.registryHandler env req w).rw = some 500)) := by
  have hdef : r.registryHandler env req w =
      Registry.serve env req dist (w.respond (.setHandler "registry".toList)) := by
    unfold Registry.registryHandler
    simp only [hm, ne_eq, not_true_eq_false, if_false]
    rw [if_neg hauth, if_neg hv2, hparse]
  rw [hdef]
  constructor
  · intro hk habs
    have h1 : (Registry.serve env req dist (w.respond (.setHandler "registry".toList))).rw =
        w.rw ++ [.setHandler "registry".toList, .setHandler "manifest".toList,
          .writeError 404] := by
      unfold Registry.serve
      rw [hk]
      simp only
      rw [handleManifest_absent env req dist _ habs]
      simp [World.respond]
    refine ⟨h1, fun hw => ?_⟩
    rw [h1, hw]
    rfl
  · intro hk habs
    have h1 : (Registry.serve env req dist (w.respond (.setHandler "registry".toList))).rw =
        w.rw ++ [.setHandler "registry".toList, .setHandler "blob".toList,
          .writeError 500] := by
      unfold Registry.serve
      rw [hk]
      simp [Registry.handleBlob, habs, World.respond, World.call]
    refine ⟨h1, fun hw => ?_⟩
    rw [h1, hw]
    rfl

/-- Witness for C11: a mirrored `GET /v2/library/nginx/manifests/1.27`, the
tag unknown to the content store. -/
theorem registryHandler_absent_status_witness :
    clientStatus (Registry.registryHandler
        { parse := fun _ _ => some { kind := .manifest, registry := "docker.io".toList,
                                     name := "library/nginx".toList, tag := "1.27".toList } }
        demoEmptyStore
        { method := "GET".toList, path := "/v2/library/nginx/manifests/1.27".toList,
          mirrored := "true".toList } {}).rw = some 404 :=
  ((registryHandler_absent_status
      { parse := fun _ _ => some { kind := .manifest, registry := "docker.io".toList,
                                   name := "library/nginx".toList, tag := "1.27".toList } }
      demoEmptyStore
      { method := "GET".toList, path := "/v2/library/nginx/manifests/1.27".toList,
        mirrored := "true".toList }
      { kind := .manifest, registry := "docker.io".toList,
        name := "library/nginx".toList, tag := "1.27".toList } {}
      (by decide) (by decide) (by decide) rfl).1 rfl (Or.inl ⟨rfl, rfl⟩)).2 rfl

theorem hf_lookup_done_calls (h : HFClient) (key : List Char) (isResolve isBlob isAPI : Bool)
    (parts : List (List Char)) (w w' : World)
    (hl : h.lookup key isResolve isBlob isAPI parts w = .done w') : w'.calls = w.calls := by
  have hsnap : ∀ modelDir w'',
      HFClient.lookupSnapshot key isResolve isAPI parts modelDir w = .done w'' →
        w''.calls = w.calls := by
    intro modelDir w'' hs
    unfold HFClient.lookupSnapshot at hs
    split at hs
    · simp only at hs
      split at hs
      · split at hs
        · cases hs; rfl
        · cases hs
      · cases hs
    · split at hs
      · simp only at hs
        split at hs
        · cases hs; rfl
        · cases hs
      · cases hs
  unfold HFClient.lookup at hl
  split at hl
  · simp only at hl
    split at hl
    · cases hl
    · rename_i modelDir _
      cases hs : HFClient.lookupSnapshot key isResolve isAPI parts modelDir w with
      | panic => rw [hs] at hl; cases hl
      | done w'' =>
        rw [hs] at hl
        cases hl
        exact hsnap modelDir _ hs
      | miss c f =>
        rw [hs] at hl
        simp only at hl
        split at hl
        · split at hl
          · cases hl; rfl
          · cases hl
        · cases hl
  · cases hl

theorem hf_lookup_filename (h : HFClient) (key : List Char) (isBlob isAPI : Bool)
    (parts : List (List Char)) (w : World) (c f : List Char) (hlen : parts.length ≥ 5)
    (hl : h.lookup key true isBlob isAPI parts w = .miss c f) :
    f = strings.Join ['/'] (parts.drop 4) := by
  have hsnap : ∀ modelDir c' f',
      HFClient.lookupSnapshot key true isAPI parts modelDir w = .miss c' f' →
        f' = strings.Join ['/'] (parts.drop 4) := by
    intro modelDir c' f' hs
    unfold HFClient.lookupSnapshot at hs
    simp only [Bool.true_and, decide_eq_true_eq, hlen, if_true] at hs
    split at hs
    · split at hs
      · cases hs
      · cases hs; rfl
    · cases hs; rfl
  unfold HFClient.lookup at hl
  have h2 : parts.length ≥ 2 := by omega
  simp only [h2, if_true] at hl
  cases hs : HFClient.lookupSnapshot key true isAPI parts
      (filepath.Join [h.HFCacheDir,
        "models--".toList ++ parts.getD 0 [] ++ "--".toList ++ parts.getD 1 []]) w with
  | panic => rw [hs] at hl; cases hl
  | done w'' => rw [hs] at hl; cases hl
  | miss c' f' =>
    rw [hs] at hl
    simp only at hl
    have hf := hsnap _ _ _ hs
    split at hl
    · split at hl
      · cases hl
      · cases hl; exact hf
    · cases hl; exact hf

theorem hf_lookupSnapshot_no_panic (key : List Char) (isResolve isAPI : Bool)
    (parts : List (List Char)) (modelDir : List Char) (w : World) :
    HFClient.lookupSnapshot key isResolve isAPI parts modelDir w ≠ .panic := by
  unfold HFClient.lookupSnapshot
  split
  · simp only
    split
    · split <;> exact fun h => HFLookup.noConfusion h
    · exact fun h => HFLookup.noConfusion h
  · split
    · simp only
      split <;> exact fun h => HFLookup.noConfusion h
    · exact fun h => HFLookup.noConfusion h

theorem hf_lookup_resolve_no_panic (h : HFClient) (key : List Char) (isBlob isAPI : Bool)
    (parts : List (List Char)) (w : World) :
    h.lookup key true isBlob isAPI parts w ≠ .panic := by
  unfold HFClient.lookup
  split
  · simp only [if_true]
    cases hs : HFClient.lookupSnapshot key true isAPI parts
        (filepath.Join [h.HFCacheDir,
          "models--".toList ++ parts.getD 0 [] ++ "--".toList ++ parts.getD 1 []]) w with
    | panic => exact absurd hs (hf_lookupSnapshot_no_panic _ _ _ _ _ _)
    | done w'' => exact fun h => HFLookup.noConfusion h
    | miss c f =>
      simp only
      split
      · split <;> exact fun h => HFLookup.noConfusion h
      · exact fun h => HFLookup.noConfusion h
  · exact fun h => HFLookup.noConfusion h

theorem hf_serveFromFallback_no_resolve (h : HFClient) (env : Env) (req : Request)
    (cleanPath : List Char) (isResolve isAPI : Bool) (key k : List Char) (w : World)
    (hk : Call.routerResolve k ∈
      (h.serveFromFallback env req cleanPath isResolve isAPI key w).calls) :
    Call.routerResolve k ∈ w.calls := by
  unfold HFClient.serveFromFallback at hk
  simp only at hk
  split at hk
  · exact hk
  · simpa [World.respond, World.call] using hk
  · split at hk
    · simpa [World.respond, World.call] using hk
    · split at hk
      · simpa [World.respond, World.call] using hk
      · split at hk <;> simpa [World.respond, World.call] using hk

/-- C12 (counterexample): `GET
/huggingface/org/model/resolve/main/onnx/tokenizer.json`, the ref file present
and the file missing: the handler calls `Router.Resolve` although the file
name is `tokenizer.json`. -/
theorem hf_nested_excluded_name_resolves :
    (demoHF.HuggingFaceRegistryHandler demoEnv
        { method := "GET".toList,
          path := "/huggingface/org/model/resolve/main/onnx/tokenizer.json".toList }
        { fs := demoModelRefs }).map
      (fun w => decide (Call.routerResolve
        "hf:/huggingface/org/model/resolve/main/onnx/tokenizer.json".toList ∈ w.calls)) =
      some true := by
  decide

/-- C12 (amended): for every request (any method, any cache state) for
`/huggingface/<org>/<model>/resolve/<ref>/<path>` whose `<path>`, all that
follows `<ref>/`, is one of `model.safetensors.index.json`, `tokenizer.json`,
`tokenizer_config.json`, `generation_config.json`, the model handler returns
without a call of `Router.Resolve`. -/
theorem hf_excluded_file_never_resolves (h : HFClient) (env : Env) (req : Request)
    (w : World)
    (hres : strings.Contains (path.Clean req.path) "/resolve/".toList = true)
    (hlen : (strings.Split '/'
      (strings.TrimPrefix (path.Clean req.path) "/huggingface/".toList)).length ≥ 5)
    (hex : excludeFiles (strings.Join ['/'] ((strings.Split '/'
      (strings.TrimPrefix (path.Clean req.path) "/huggingface/".toList)).drop 4)) = true) :
    ∃ w', h.HuggingFaceRegistryHandler env req w = some w' ∧
      ∀ k, Call.routerResolve k ∈ w'.calls → Call.routerResolve k ∈ w.calls := by
  unfold HFClient.HuggingFaceRegistryHandler
  simp only [hres, Bool.not_true, Bool.false_and, Bool.false_eq_true, if_false]
  cases hl : h.lookup ("hf:".toList ++ path.Clean req.path) true
      (strings.Contains (path.Clean req.path) "/blobs/".toList ||
        strings.Contains (path.Clean req.path) "/cdn-lfs".toList)
      (strings.Contains (path.Clean req.path) "/api/".toList ||
        strings.Contains (path.Clean req.path) "/resolve-cache/".toList)
      (strings.Split '/' (strings.TrimPrefix (path.Clean req.path) "/huggingface/".toList))
      w with
  | panic => exact absurd hl (hf_lookup_resolve_no_panic h _ _ _ _ w)
  | done w' =>
    refine ⟨w', rfl, fun k hk => ?_⟩
    rw [hf_lookup_done_calls h _ _ _ _ _ w w' hl] at hk
    exact hk
  | miss c f =>
    have hf := hf_lookup_filename h _ _ _ _ w c f hlen hl
    rw [← hf] at hex
    simp only [hex, Bool.not_true, Bool.and_false, Bool.false_eq_true, if_false]
    exact ⟨_, rfl, fun k hk => hf_serveFromFallback_no_resolve h env req _ _ _ _ k w hk⟩

/-- Witness for C12: `GET /huggingface/org/model/resolve/main/tokenizer.json`
with the ref file present and the file missing. -/
theorem hf_excluded_file_never_resolves_witness :
    ∃ w', demoHF.HuggingFaceRegistryHandler demoEnv
        { method := "GET".toList,
          path := "/huggingface/org/model/resolve/main/tokenizer.json".toList }
        { fs := demoModelRefs } = some w' ∧
      ∀ k, Call.routerResolve k ∈ w'.calls →
        Call.routerResolve k ∈ ({ fs := demoModelRefs } : World).calls :=
  hf_excluded_file_never_resolves demoHF demoEnv
    { method := "GET".toList,
      path := "/huggingface/org/model/resolve/main/tokenizer.json".toList }
    { fs := demoModelRefs } (by decide) (by decide) (by decide)

theorem offer_cap (ch : PeerChan) (ap : AddrPort) : (ch.offer ap).cap = ch.cap := by
  unfold PeerChan.offer
  split <;> rfl

theorem offer_sent_room (ch : PeerChan) (ap : AddrPort) (h : ch.sent.length < ch.cap) :
    (ch.offer ap).sent = ch.sent ++ [ap] := by
  unfold PeerChan.offer
  have : ch.sent.length - ch.reads ch.attempts < ch.cap := by omega
  rw [if_pos this]

theorem offer_sent_cases (ch : PeerChan) (ap : AddrPort) :
    (ch.offer ap).sent = ch.sent ++ [ap] ∨ (ch.offer ap).sent = ch.sent := by
  unfold PeerChan.offer
  split
  · left; rfl
  · right; rfl

theorem resolveLoop_sublist (port : Nat) :
    ∀ (ps : List AddrInfo) (ch : PeerChan),
      ∃ extra, (resolveLoop port ps ch).sent = ch.sent ++ extra ∧
        List.Sublist extra (ps.filterMap (resolveRecord port)) := by
  intro ps
  induction ps with
  | nil => intro ch; exact ⟨[], by simp [resolveLoop], List.Sublist.refl _⟩
  | cons p rest ih =>
    intro ch
    cases hp : resolveRecord port p with
    | none =>
      obtain ⟨e, he, hs⟩ := ih ch
      refine ⟨e, ?_, ?_⟩
      · simp only [resolveLoop, hp]; exact he
      · simp only [List.filterMap_cons, hp]; exact hs
    | some ap =>
      obtain ⟨e, he, hs⟩ := ih (ch.offer ap)
      simp only [resolveLoop, hp, List.filterMap_cons]
      rcases offer_sent_cases ch ap with h | h
      · refine ⟨ap :: e, ?_, hs.cons₂ ap⟩
        rw [he, h]; simp
      · refine ⟨e, ?_, hs.cons ap⟩
        rw [he, h]

theorem resolveLoop_room (port : Nat) :
    ∀ (ps : List AddrInfo) (ch : PeerChan),
      ch.sent.length + (ps.filterMap (resolveRecord port)).length ≤ ch.cap →
      (resolveLoop port ps ch).sent = ch.sent ++ ps.filterMap (resolveRecord port) := by
  intro ps
  induction ps with
  | nil => intro ch _; simp [resolveLoop]
  | cons p rest ih =>
    intro ch hroom
    cases hp : resolveRecord port p with
    | none =>
      simp only [List.filterMap_cons, hp] at hroom
      simp only [resolveLoop, hp, List.filterMap_cons]
      exact ih ch hroom
    | some ap =>
      simp only [List.filterMap_cons, hp, List.length_cons] at hroom
      have hs := offer_sent_room ch ap (by omega)
      simp only [resolveLoop, hp, List.filterMap_cons]
      rw [ih (ch.offer ap) (by rw [hs, offer_cap]; simp; omega), hs]
      simp

theorem resolveRecord_port (port : Nat) (info : AddrInfo) (ap : AddrPort)
    (h : resolveRecord port info = some ap) : ap.port = port := by
  unfold resolveRecord at h
  split at h
  · split at h
    · cases h
    · split at h
      · cases h
      · cases h; rfl
  · cases h

/-- C13 (counterexample): for the key `sha256:ab` and `count = 0` the buffer
has 20 slots; of 21 provider records with one IP address each, offered while
the consumer has read nothing, the last yields no candidate on the stream. -/
theorem resolve_drops_when_buffer_full :
    resolveRecord 5000
        { ID := "peer20".toList,
          Addrs := [{ proto := .ip4, raw := [10, 0, 0, 20], rest := "/tcp/5001".toList }] } =
      some { addr := [10, 0, 0, 20], port := 5000 } ∧
    ((P2PRouter.Resolve { registryPort := 5000 } (demoProviders 21) (fun _ => 0)
      "sha256:ab".toList 0).2).length = 20 ∧
    ({ addr := [10, 0, 0, 20], port := 5000 } : AddrPort) ∉
      (P2PRouter.Resolve { registryPort := 5000 } (demoProviders 21) (fun _ => 0)
        "sha256:ab".toList 0).2 := by
  refine ⟨by decide, by decide, by decide⟩

/-- C13 (amended): for a key other than `__peer_index__`, a provider record
carrying zero or more than one address yields no candidate, and a record
carrying exactly one IP address `a` yields the candidate `(ip(a),
registryPort)`, which goes on the stream when the buffer of the channel has a
free slot and is dropped when it is full.  The stream is a subsequence of the
candidates, in the order of the records; it is all of them when they fit the
buffer (`count` slots, 20 for `count = 0`), so always for `count > 0` and at
most `count` records.  Every candidate on the stream has port
`registryPort`. -/
theorem resolve_generic_candidates (r : P2PRouter) (providers : List AddrInfo)
    (reads : Nat → Nat) (key : List Char) (count : Nat) (hkey : key ≠ PeerIndexKey) :
    (∀ info : AddrInfo, info.Addrs.length ≠ 1 → resolveRecord r.registryPort info = none) ∧
    (∀ (id : List Char) (a : Multiaddr), a.isIP = true →
      resolveRecord r.registryPort { ID := id, Addrs := [a] } =
        some { addr := a.raw, port := r.registryPort }) ∧
    List.Sublist (r.Resolve providers reads key count).2
      (providers.filterMap (resolveRecord r.registryPort)) ∧
    ((providers.filterMap (resolveRecord r.registryPort)).length ≤
        (if count = 0 then 20 else count) →
      (r.Resolve providers reads key count).2 =
        providers.filterMap (resolveRecord r.registryPort)) ∧
    (0 < count → providers.length ≤ count →
      (r.Resolve providers reads key count).2 =
        providers.filterMap (resolveRecord r.registryPort)) ∧
    (∀ ap ∈ (r.Resolve providers reads key count).2, ap.port = r.registryPort) := by
  have hdef : (r.Resolve providers reads key count).2 =
      (resolveLoop r.registryPort providers
        { cap := if count = 0 then 20 else count, reads := reads }).sent := by
    unfold P2PRouter.Resolve
    simp [hkey]
  have hsub : List.Sublist (r.Resolve providers reads key count).2
      (providers.filterMap (resolveRecord r.registryPort)) := by
    obtain ⟨e, he, hs⟩ := resolveLoop_sublist r.registryPort providers
      { cap := if count = 0 then 20 else count, reads := reads }
    rw [hdef, he]
    simpa using hs
  have hroom : (providers.filterMap (resolveRecord r.registryPort)).length ≤
        (if count = 0 then 20 else count) →
      (r.Resolve providers reads key count).2 =
        providers.filterMap (resolveRecord r.registryPort) := by
    intro h
    rw [hdef, resolveLoop_room r.registryPort providers _ (by simpa using h)]
    simp
  refine ⟨?_, ?_, hsub, hroom, ?_, ?_⟩
  · intro info hlen
    unfold resolveRecord
    split
    · rename_i a heq
      rw [heq] at hlen
      simp at hlen
    · rfl
  · intro id a ha
    unfold Multiaddr.isIP at ha
    simp only [Bool.or_eq_true, Bool.and_eq_true, beq_iff_eq] at ha
    rcases ha with ⟨hp, hl⟩ | ⟨hp, hl⟩
    · simp [resolveRecord, ToIP, AddrFromSlice, hp, hl]
    · simp [resolveRecord, ToIP, AddrFromSlice, hp, hl]
  · intro hc hlen
    apply hroom
    have := List.length_filterMap_le (resolveRecord r.registryPort) providers
    rw [if_neg (by omega)]
    omega
  · intro ap hap
    obtain ⟨info, _, hinfo⟩ := List.mem_filterMap.mp (hsub.subset hap)
    exact resolveRecord_port _ _ _ hinfo

/-- Witness for C13: three records, with no address, with one IPv4 address
and with two addresses, for a key that is not the peer index. -/
theorem resolve_generic_candidates_witness :
    (P2PRouter.Resolve { registryPort := 5000 }
      [{ ID := "a".toList, Addrs := [] },
       { ID := "b".toList, Addrs := [{ proto := .ip4, raw := [10, 0, 0, 2] }] },
       { ID := "c".toList, Addrs := [{ proto := .ip4, raw := [10, 0, 0, 3] },
                                     { proto := .ip6, raw := IPv6loopback }] }]
      (fun _ => 0) "sha256:ab".toList 3).2 =
    [{ addr := [10, 0, 0, 2], port := 5000 }] := by
  have h := (resolve_generic_candidates { registryPort := 5000 }
      [{ ID := "a".toList, Addrs := [] },
       { ID := "b".toList, Addrs := [{ proto := .ip4, raw := [10, 0, 0, 2] }] },
       { ID := "c".toList, Addrs := [{ proto := .ip4, raw := [10, 0, 0, 3] },
                                     { proto := .ip6, raw := IPv6loopback }] }]
      (fun _ => 0) "sha256:ab".toList 3 (by decide)).2.2.2.2.1 (by decide) (by decide)
  rw [h]
  decide

theorem peerIndexAddrs_spec (id : List Char) :
    ∀ (addrs : List Multiaddr) (r : P2PRouter) (ch : PeerChan),
      (peerIndexAddrs id addrs (r, ch)).1.registryPort = r.registryPort ∧
      (peerIndexAddrs id addrs (r, ch)).1.peerIDByAddr =
        (recordPairs r.registryPort id addrs).reverse ++ r.peerIDByAddr ∧
      (peerIndexAddrs id addrs (r, ch)).2.cap = ch.cap ∧
      (∃ extra, (peerIndexAddrs id addrs (r, ch)).2.sent = ch.sent ++ extra ∧
        List.Sublist extra ((recordPairs r.registryPort id addrs).map (·.1))) ∧
      (ch.sent.length + (recordPairs r.registryPort id addrs).length ≤ ch.cap →
        (peerIndexAddrs id addrs (r, ch)).2.sent =
          ch.sent ++ (recordPairs r.registryPort id addrs).map (·.1)) := by
  intro addrs
  induction addrs with
  | nil =>
    intro r ch
    exact ⟨rfl, by simp [peerIndexAddrs, recordPairs], rfl,
      ⟨[], by simp [peerIndexAddrs], by simp [recordPairs]⟩,
      fun _ => by simp [peerIndexAddrs, recordPairs]⟩
  | cons a rest ih =>
    intro r ch
    cases ha : peerIndexAddr r.registryPort a with
    | none =>
      simp only [peerIndexAddrs, recordPairs, ha]
      exact ih r ch
    | some ap =>
      simp only [peerIndexAddrs, recordPairs, ha]
      obtain ⟨h1, h2, h3, ⟨e, he, hs⟩, h5⟩ := ih (r.setPeerID ap id) (ch.offer ap)
      have hport : (r.setPeerID ap id).registryPort = r.registryPort := rfl
      rw [hport] at h1 h2 hs h5
      refine ⟨h1, ?_, ?_, ?_, ?_⟩
      · rw [h2]; simp [P2PRouter.setPeerID]
      · rw [h3, offer_cap]
      · rcases offer_sent_cases ch ap with h | h
        · refine ⟨ap :: e, ?_, ?_⟩
          · rw [he, h]; simp
          · simpa using hs.cons₂ ap
        · refine ⟨e, ?_, ?_⟩
          · rw [he, h]
          · simpa using hs.cons ap
      · intro hroom
        simp only [List.length_cons] at hroom
        have hsent := offer_sent_room ch ap (by omega)
        rw [h5 (by rw [hsent, offer_cap]; simp; omega), hsent]
        simp

theorem peerIndexLoop_spec :
    ∀ (ps : List AddrInfo) (r : P2PRouter) (ch : PeerChan),
      (peerIndexLoop ps (r, ch)).1.registryPort = r.registryPort ∧
      (peerIndexLoop ps (r, ch)).1.peerIDByAddr =
        (peerIndexPairs r.registryPort ps).reverse ++ r.peerIDByAddr ∧
      (∃ extra, (peerIndexLoop ps (r, ch)).2.sent = ch.sent ++ extra ∧
        List.Sublist extra ((peerIndexPairs r.registryPort ps).map (·.1))) ∧
      (ch.sent.length + (peerIndexPairs r.registryPort ps).length ≤ ch.cap →
        (peerIndexLoop ps (r, ch)).2.sent =
          ch.sent ++ (peerIndexPairs r.registryPort ps).map (·.1)) := by
  intro ps
  induction ps with
  | nil =>
    intro r ch
    exact ⟨rfl, by simp [peerIndexLoop, peerIndexPairs],
      ⟨[], by simp [peerIndexLoop], by simp [peerIndexPairs]⟩,
      fun _ => by simp [peerIndexLoop, peerIndexPairs]⟩
  | cons p rest ih =>
    intro r ch
    obtain ⟨a1, a2, a3, ⟨e1, he1, hs1⟩, a5⟩ := peerIndexAddrs_spec p.ID p.Addrs r ch
    cases hst : peerIndexAddrs p.ID p.Addrs (r, ch) with
    | mk r1 ch1 =>
      rw [hst] at a1 a2 a3 he1 a5
      simp only at a1 a2 a3 he1 a5
      obtain ⟨b1, b2, ⟨e2, he2, hs2⟩, b4⟩ := ih r1 ch1
      rw [a1] at b1 b2 hs2 b4
      simp only [peerIndexLoop, peerIndexPairs, hst]
      refine ⟨b1, ?_, ?_, ?_⟩
      · rw [b2, a2]; simp
      · refine ⟨e1 ++ e2, ?_, ?_⟩
        · rw [he2, he1]; simp
        · simpa using hs1.append hs2
      · intro hroom
        simp only [List.length_append] at hroom
        rw [b4 (by rw [a5 (by omega), a3]; simp; omega), a5 (by omega)]
        simp

theorem recordPairs_mem (port : Nat) (id : List Char) (a : Multiaddr) :
    ∀ addrs : List Multiaddr, a ∈ addrs → a.isIP = true →
      (({ addr := a.raw, port := port } : AddrPort), id) ∈ recordPairs port id addrs := by
  intro addrs
  induction addrs with
  | nil => intro h; simp at h
  | cons b rest ih =>
    intro hmem hip
    have hcand : peerIndexAddr port a = some { addr := a.raw, port := port } := by
      unfold Multiaddr.isIP at hip
      simp only [Bool.or_eq_true, Bool.and_eq_true, beq_iff_eq] at hip
      rcases hip with ⟨hp, hl⟩ | ⟨hp, hl⟩
      · simp [peerIndexAddr, ToIP, AddrFromSlice, hp, hl]
      · simp [peerIndexAddr, ToIP, AddrFromSlice, hp, hl]
    rcases List.mem_cons.mp hmem with h | h
    · subst h
      simp [recordPairs, hcand]
    · have := ih h hip
      unfold recordPairs
      split
      · exact this
      · exact List.mem_cons_of_mem _ this

theorem peerIndexPairs_mem (port : Nat) (info : AddrInfo) (a : Multiaddr) :
    ∀ ps : List AddrInfo, info ∈ ps → a ∈ info.Addrs → a.isIP = true →
      (({ addr := a.raw, port := port } : AddrPort), info.ID) ∈ peerIndexPairs port ps := by
  intro ps
  induction ps with
  | nil => intro h; simp at h
  | cons p rest ih =>
    intro hmem ha hip
    unfold peerIndexPairs
    rcases List.mem_cons.mp hmem with h | h
    · subst h
      exact List.mem_append_left _ (recordPairs_mem port _ a _ ha hip)
    · exact List.mem_append_right _ (ih h ha hip)

theorem peerID_of_mem (r : P2PRouter) (pairs m : List (AddrPort × List Char)) (ap : AddrPort)
    (hr : r.peerIDByAddr = pairs.reverse ++ m)
    (hmem : ∃ id, (ap, id) ∈ pairs) :
    ∃ id', r.peerID ap = some id' ∧ (ap, id') ∈ pairs := by
  obtain ⟨id, hid⟩ := hmem
  unfold P2PRouter.peerID
  rw [hr, List.find?_append]
  cases hf : pairs.reverse.find? (fun e => e.1 == ap) with
  | none =>
    exfalso
    have := List.find?_eq_none.mp hf (ap, id) (List.mem_reverse.mpr hid)
    simp at this
  | some e =>
    have h1 := List.find?_some hf
    have h2 := List.mem_reverse.mp (List.mem_of_find?_eq_some hf)
    simp only [beq_iff_eq] at h1
    refine ⟨e.2, by simp, ?_⟩
    rw [← h1]
    exact h2

/-- C14 (counterexample): (1) for the peer-index key and `count = 0` the
buffer has 20 slots; of the 21 addresses of one provider record, offered
while the consumer has read nothing, the last is not emitted; (2) when two
provider records `id1` and `id2` carry the same IP address, the address
emitted for `id1` is bound to `id2` afterwards. -/
theorem resolve_peer_index_drops_and_rebinds :
    ((P2PRouter.Resolve { registryPort := 5000 } [demoManyAddrs 21] (fun _ => 0)
        PeerIndexKey 0).2.length = 20 ∧
      ({ addr := [10, 0, 0, 20], port := 5000 } : AddrPort) ∉
        (P2PRouter.Resolve { registryPort := 5000 } [demoManyAddrs 21] (fun _ => 0)
          PeerIndexKey 0).2) ∧
    ((P2PRouter.Resolve { registryPort := 5000 }
        [{ ID := "id1".toList, Addrs := [{ proto := .ip4, raw := [10, 0, 0, 7] }] },
         { ID := "id2".toList, Addrs := [{ proto := .ip4, raw := [10, 0, 0, 7] }] }]
        (fun _ => 0) PeerIndexKey 0).2 =
        [{ addr := [10, 0, 0, 7], port := 5000 }, { addr := [10, 0, 0, 7], port := 5000 }] ∧
      (P2PRouter.Resolve { registryPort := 5000 }
        [{ ID := "id1".toList, Addrs := [{ proto := .ip4, raw := [10, 0, 0, 7] }] },
         { ID := "id2".toList, Addrs := [{ proto := .ip4, raw := [10, 0, 0, 7] }] }]
        (fun _ => 0) PeerIndexKey 0).1.peerID { addr := [10, 0, 0, 7], port := 5000 } =
        some "id2".toList) := by
  refine ⟨⟨by decide, by decide⟩, by decide, by decide⟩

/-- C14 (amended): for the key `__peer_index__`, for every provider record
with identity `id` and every IP address `a` of it, `Resolve` records
`peerIDByAddr[(ip(a), registryPort)] = id` and offers the candidate `(ip(a),
registryPort)` to the channel: the stream is a subsequence of these
candidates, all of them when they fit the buffer (`count` slots, 20 for
`count = 0`).  Afterwards `FetchPeerKeys` on an emitted address does not fail
with `unknown peer id`: it finds the identity bound last to that address,
which is `id` when no two identities carry the same address. -/
theorem resolve_peer_index (r : P2PRouter) (providers : List AddrInfo)
    (reads : Nat → Nat) (count : Nat) :
    (∀ info ∈ providers, ∀ a ∈ info.Addrs, a.isIP = true →
      (({ addr := a.raw, port := r.registryPort } : AddrPort), info.ID) ∈
        peerIndexPairs r.registryPort providers) ∧
    (r.Resolve providers reads PeerIndexKey count).1.peerIDByAddr =
      (peerIndexPairs r.registryPort providers).reverse ++ r.peerIDByAddr ∧
    List.Sublist (r.Resolve providers reads PeerIndexKey count).2
      ((peerIndexPairs r.registryPort providers).map (·.1)) ∧
    ((peerIndexPairs r.registryPort providers).length ≤ (if count = 0 then 20 else count) →
      (r.Resolve providers reads PeerIndexKey count).2 =
        (peerIndexPairs r.registryPort providers).map (·.1)) ∧
    (∀ ap ∈ (r.Resolve providers reads PeerIndexKey count).2,
      (∃ id, (r.Resolve providers reads PeerIndexKey count).1.peerID ap = some id ∧
        (ap, id) ∈ peerIndexPairs r.registryPort providers) ∧
      ∀ dial, (r.Resolve providers reads PeerIndexKey count).1.FetchPeerKeys dial ap ≠
        .unknownPeer) ∧
    ((∀ p ∈ peerIndexPairs r.registryPort providers,
        ∀ q ∈ peerIndexPairs r.registryPort providers, p.1 = q.1 → p.2 = q.2) →
      ∀ ap id, (ap, id) ∈ peerIndexPairs r.registryPort providers →
        (r.Resolve providers reads PeerIndexKey count).1.peerID ap = some id) := by
  obtain ⟨_, h2, ⟨e, he, hs⟩, h4⟩ := peerIndexLoop_spec providers r
    { cap := if count = 0 then 20 else count, reads := reads }
  have hdef1 : (r.Resolve providers reads PeerIndexKey count).1 =
      (peerIndexLoop providers (r,
        { cap := if count = 0 then 20 else count, reads := reads })).1 := by
    simp [P2PRouter.Resolve]
  have hdef2 : (r.Resolve providers reads PeerIndexKey count).2 =
      (peerIndexLoop providers (r,
        { cap := if count = 0 then 20 else count, reads := reads })).2.sent := by
    simp [P2PRouter.Resolve]
  have hsub : List.Sublist (r.Resolve providers reads PeerIndexKey count).2
      ((peerIndexPairs r.registryPort providers).map (·.1)) := by
    rw [hdef2, he]
    simpa using hs
  have hbound : ∀ ap, (∃ id, (ap, id) ∈ peerIndexPairs r.registryPort providers) →
      ∃ id', (r.Resolve providers reads PeerIndexKey count).1.peerID ap = some id' ∧
        (ap, id') ∈ peerIndexPairs r.registryPort providers := by
    intro ap hap
    exact peerID_of_mem _ _ r.peerIDByAddr ap (by rw [hdef1, h2]) hap
  refine ⟨fun info hi a ha hip => peerIndexPairs_mem _ info a providers hi ha hip, ?_, hsub,
    ?_, ?_, ?_⟩
  · rw [hdef1, h2]
  · intro hfit
    rw [hdef2, h4 (by simpa using hfit)]
    simp
  · intro ap hap
    have hmem : ∃ id, (ap, id) ∈ peerIndexPairs r.registryPort providers := by
      obtain ⟨x, hx, hx1⟩ := List.mem_map.mp (hsub.subset hap)
      exact ⟨x.2, by rw [← hx1]; exact hx⟩
    obtain ⟨id', hid, hin⟩ := hbound ap hmem
    refine ⟨⟨id', hid, hin⟩, fun dial => ?_⟩
    unfold P2PRouter.FetchPeerKeys
    rw [hid]
    simp only
    split
    · exact fun h => FetchResult.noConfusion h
    · split <;> exact fun h => FetchResult.noConfusion h
  · intro huniq ap id hin
    obtain ⟨id', hid, hin'⟩ := hbound ap ⟨id, hin⟩
    have hsame : id' = id := huniq (ap, id') hin' (ap, id) hin rfl
    rw [hid, hsame]

/-- Witness for C14: one provider record with an IPv4 and an IPv6 address. -/
theorem resolve_peer_index_witness :
    (P2PRouter.Resolve { registryPort := 5000 }
      [{ ID := "id1".toList,
         Addrs := [{ proto := .ip4, raw := [10, 0, 0, 7] },
                   { proto := .ip6, raw := [254, 128, 0, 0, 0, 0, 0, 0, 0, 0, 0, 0, 0, 0, 0, 9] }] }]
      (fun _ => 0) PeerIndexKey 0).1.peerID { addr := [10, 0, 0, 7], port := 5000 } =
      some "id1".toList :=
  (resolve_peer_index { registryPort := 5000 }
    [{ ID := "id1".toList,
       Addrs := [{ proto := .ip4, raw := [10, 0, 0, 7] },
                 { proto := .ip6, raw := [254, 128, 0, 0, 0, 0, 0, 0, 0, 0, 0, 0, 0, 0, 0, 9] }] }]
    (fun _ => 0) 0).2.2.2.2.2 (by decide) _ _ (by decide)

theorem addrFactoryScan_spec :
    ∀ (l : List Multiaddr) (p4 p6 : Option Multiaddr),
      (((addrFactoryScan l (p4, p6)).2 = p6 ∧
          ∀ a ∈ l, ¬ (IsIPLoopback a = false ∧ isIp6 a = true)) ∨
        ∃ a ∈ l, (IsIPLoopback a = false ∧ isIp6 a = true) ∧
          (addrFactoryScan l (p4, p6)).2 = some a) ∧
      (((addrFactoryScan l (p4, p6)).1 = p4 ∧
          ∀ a ∈ l, ¬ (IsIPLoopback a = false ∧ isIp6 a = false)) ∨
        ∃ a ∈ l, (IsIPLoopback a = false ∧ isIp6 a = false) ∧
          (addrFactoryScan l (p4, p6)).1 = some a) := by
  intro l
  induction l with
  | nil => intro p4 p6; simp [addrFactoryScan]
  | cons addr rest ih =>
    intro p4 p6
    unfold addrFactoryScan
    by_cases hl : IsIPLoopback addr = true
    · simp only [hl, if_true]
      obtain ⟨h6, h4⟩ := ih p4 p6
      constructor
      · rcases h6 with ⟨e, hno⟩ | ⟨a, ha, hp, e⟩
        · left
          refine ⟨e, fun a ha => ?_⟩
          rcases List.mem_cons.mp ha with h | h
          · subst h; simp [hl]
          · exact hno a h
        · right; exact ⟨a, List.mem_cons_of_mem _ ha, hp, e⟩
      · rcases h4 with ⟨e, hno⟩ | ⟨a, ha, hp, e⟩
        · left
          refine ⟨e, fun a ha => ?_⟩
          rcases List.mem_cons.mp ha with h | h
          · subst h; simp [hl]
          · exact hno a h
        · right; exact ⟨a, List.mem_cons_of_mem _ ha, hp, e⟩
    · have hl' : IsIPLoopback addr = false := by simpa using hl
      simp only [hl', Bool.false_eq_true, if_false]
      by_cases h6a : isIp6 addr = true
      · simp only [h6a, if_true]
        obtain ⟨h6, h4⟩ := ih p4 (some addr)
        constructor
        · right
          rcases h6 with ⟨e, _⟩ | ⟨a, ha, hp, e⟩
          · exact ⟨addr, List.mem_cons_self _ _, ⟨hl', h6a⟩, e⟩
          · exact ⟨a, List.mem_cons_of_mem _ ha, hp, e⟩
        · rcases h4 with ⟨e, hno⟩ | ⟨a, ha, hp, e⟩
          · left
            refine ⟨e, fun a ha => ?_⟩
            rcases List.mem_cons.mp ha with h | h
            · subst h; simp [h6a]
            · exact hno a h
          · right; exact ⟨a, List.mem_cons_of_mem _ ha, hp, e⟩
      · have h6a' : isIp6 addr = false := by simpa using h6a
        simp only [h6a', Bool.false_eq_true, if_false]
        obtain ⟨h6, h4⟩ := ih (some addr) p6
        constructor
        · rcases h6 with ⟨e, hno⟩ | ⟨a, ha, hp, e⟩
          · left
            refine ⟨e, fun a ha => ?_⟩
            rcases List.mem_cons.mp ha with h | h
            · subst h; simp [h6a']
            · exact hno a h
          · right; exact ⟨a, List.mem_cons_of_mem _ ha, hp, e⟩
        · right
          rcases h4 with ⟨e, _⟩ | ⟨a, ha, hp, e⟩
          · exact ⟨addr, List.mem_cons_self _ _, ⟨hl', h6a'⟩, e⟩
          · exact ⟨a, List.mem_cons_of_mem _ ha, hp, e⟩

/-- Counterexample for C15: the factory takes every address that is neither
loopback nor IPv6 for the IPv4 address.  From a list with a usable IPv4
address and, after it, an address that does not start with an IP component
it returns the latter, and from a list with no IP address at all it returns
an address instead of nothing. -/
theorem addrFactory_returns_non_ip_address :
    addrFactory [{ proto := .ip4, raw := [10, 0, 0, 7] },
        { proto := .other, rest := "/dns4/node-1/tcp/5001".toList }] =
      [{ proto := .other, rest := "/dns4/node-1/tcp/5001".toList }] ∧
    IsIPLoopback { proto := .ip4, raw := [10, 0, 0, 7] } = false ∧
    addrFactory [{ proto := .other, rest := "/dns4/node-1/tcp/5001".toList }] =
      [{ proto := .other, rest := "/dns4/node-1/tcp/5001".toList }] := by
  decide

/-- C15 (amended): for every list of host multiaddresses the address factory
returns at most one address, an address of the list that is not a loopback
address: if the list contains a non-loopback IPv6 address it returns an IPv6
address of the list; otherwise, if it contains a non-loopback address that is
not IPv6 (an IPv4 address or an address that does not start with an IP
component), it returns such an address of the list; otherwise it returns
nothing. -/
theorem addrFactory_spec (addrs : List Multiaddr) :
    (addrFactory addrs).length ≤ 1 ∧
    (∀ a ∈ addrFactory addrs, a ∈ addrs ∧ IsIPLoopback a = false) ∧
    ((∃ a ∈ addrs, IsIPLoopback a = false ∧ a.proto = .ip6) →
      ∃ a, addrFactory addrs = [a] ∧ a ∈ addrs ∧ a.proto = .ip6) ∧
    ((¬ ∃ a ∈ addrs, IsIPLoopback a = false ∧ a.proto = .ip6) →
      (∃ a ∈ addrs, IsIPLoopback a = false ∧ a.proto ≠ .ip6) →
      ∃ a, addrFactory addrs = [a] ∧ a ∈ addrs ∧ a.proto ≠ .ip6) ∧
    ((¬ ∃ a ∈ addrs, IsIPLoopback a = false ∧ a.proto = .ip6) →
      (¬ ∃ a ∈ addrs, IsIPLoopback a = false ∧ a.proto ≠ .ip6) →
      addrFactory addrs = []) := by
  have h6iff : ∀ a : Multiaddr, isIp6 a = true ↔ a.proto = .ip6 := by
    intro a; simp [isIp6]
  have h4iff : ∀ a : Multiaddr, isIp6 a = false ↔ a.proto ≠ .ip6 := by
    intro a; simp [isIp6]
  obtain ⟨h6, h4⟩ := addrFactoryScan_spec addrs none none
  unfold addrFactory
  rcases h6 with ⟨e6, hno6⟩ | ⟨a6, ha6, hp6, e6⟩
  · rcases h4 with ⟨e4, hno4⟩ | ⟨a4, ha4, hp4, e4⟩
    · have hres : addrFactoryScan addrs (none, none) = (none, none) := Prod.ext e4 e6
      rw [hres]
      refine ⟨by simp, by simp, ?_, ?_, fun _ _ => rfl⟩
      · rintro ⟨a, ha, hl, hp⟩
        exact absurd ⟨hl, (h6iff a).mpr hp⟩ (hno6 a ha)
      · rintro _ ⟨a, ha, hl, hp⟩
        exact absurd ⟨hl, (h4iff a).mpr hp⟩ (hno4 a ha)
    · have hres : addrFactoryScan addrs (none, none) = (some a4, none) := Prod.ext e4 e6
      rw [hres]
      refine ⟨by simp, ?_, ?_, ?_, ?_⟩
      · intro a ha
        simp only [List.mem_singleton] at ha
        subst ha
        exact ⟨ha4, hp4.1⟩
      · rintro ⟨a, ha, hl, hp⟩
        exact absurd ⟨hl, (h6iff a).mpr hp⟩ (hno6 a ha)
      · intro _ _
        exact ⟨a4, rfl, ha4, (h4iff a4).mp hp4.2⟩
      · intro _ hno
        exact absurd ⟨a4, ha4, hp4.1, (h4iff a4).mp hp4.2⟩ hno
  · have hres : ∃ x, addrFactoryScan addrs (none, none) = (x, some a6) :=
      ⟨(addrFactoryScan addrs (none, none)).1, Prod.ext rfl e6⟩
    obtain ⟨x, hx⟩ := hres
    rw [hx]
    have hm : (match (x, some a6) with
        | (_, some ip6Ma) => [ip6Ma]
        | (some ip4Ma, none) => [ip4Ma]
        | (none, none) => []) = [a6] := by
      cases x <;> rfl
    rw [hm]
    refine ⟨by simp, ?_, ?_, ?_, ?_⟩
    · intro a ha
      simp only [List.mem_singleton] at ha
      subst ha
      exact ⟨ha6, hp6.1⟩
    · intro _
      exact ⟨a6, rfl, ha6, (h6iff a6).mp hp6.2⟩
    · intro hno
      exact absurd ⟨a6, ha6, hp6.1, (h6iff a6).mp hp6.2⟩ hno
    · intro hno
      exact absurd ⟨a6, ha6, hp6.1, (h6iff a6).mp hp6.2⟩ hno

/-- Witness for C15: a loopback address, an IPv4 address, a loopback IPv6
address and a second IPv4 address: no IPv6 address can be used, and the
factory returns an address of the list that is not IPv6. -/
theorem addrFactory_spec_witness :
    ∃ a, addrFactory
        [{ proto := .ip4, raw := [127, 0, 0, 1] }, { proto := .ip4, raw := [10, 0, 0, 7] },
         { proto := .ip6, raw := [0, 0, 0, 0, 0, 0, 0, 0, 0, 0, 0, 0, 0, 0, 0, 1] },
         { proto := .ip4, raw := [10, 0, 0, 8] }] = [a] ∧
      a ∈ [{ proto := .ip4, raw := [127, 0, 0, 1] }, { proto := .ip4, raw := [10, 0, 0, 7] },
         { proto := .ip6, raw := [0, 0, 0, 0, 0, 0, 0, 0, 0, 0, 0, 0, 0, 0, 0, 1] },
         { proto := .ip4, raw := [10, 0, 0, 8] }] ∧ a.proto ≠ .ip6 :=
  (addrFactory_spec
    [{ proto := .ip4, raw := [127, 0, 0, 1] }, { proto := .ip4, raw := [10, 0, 0, 7] },
     { proto := .ip6, raw := [0, 0, 0, 0, 0, 0, 0, 0, 0, 0, 0, 0, 0, 0, 0, 1] },
     { proto := .ip4, raw := [10, 0, 0, 8] }]).2.2.2.1 (by decide)
    ⟨{ proto := .ip4, raw := [10, 0, 0, 7] }, by decide, by decide, by decide⟩

/-- Counterexample for C16: with three peers in the routing table and a
bootstrapper that returns no peer, `Ready` reports false; with an empty
routing table and a bootstrapper that returns the host itself and nobody
else, `Ready` reports true. -/
theorem ready_not_decided_by_table :
    P2PRouter.Ready { get := some [], host := demoHost, tableSize := 3 } = .ok false ∧
    P2PRouter.Ready { get := some [demoHost], host := demoHost, tableSize := 0 } = .ok true := by
  decide

theorem hostMatchesAddrs_skip (hostIP : List Nat) (l : List Multiaddr) :
    ∀ pre : List Multiaddr,
      (∀ y ∈ pre, ∃ ip, ToIP y = some ip ∧ ipEqual hostIP ip = false) →
      hostMatchesAddrs hostIP (pre ++ l) = hostMatchesAddrs hostIP l := by
  intro pre
  induction pre with
  | nil => intro _; rfl
  | cons y pre ih =>
    intro h
    obtain ⟨ip, hip, hne⟩ := h y (List.mem_cons_self _ _)
    rw [List.cons_append, hostMatchesAddrs]
    simp only [hip, hne, Bool.false_eq_true, if_false]
    exact ih (fun z hz => h z (List.mem_cons_of_mem _ hz))

/-- C16 (amended): when `bootstrapper.Get` succeeds, `Ready` reports false if
it returned no peer at all.  If it returned exactly one peer, `hostMatches`
compares that peer with the host, and `Ready` reports true when the peer
matches, whatever the routing table holds, returns the error when the
comparison fails and panics when the comparison panics.  The comparison:
when the identities of the host and of the peer are both non-empty the peer
matches exactly if they are equal; otherwise the comparison panics if the
host has no address, fails if the first address of the host is not an IP
address, and else reads the addresses of the peer in order: it fails at the
first one that is not an IP address, matches at the first one equal to the
IP address of the host, and does not match if they are all IP addresses
other than the one of the host.  In the remaining cases, two peers or more or
a single peer that the comparison finds not to match, `Ready` reports true
when the routing table is non-empty, and with an empty routing table it
reports false after a successful `Bootstrap` and the error of `Bootstrap`
otherwise. -/
theorem ready_spec (env : ReadyEnv) (addrInfos : List AddrInfo)
    (hget : env.get = some addrInfos) :
    (addrInfos = [] → P2PRouter.Ready env = .ok false) ∧
    (∀ a, addrInfos = [a] → hostMatches env.host a = .ok true →
      P2PRouter.Ready env = .ok true) ∧
    (∀ a, addrInfos = [a] → env.host.ID ≠ [] → a.ID = env.host.ID →
      P2PRouter.Ready env = .ok true) ∧
    ((2 ≤ addrInfos.length ∨ ∃ a, addrInfos = [a] ∧ hostMatches env.host a = .ok false) →
      (0 < env.tableSize → P2PRouter.Ready env = .ok true) ∧
      (env.tableSize = 0 → env.bootstrapOk = true → P2PRouter.Ready env = .ok false) ∧
      (env.tableSize = 0 → env.bootstrapOk = false → P2PRouter.Ready env = .err)) ∧
    (∀ a, addrInfos = [a] → hostMatches env.host a = .err → P2PRouter.Ready env = .err) ∧
    (∀ a, addrInfos = [a] → hostMatches env.host a = .panic →
      P2PRouter.Ready env = .panic) ∧
    (∀ a : AddrInfo, env.host.ID ≠ [] → a.ID ≠ [] →
      hostMatches env.host a = .ok (decide (env.host.ID = a.ID))) ∧
    (∀ a : AddrInfo, env.host.ID = [] ∨ a.ID = [] →
      (env.host.Addrs = [] → hostMatches env.host a = .panic) ∧
      (∀ h0 rest, env.host.Addrs = h0 :: rest → ToIP h0 = none →
        hostMatches env.host a = .err) ∧
      (∀ h0 rest hostIP, env.host.Addrs = h0 :: rest → ToIP h0 = some hostIP →
        (∀ pre x post, a.Addrs = pre ++ x :: post →
          (∀ y ∈ pre, ∃ ip, ToIP y = some ip ∧ ipEqual hostIP ip = false) →
          (ToIP x = none → hostMatches env.host a = .err) ∧
          (∀ ip, ToIP x = some ip → ipEqual hostIP ip = true →
            hostMatches env.host a = .ok true)) ∧
        ((∀ y ∈ a.Addrs, ∃ ip, ToIP y = some ip ∧ ipEqual hostIP ip = false) →
          hostMatches env.host a = .ok false))) := by
  have hself : ∀ a : AddrInfo, env.host.ID ≠ [] → a.ID = env.host.ID →
      hostMatches env.host a = .ok true := by
    intro a hne hid
    unfold hostMatches
    rw [if_pos ⟨hne, by rw [hid]; exact hne⟩, hid]
    simp
  have htable : (0 < env.tableSize → readyByTable env = .ok true) ∧
      (env.tableSize = 0 → env.bootstrapOk = true → readyByTable env = .ok false) ∧
      (env.tableSize = 0 → env.bootstrapOk = false → readyByTable env = .err) := by
    refine ⟨fun h => ?_, fun h hb => ?_, fun h hb => ?_⟩
    · simp [readyByTable, h]
    · simp [readyByTable, h, hb]
    · simp [readyByTable, h, hb]
  have hno : ∀ a : AddrInfo, env.host.ID = [] ∨ a.ID = [] →
      ¬ (env.host.ID ≠ [] ∧ a.ID ≠ []) := by
    rintro a (h | h) ⟨h1, h2⟩
    · exact h1 h
    · exact h2 h
  refine ⟨?_, ?_, ?_, ?_, ?_, ?_, ?_, ?_⟩
  · intro h
    subst h
    simp [P2PRouter.Ready, hget]
  · intro a h hm
    subst h
    simp [P2PRouter.Ready, hget, hm]
  · intro a h hne hid
    subst h
    simp [P2PRouter.Ready, hget, hself a hne hid]
  · intro h
    have hr : P2PRouter.Ready env = readyByTable env := by
      rcases h with h | ⟨a, h, hm⟩
      · match addrInfos, h with
        | a :: b :: rest, _ => simp [P2PRouter.Ready, hget]
      · subst h
        simp [P2PRouter.Ready, hget, hm]
    rw [hr]
    exact htable
  · intro a h hm
    subst h
    simp [P2PRouter.Ready, hget, hm]
  · intro a h hm
    subst h
    simp [P2PRouter.Ready, hget, hm]
  · intro a h1 h2
    unfold hostMatches
    rw [if_pos ⟨h1, h2⟩]
    congr 1
    by_cases he : env.host.ID = a.ID <;> simp [he]
  · intro a hid
    refine ⟨?_, ?_, ?_⟩
    · intro hA
      unfold hostMatches
      rw [if_neg (hno a hid), hA]
    · intro h0 rest hA hip
      unfold hostMatches
      rw [if_neg (hno a hid), hA]
      simp only [hip]
    · intro h0 rest hostIP hA hip
      have hm : hostMatches env.host a = hostMatchesAddrs hostIP a.Addrs := by
        unfold hostMatches
        rw [if_neg (hno a hid), hA]
        simp only [hip]
      rw [hm]
      refine ⟨?_, ?_⟩
      · intro pre x post hsplit hpre
        rw [hsplit, hostMatchesAddrs_skip hostIP (x :: post) pre hpre]
        refine ⟨?_, ?_⟩
        · intro hx
          rw [hostMatchesAddrs]
          simp only [hx]
        · intro ip hx heq
          rw [hostMatchesAddrs]
          simp only [hx, heq, if_true]
      · intro hall
        have := hostMatchesAddrs_skip hostIP [] a.Addrs hall
        rw [List.append_nil] at this
        rw [this]
        rfl

/-- Witness for C16: the bootstrapper returns one peer that is not the host
and the routing table is empty. -/
theorem ready_spec_witness :
    P2PRouter.Ready { get := some [demoPeer], host := demoHost, tableSize := 0 } = .ok false :=
  ((ready_spec { get := some [demoPeer], host := demoHost, tableSize := 0 } [demoPeer]
      rfl).2.2.2.1
    (Or.inr ⟨demoPeer, rfl, by decide⟩)).2.1 rfl rfl

/-- C17: the function `loadOrCreatePrivateKey` never reads or writes the key
file of the data directory: whatever the disk holds, a call returns the key
it has just generated and leaves the disk as it was, so a second call with
the same data directory returns the key of its own draw, not the key of the
first call. -/
theorem loadOrCreatePrivateKey_never_persists (codec : KeyCodec) (k₁ k₂ : PrivKey)
    (dataDir : List Char) (disk : FS) :
    loadOrCreatePrivateKey codec (some k₁) dataDir disk = (.ok k₁, disk) ∧
    loadOrCreatePrivateKey codec (some k₂) dataDir
      (loadOrCreatePrivateKey codec (some k₁) dataDir disk).2 = (.ok k₂, disk) := by
  constructor <;> rfl

theorem missingKeyInfo_get_set (m : state.MissingKeyInfo) (k k' : List Char)
    (v : List state.KeySource) :
    (m.set k v).get k' = if k = k' then some v else m.get k' := by
  induction m with
  | nil =>
    simp [state.MissingKeyInfo.set, state.MissingKeyInfo.get]
  | cons e rest ih =>
    obtain ⟨k₀, v₀⟩ := e
    unfold state.MissingKeyInfo.set
    by_cases h : k₀ = k
    · subst h
      by_cases h' : k₀ = k'
      · simp [state.MissingKeyInfo.get, h']
      · simp [state.MissingKeyInfo.get, h']
    · simp only [if_neg h]
      by_cases h' : k₀ = k'
      · subst h'
        have hne : ¬ k = k₀ := fun e => h e.symm
        simp [state.MissingKeyInfo.get, hne]
      · simp [state.MissingKeyInfo.get, h', ih]

theorem addSource_get (m : state.MissingKeyInfo) (d d' : List Char) (s : state.KeySource) :
    (state.addSource m d s).get d' =
      if d = d' then
        some (match m.get d with
          | some existingSources =>
            if state.isDuplicate s existingSources then existingSources
            else existingSources ++ [s]
          | none => [s])
      else m.get d' := by
  unfold state.addSource
  cases hg : m.get d with
  | none =>
    simp only [missingKeyInfo_get_set]
  | some existingSources =>
    simp only
    by_cases hdup : state.isDuplicate s existingSources = true
    · simp only [hdup, if_true]
      by_cases hd : d = d'
      · subst hd; simp [hg]
      · simp [hd]
    · simp only [hdup, Bool.false_eq_true, if_false, missingKeyInfo_get_set]

theorem addSource_isSome (m : state.MissingKeyInfo) (d d' : List Char) (s : state.KeySource) :
    ((state.addSource m d s).get d').isSome = true ↔ (m.get d').isSome = true ∨ d' = d := by
  rw [addSource_get]
  by_cases hd : d = d'
  · subst hd; simp
  · have hd' : ¬ d' = d := fun e => hd e.symm
    simp [hd, hd']

theorem addSource_holds (m : state.MissingKeyInfo) (d d' : List Char) (s t : state.KeySource)
    (h : (state.addSource m d s).Holds d' t) : m.Holds d' t ∨ (d' = d ∧ t = s) := by
  obtain ⟨sources, hget, hmem⟩ := h
  rw [addSource_get] at hget
  by_cases hd : d = d'
  · subst hd
    simp only [if_true, Option.some.injEq] at hget
    cases hg : m.get d with
    | none =>
      rw [hg] at hget
      subst hget
      right
      exact ⟨rfl, by simpa using hmem⟩
    | some existingSources =>
      rw [hg] at hget
      simp only at hget
      by_cases hdup : state.isDuplicate s existingSources = true
      · simp only [hdup, if_true] at hget
        subst hget
        exact Or.inl ⟨_, hg, hmem⟩
      · simp only [hdup, Bool.false_eq_true, if_false] at hget
        subst hget
        rcases List.mem_append.mp hmem with h | h
        · exact Or.inl ⟨_, hg, h⟩
        · right
          exact ⟨rfl, by simpa using h⟩
  · simp only [if_neg hd] at hget
    exact Or.inl ⟨_, hget, hmem⟩

theorem layerLoop_spec (L : List (List Char)) (p n r : List Char) :
    ∀ (layers : List (Option (List Char))) (m : state.MissingKeyInfo) (d : List Char),
      (((state.layerLoop L p n r layers m).get d).isSome = true ↔
        (m.get d).isSome = true ∨ (d ∉ L ∧ some d ∈ layers)) ∧
      ∀ t, (state.layerLoop L p n r layers m).Holds d t →
        m.Holds d t ∨ (d ∉ L ∧ some d ∈ layers ∧
          t = { PeerAddr := p, ImageName := n, Registry := r }) := by
  intro layers
  induction layers with
  | nil => intro m d; simp [state.layerLoop]
  | cons layer rest ih =>
    intro m d
    cases layer with
    | none =>
      obtain ⟨h1, h2⟩ := ih m d
      simp only [state.layerLoop]
      refine ⟨?_, ?_⟩
      · rw [h1]; simp
      · intro t ht
        rcases h2 t ht with h | ⟨ha, hb, hc⟩
        · exact Or.inl h
        · exact Or.inr ⟨ha, List.mem_cons_of_mem _ hb, hc⟩
    | some digest =>
      simp only [state.layerLoop]
      by_cases hin : digest ∈ L
      · simp only [if_pos hin]
        obtain ⟨h1, h2⟩ := ih m d
        refine ⟨?_, ?_⟩
        · rw [h1]
          constructor
          · rintro (h | ⟨ha, hb⟩)
            · exact Or.inl h
            · exact Or.inr ⟨ha, List.mem_cons_of_mem _ hb⟩
          · rintro (h | ⟨ha, hb⟩)
            · exact Or.inl h
            · rcases List.mem_cons.mp hb with hb | hb
              · have hdd : d = digest := by injection hb
                exact absurd (hdd ▸ hin) ha
              · exact Or.inr ⟨ha, hb⟩
        · intro t ht
          rcases h2 t ht with h | ⟨ha, hb, hc⟩
          · exact Or.inl h
          · exact Or.inr ⟨ha, List.mem_cons_of_mem _ hb, hc⟩
      · simp only [if_neg hin]
        obtain ⟨h1, h2⟩ := ih (state.addSource m digest
          { PeerAddr := p, ImageName := n, Registry := r }) d
        refine ⟨?_, ?_⟩
        · rw [h1, addSource_isSome]
          constructor
          · rintro ((h | h) | ⟨ha, hb⟩)
            · exact Or.inl h
            · subst h
              exact Or.inr ⟨hin, List.mem_cons_self _ _⟩
            · exact Or.inr ⟨ha, List.mem_cons_of_mem _ hb⟩
          · rintro (h | ⟨ha, hb⟩)
            · exact Or.inl (Or.inl h)
            · rcases List.mem_cons.mp hb with hb | hb
              · have hdd : d = digest := by injection hb
                exact Or.inl (Or.inr hdd)
              · exact Or.inr ⟨ha, hb⟩
        · intro t ht
          rcases h2 t ht with h | ⟨ha, hb, hc⟩
          · rcases addSource_holds m digest d _ t h with h | ⟨hd, hs⟩
            · exact Or.inl h
            · subst hd
              exact Or.inr ⟨hin, List.mem_cons_self _ _, hs⟩
          · exact Or.inr ⟨ha, List.mem_cons_of_mem _ hb, hc⟩

theorem imageLoop_spec (L : List (List Char)) (p : List Char) :
    ∀ (images : List state.PeerImage) (m : state.MissingKeyInfo) (d : List Char),
      (((state.imageLoop L p images m).get d).isSome = true ↔
        (m.get d).isSome = true ∨ (d ∉ L ∧ ∃ img ∈ images, ∃ n r, img.lists d n r)) ∧
      ∀ t, (state.imageLoop L p images m).Holds d t →
        m.Holds d t ∨ (d ∉ L ∧ t.PeerAddr = p ∧
          ∃ img ∈ images, img.lists d t.ImageName t.Registry) := by
  intro images
  induction images with
  | nil => intro m d; simp [state.imageLoop]
  | cons image rest ih =>
    intro m d
    have hskip : (image.image_name = none ∨ image.layer_keys = none ∨ image.registry = none) →
        state.imageLoop L p (image :: rest) m = state.imageLoop L p rest m ∧
        ∀ n r, ¬ image.lists d n r := by
      intro h
      constructor
      · rw [state.imageLoop]
        rcases h with h | h | h
        · simp only [h]
        · cases image.image_name <;> simp only [h]
        · cases image.image_name <;> cases image.layer_keys <;> simp only [h]
      · rintro n r ⟨h1, h2, ls, h3, _⟩
        rcases h with h | h | h
        · rw [h] at h1; cases h1
        · rw [h] at h3; cases h3
        · rw [h] at h2; cases h2
    have hskipped : (image.image_name = none ∨ image.layer_keys = none ∨ image.registry = none) →
        ((((state.imageLoop L p (image :: rest) m).get d).isSome = true ↔
          (m.get d).isSome = true ∨
            (d ∉ L ∧ ∃ img ∈ image :: rest, ∃ n r, img.lists d n r)) ∧
        ∀ t, (state.imageLoop L p (image :: rest) m).Holds d t →
          m.Holds d t ∨ (d ∉ L ∧ t.PeerAddr = p ∧
            ∃ img ∈ image :: rest, img.lists d t.ImageName t.Registry)) := by
      intro h
      obtain ⟨he, hno⟩ := hskip h
      obtain ⟨h1, h2⟩ := ih m d
      rw [he]
      refine ⟨?_, ?_⟩
      · rw [h1]
        constructor
        · rintro (h | ⟨ha, img, himg, n, r, hl⟩)
          · exact Or.inl h
          · exact Or.inr ⟨ha, img, List.mem_cons_of_mem _ himg, n, r, hl⟩
        · rintro (h | ⟨ha, img, himg, n, r, hl⟩)
          · exact Or.inl h
          · rcases List.mem_cons.mp himg with himg | himg
            · subst himg
              exact absurd hl (hno n r)
            · exact Or.inr ⟨ha, img, himg, n, r, hl⟩
      · intro t ht
        rcases h2 t ht with h | ⟨ha, hb, img, himg, hl⟩
        · exact Or.inl h
        · exact Or.inr ⟨ha, hb, img, List.mem_cons_of_mem _ himg, hl⟩
    cases hn : image.image_name with
    | none => exact hskipped (Or.inl hn)
    | some imageName =>
      cases hk : image.layer_keys with
      | none => exact hskipped (Or.inr (Or.inl hk))
      | some layers =>
        cases hr : image.registry with
        | none => exact hskipped (Or.inr (Or.inr hr))
        | some registry =>
          have he : state.imageLoop L p (image :: rest) m =
              state.imageLoop L p rest (state.layerLoop L p imageName registry layers m) := by
            rw [state.imageLoop]
            simp only [hn, hk, hr]
          obtain ⟨h1, h2⟩ := ih (state.layerLoop L p imageName registry layers m) d
          obtain ⟨l1, l2⟩ := layerLoop_spec L p imageName registry layers m d
          have hlists : ∀ n r, image.lists d n r ↔
              (n = imageName ∧ r = registry ∧ some d ∈ layers) := by
            intro n r
            constructor
            · rintro ⟨a, b, ls, c, e⟩
              rw [hn] at a; rw [hr] at b; rw [hk] at c
              injection a with a; injection b with b; injection c with c
              subst a; subst b; subst c
              exact ⟨rfl, rfl, e⟩
            · rintro ⟨a, b, e⟩
              subst a; subst b
              exact ⟨hn, hr, layers, hk, e⟩
          rw [he]
          refine ⟨?_, ?_⟩
          · rw [h1, l1]
            constructor
            · rintro ((h | ⟨ha, hb⟩) | ⟨ha, img, himg, n, r, hl⟩)
              · exact Or.inl h
              · exact Or.inr ⟨ha, image, List.mem_cons_self _ _, imageName, registry,
                  (hlists _ _).mpr ⟨rfl, rfl, hb⟩⟩
              · exact Or.inr ⟨ha, img, List.mem_cons_of_mem _ himg, n, r, hl⟩
            · rintro (h | ⟨ha, img, himg, n, r, hl⟩)
              · exact Or.inl (Or.inl h)
              · rcases List.mem_cons.mp himg with himg | himg
                · subst himg
                  exact Or.inl (Or.inr ⟨ha, ((hlists n r).mp hl).2.2⟩)
                · exact Or.inr ⟨ha, img, himg, n, r, hl⟩
          · intro t ht
            rcases h2 t ht with h | ⟨ha, hb, img, himg, hl⟩
            · rcases l2 t h with h | ⟨ha, hb, hc⟩
              · exact Or.inl h
              · subst hc
                exact Or.inr ⟨ha, rfl, image, List.mem_cons_self _ _,
                  (hlists _ _).mpr ⟨rfl, rfl, hb⟩⟩
            · exact Or.inr ⟨ha, hb, img, List.mem_cons_of_mem _ himg, hl⟩

theorem listed_cons (fetch : List Char → state.PeerFetch) (p : List Char)
    (peers : List (List Char)) (d : List Char) (s : state.KeySource)
    (h : state.Listed fetch peers d s) : state.Listed fetch (p :: peers) d s :=
  ⟨List.mem_cons_of_mem _ h.1, h.2⟩

theorem peerLoop_spec (fetch : List Char → state.PeerFetch) (L : List (List Char)) :
    ∀ (peers : List (List Char)) (m : state.MissingKeyInfo) (d : List Char),
      (((state.peerLoop fetch L peers m).get d).isSome = true ↔
        (m.get d).isSome = true ∨ (d ∉ L ∧ ∃ s, state.Listed fetch peers d s)) ∧
      ∀ t, (state.peerLoop fetch L peers m).Holds d t →
        m.Holds d t ∨ (d ∉ L ∧ state.Listed fetch peers d t) := by
  intro peers
  induction peers with
  | nil =>
    intro m d
    simp [state.peerLoop, state.Listed]
  | cons peerAddr rest ih =>
    intro m d
    have hskipped : (∀ imageLayers, fetch peerAddr ≠ .inventory imageLayers) →
        state.peerLoop fetch L (peerAddr :: rest) m = state.peerLoop fetch L rest m →
        ((((state.peerLoop fetch L (peerAddr :: rest) m).get d).isSome = true ↔
          (m.get d).isSome = true ∨ (d ∉ L ∧ ∃ s, state.Listed fetch (peerAddr :: rest) d s)) ∧
        ∀ t, (state.peerLoop fetch L (peerAddr :: rest) m).Holds d t →
          m.Holds d t ∨ (d ∉ L ∧ state.Listed fetch (peerAddr :: rest) d t)) := by
      intro hno he
      obtain ⟨h1, h2⟩ := ih m d
      rw [he]
      refine ⟨?_, ?_⟩
      · rw [h1]
        constructor
        · rintro (h | ⟨ha, s, hs⟩)
          · exact Or.inl h
          · exact Or.inr ⟨ha, s, listed_cons fetch peerAddr rest d s hs⟩
        · rintro (h | ⟨ha, s, hmem, imgs, hf, hrest⟩)
          · exact Or.inl h
          · rcases List.mem_cons.mp hmem with hmem | hmem
            · rw [hmem] at hf
              exact absurd hf (hno imgs)
            · exact Or.inr ⟨ha, s, hmem, imgs, hf, hrest⟩
      · intro t ht
        rcases h2 t ht with h | ⟨ha, hs⟩
        · exact Or.inl h
        · exact Or.inr ⟨ha, listed_cons fetch peerAddr rest d t hs⟩
    cases hf : fetch peerAddr with
    | failed =>
      exact hskipped (fun _ h => by rw [hf] at h; cases h) (by rw [state.peerLoop]; simp only [hf])
    | empty =>
      exact hskipped (fun _ h => by rw [hf] at h; cases h) (by rw [state.peerLoop]; simp only [hf])
    | malformed =>
      exact hskipped (fun _ h => by rw [hf] at h; cases h) (by rw [state.peerLoop]; simp only [hf])
    | inventory imageLayers =>
      have he : state.peerLoop fetch L (peerAddr :: rest) m =
          state.peerLoop fetch L rest (state.imageLoop L peerAddr imageLayers m) := by
        rw [state.peerLoop]
        simp only [hf]
      obtain ⟨h1, h2⟩ := ih (state.imageLoop L peerAddr imageLayers m) d
      obtain ⟨i1, i2⟩ := imageLoop_spec L peerAddr imageLayers m d
      rw [he]
      refine ⟨?_, ?_⟩
      · rw [h1, i1]
        constructor
        · rintro ((h | ⟨ha, img, himg, n, r, hl⟩) | ⟨ha, s, hs⟩)
          · exact Or.inl h
          · exact Or.inr ⟨ha, { PeerAddr := peerAddr, ImageName := n, Registry := r },
              List.mem_cons_self _ _, imageLayers, hf, img, himg, hl⟩
          · exact Or.inr ⟨ha, s, listed_cons fetch peerAddr rest d s hs⟩
        · rintro (h | ⟨ha, s, hmem, imgs, hfs, img, himg, hl⟩)
          · exact Or.inl (Or.inl h)
          · rcases List.mem_cons.mp hmem with hmem | hmem
            · rw [hmem, hf] at hfs
              injection hfs with hfs
              subst hfs
              exact Or.inl (Or.inr ⟨ha, img, himg, _, _, hl⟩)
            · exact Or.inr ⟨ha, s, hmem, imgs, hfs, img, himg, hl⟩
      · intro t ht
        rcases h2 t ht with h | ⟨ha, hs⟩
        · rcases i2 t h with h | ⟨ha, hb, img, himg, hl⟩
          · exact Or.inl h
          · right
            refine ⟨ha, ?_, imageLayers, ?_, img, himg, hl⟩
            · rw [hb]; exact List.mem_cons_self _ _
            · rw [hb]; exact hf
        · exact Or.inr ⟨ha, listed_cons fetch peerAddr rest d t hs⟩

theorem localKeySet_getLocalBlobsLoop (includedImages : List (List Char)) (d : List Char) :
    ∀ imgs : List state.Image,
      d ∈ state.localKeySet (state.getLocalBlobsLoop includedImages imgs) ↔
        ∃ img ∈ imgs, ∃ dgsts, img.walk = some dgsts ∧
          state.isIncludedImage img.name includedImages = true ∧ d ∈ dgsts := by
  intro imgs
  induction imgs with
  | nil => simp [state.getLocalBlobsLoop, state.localKeySet]
  | cons img rest ih =>
    rw [state.getLocalBlobsLoop]
    cases hw : img.walk with
    | none =>
      simp only [ih]
      constructor
      · rintro ⟨i, hi, ds, h1, h2, h3⟩
        exact ⟨i, List.mem_cons_of_mem _ hi, ds, h1, h2, h3⟩
      · rintro ⟨i, hi, ds, h1, h2, h3⟩
        rcases List.mem_cons.mp hi with hi | hi
        · subst hi; rw [hw] at h1; cases h1
        · exact ⟨i, hi, ds, h1, h2, h3⟩
    | some dgsts =>
      simp only
      by_cases hinc : state.isIncludedImage img.name includedImages = true
      · simp only [hinc, if_true, state.localKeySet, List.mem_append, ih]
        constructor
        · rintro (h | ⟨i, hi, ds, h1, h2, h3⟩)
          · exact ⟨img, List.mem_cons_self _ _, dgsts, hw, hinc, h⟩
          · exact ⟨i, List.mem_cons_of_mem _ hi, ds, h1, h2, h3⟩
        · rintro ⟨i, hi, ds, h1, h2, h3⟩
          rcases List.mem_cons.mp hi with hi | hi
          · subst hi
            rw [hw] at h1
            injection h1 with h1
            subst h1
            exact Or.inl h3
          · exact Or.inr ⟨i, hi, ds, h1, h2, h3⟩
      · simp only [hinc, Bool.false_eq_true, if_false, ih]
        constructor
        · rintro ⟨i, hi, ds, h1, h2, h3⟩
          exact ⟨i, List.mem_cons_of_mem _ hi, ds, h1, h2, h3⟩
        · rintro ⟨i, hi, ds, h1, h2, h3⟩
          rcases List.mem_cons.mp hi with hi | hi
          · subst hi; exact absurd h2 hinc
          · exact ⟨i, hi, ds, h1, h2, h3⟩

theorem localSet_spec (env : state.SyncEnv) (images : List (List Char)) (d : List Char) :
    d ∈ state.localSet env images ↔
      ∃ imgs, env.listImages = some imgs ∧ ∃ img ∈ imgs, ∃ dgsts, img.walk = some dgsts ∧
        state.isIncludedImage img.name images = true ∧ d ∈ dgsts := by
  unfold state.localSet state.getLocalBlobs
  cases hl : env.listImages with
  | none => simp
  | some imgs =>
    simp only [Option.some.injEq, exists_eq_left']
    rw [← localKeySet_getLocalBlobsLoop]
    by_cases hlen : (state.getLocalBlobsLoop images imgs).length = 0
    · have hnil : state.getLocalBlobsLoop images imgs = [] := List.length_eq_zero.mp hlen
      simp [hnil, state.localKeySet]
    · simp [hlen]

/-- Counterexample for C18: the node holds the image `nginx` with the layer
`demoDigest` in its content store, the inclusion list names only `redis`, and
a peer lists the same layer: the digest gets an entry in the missing-key
table although an image of the local content store has it. -/
theorem discover_lists_digest_held_locally :
    (∃ imgs, demoSyncEnv.listImages = some imgs ∧
      ∃ img ∈ imgs, img.walk = some [demoDigest]) ∧
    state.discover demoSyncEnv ["redis".toList] =
      some [(demoDigest, [{ PeerAddr := demoPeerAddr, ImageName := demoImageName,
                            Registry := "docker.io".toList }])] := by
  refine ⟨⟨_, rfl, _, List.mem_cons_self _ _, rfl⟩, ?_⟩
  decide

/-- C18 (amended): when `Resolve` succeeds, after the discovery loop of
`synchronise` a digest `d` has an entry in the missing-key table if and only
if `d` is a string of the `layer_keys` of some image, with a string
`image_name`, an array `layer_keys` and a string `registry`, of the inventory
that parsed of some peer of the stream, and `d` is not in the local key set.
Every source of an entry carries the peer address, the image name and the
registry of such an image that listed `d`.  The local key set holds the
digests of the local images that `WalkImage` walks and whose name contains an
entry of the inclusion list; it is empty when `ListImages` fails. -/
theorem discover_missing_keys (env : state.SyncEnv) (images peers : List (List Char))
    (hres : env.resolve = some peers) (d : List Char) :
    ∃ m, state.discover env images = some m ∧
      ((m.get d).isSome = true ↔
        (∃ s, state.Listed env.fetch peers d s) ∧ d ∉ state.localSet env images) ∧
      (∀ t, m.Holds d t → state.Listed env.fetch peers d t) ∧
      (d ∈ state.localSet env images ↔
        ∃ imgs, env.listImages = some imgs ∧ ∃ img ∈ imgs, ∃ dgsts, img.walk = some dgsts ∧
          state.isIncludedImage img.name images = true ∧ d ∈ dgsts) := by
  refine ⟨state.peerLoop env.fetch (state.localSet env images) peers [], ?_, ?_, ?_, ?_⟩
  · simp [state.discover, hres]
  · obtain ⟨h1, _⟩ := peerLoop_spec env.fetch (state.localSet env images) peers [] d
    rw [h1]
    simp [state.MissingKeyInfo.get, and_comm]
  · intro t ht
    obtain ⟨_, h2⟩ := peerLoop_spec env.fetch (state.localSet env images) peers [] d
    rcases h2 t ht with ⟨_, h, _⟩ | ⟨_, h⟩
    · simp [state.MissingKeyInfo.get] at h
    · exact h
  · exact localSet_spec env images d

/-- Witness for C18: the node of the examples with the inclusion list
`nginx`, so that its layer is in the local key set. -/
theorem discover_missing_keys_witness :
    ∃ m, state.discover demoSyncEnv ["nginx".toList] = some m ∧
      ((m.get demoDigest).isSome = true ↔
        (∃ s, state.Listed demoSyncEnv.fetch [demoPeerAddr] demoDigest s) ∧
          demoDigest ∉ state.localSet demoSyncEnv ["nginx".toList]) ∧
      (∀ t, m.Holds demoDigest t → state.Listed demoSyncEnv.fetch [demoPeerAddr] demoDigest t) ∧
      (demoDigest ∈ state.localSet demoSyncEnv ["nginx".toList] ↔
        ∃ imgs, demoSyncEnv.listImages = some imgs ∧ ∃ img ∈ imgs, ∃ dgsts,
          img.walk = some dgsts ∧
          state.isIncludedImage img.name ["nginx".toList] = true ∧ demoDigest ∈ dgsts) :=
  discover_missing_keys demoSyncEnv ["nginx".toList] [demoPeerAddr] rfl demoDigest

/-- C19: the digest `demoDigest` is well-formed and not on disk, and the
selected peer answers the prefetch GET with the status 200 and a body of the
bytes `b`: `fetchBlob` hands the body back closed, the copy in
`writeBlobToLocalPath` fails, and after `worker` has returned the blob file
does not exist (and neither does the `.tmp` file). -/
theorem worker_200_writes_no_blob (b : List Char) :
    digest.Parse demoDigest = some demoDigest ∧
    state.checkBlobExists emptyFS demoDigest demoContentPath = false ∧
    state.fetchBlob (demoWorkerEnv { StatusCode := 200, Body := .stream b }) demoPeerAddr
      "docker.io".toList (demoImageName ++ "@".toList ++ demoDigest) demoDigest =
        (.body (.stream b) true, false) ∧
    (state.worker (demoWorkerEnv { StatusCode := 200, Body := .stream b }) demoDigest
      demoSources demoContentPath emptyFS).1 = .ok () ∧
    (state.worker (demoWorkerEnv { StatusCode := 200, Body := .stream b }) demoDigest
      demoSources demoContentPath emptyFS).2 demoBlobFile = none ∧
    (state.worker (demoWorkerEnv { StatusCode := 200, Body := .stream b }) demoDigest
      demoSources demoContentPath emptyFS).2 (demoBlobFile ++ ".tmp".toList) = none := by
  have hparse : digest.Parse demoDigest = some demoDigest := by decide
  have hexists : state.checkBlobExists emptyFS demoDigest demoContentPath = false := by decide
  have hurl : state.BlobRequest.mk
      (state.blobURL demoPeerAddr "docker.io".toList
        (demoImageName ++ "@".toList ++ demoDigest) demoDigest)
      [("X-Clyde-Mirrored".toList, "true".toList)] = demoBlobRequest := by decide
  have hdst : filepath.Join [demoContentPath, "blobs".toList, digest.Algorithm demoDigest,
      digest.Encoded demoDigest] = demoBlobFile := by decide
  have hne : demoBlobFile ≠ demoBlobFile ++ ".tmp".toList := by decide
  have hfetch : state.fetchBlob (demoWorkerEnv { StatusCode := 200, Body := .stream b })
      demoPeerAddr "docker.io".toList (demoImageName ++ "@".toList ++ demoDigest) demoDigest =
        (.body (.stream b) true, false) := by
    simp only [state.fetchBlob, hurl, demoWorkerEnv, if_true]
    simp
  have hworker : state.worker (demoWorkerEnv { StatusCode := 200, Body := .stream b })
      demoDigest demoSources demoContentPath emptyFS =
        (.ok (), (emptyFS.put (demoBlobFile ++ ".tmp".toList) []).remove
          (demoBlobFile ++ ".tmp".toList)) := by
    have hpa : (demoWorkerEnv { StatusCode := 200, Body := .stream b }).parseAddrPort
        demoPeerAddr = some demoPeerAddr := rfl
    simp only [state.worker, demoSources, List.length_singleton, eq_self_iff_true, if_true,
      hpa, hparse, hexists, hfetch, state.writeBlobToLocalPath, hdst, state.ioCopy]
    rfl
  refine ⟨hparse, hexists, hfetch, ?_, ?_, ?_⟩
  · rw [hworker]
  · rw [hworker]
    simp [FS.remove, FS.put, emptyFS, hne]
  · rw [hworker]
    simp [FS.remove]

/-- C20: the peer answers the prefetch GET for `demoDigest` with the status
404 and any body: `fetchBlob` returns a nil reader together with a nil error,
`worker` goes on to `writeBlobToLocalPath`, which creates the `.tmp` file and
panics in the copy from the nil reader, so `worker` does not return and the
empty `.tmp` file stays under the content path.  When the request fails in
transport, `fetchBlob` does return an error and `worker` returns normally. -/
theorem worker_404_panics (body : state.Body) :
    state.fetchBlob (demoWorkerEnv { StatusCode := 404, Body := body }) demoPeerAddr
      "docker.io".toList (demoImageName ++ "@".toList ++ demoDigest) demoDigest =
        (.nil, false) ∧
    (state.worker (demoWorkerEnv { StatusCode := 404, Body := body }) demoDigest
      demoSources demoContentPath emptyFS).1 = .panic ∧
    (state.worker (demoWorkerEnv { StatusCode := 404, Body := body }) demoDigest
      demoSources demoContentPath emptyFS).2 (demoBlobFile ++ ".tmp".toList) = some [] ∧
    state.fetchBlob { Do := fun _ => none } demoPeerAddr
      "docker.io".toList (demoImageName ++ "@".toList ++ demoDigest) demoDigest =
        (.nil, true) ∧
    (state.worker { Do := fun _ => none } demoDigest demoSources demoContentPath emptyFS).1 =
      .ok () ∧
    (state.worker { Do := fun _ => none } demoDigest demoSources demoContentPath emptyFS).2
      (demoBlobFile ++ ".tmp".toList) = none := by
  have hparse : digest.Parse demoDigest = some demoDigest := by decide
  have hexists : state.checkBlobExists emptyFS demoDigest demoContentPath = false := by decide
  have hurl : state.BlobRequest.mk
      (state.blobURL demoPeerAddr "docker.io".toList
        (demoImageName ++ "@".toList ++ demoDigest) demoDigest)
      [("X-Clyde-Mirrored".toList, "true".toList)] = demoBlobRequest := by decide
  have hdst : filepath.Join [demoContentPath, "blobs".toList, digest.Algorithm demoDigest,
      digest.Encoded demoDigest] = demoBlobFile := by decide
  have hfetch : state.fetchBlob (demoWorkerEnv { StatusCode := 404, Body := body })
      demoPeerAddr "docker.io".toList (demoImageName ++ "@".toList ++ demoDigest) demoDigest =
        (.nil, false) := by
    simp only [state.fetchBlob, hurl, demoWorkerEnv, if_true]
    simp
  have hfetch₀ : state.fetchBlob { Do := fun _ => none } demoPeerAddr
      "docker.io".toList (demoImageName ++ "@".toList ++ demoDigest) demoDigest =
        (.nil, true) := rfl
  have hworker : state.worker (demoWorkerEnv { StatusCode := 404, Body := body })
      demoDigest demoSources demoContentPath emptyFS =
        (.panic, emptyFS.put (demoBlobFile ++ ".tmp".toList) []) := by
    have hpa : (demoWorkerEnv { StatusCode := 404, Body := body }).parseAddrPort
        demoPeerAddr = some demoPeerAddr := rfl
    simp only [state.worker, demoSources, List.length_singleton, eq_self_iff_true, if_true,
      hpa, hparse, hexists, hfetch, state.writeBlobToLocalPath, hdst, state.ioCopy]
    rfl
  have hworker₀ : state.worker { Do := fun _ => none } demoDigest demoSources
      demoContentPath emptyFS = (.ok (), emptyFS) := by
    have hpa : ({ Do := fun _ => none } : state.WorkerEnv).parseAddrPort
        demoPeerAddr = some demoPeerAddr := rfl
    simp only [state.worker, demoSources, List.length_singleton, eq_self_iff_true, if_true,
      hpa, hparse, hexists, hfetch₀]
    rfl
  refine ⟨hfetch, ?_, ?_, hfetch₀, ?_, ?_⟩
  · rw [hworker]
  · rw [hworker]
    simp [FS.put]
  · rw [hworker₀]
  · rw [hworker₀]
    rfl

/-- C27: for the API paths `/huggingface/api/x` and
`/huggingface/api/models/org`, which have fewer than four segments after
`/huggingface/`, the handler indexes `parts[2]` or `parts[3]` out of range
and ends in a run-time panic, whatever the method, the cache and the
collaborators are. -/
theorem hf_api_short_path_panics (h : HFClient) (env : Env) (method : List Char) (w : World) :
    h.HuggingFaceRegistryHandler env { method := method, path := "/huggingface/api/x".toList }
      w = none ∧
    h.HuggingFaceRegistryHandler env
      { method := method, path := "/huggingface/api/models/org".toList } w = none := by
  constructor <;> rfl

/-- C28: the request `fetchBlob` sends (the one the peer of the examples
answers) carries the header `X-Clyde-Mirrored`, not the header
`X-Spegel-Mirrored` that `MirroredHeaderKey` names, so the container handler
of a peer that does not hold the blob reads no mirror sentinel and starts
peer resolution for the digest; with the sentinel of `MirroredHeaderKey` the
same request is answered from the local store only. -/
theorem prefetch_request_starts_resolution :
    state.fetchBlob (demoWorkerEnv { StatusCode := 200, Body := .NoBody }) demoPeerAddr
      "docker.io".toList (demoImageName ++ "@".toList ++ demoDigest) demoDigest =
        (.body .NoBody true, false) ∧
    demoBlobRequest.header = [("X-Clyde-Mirrored".toList, "true".toList)] ∧
    MirroredHeaderKey = "X-Spegel-Mirrored".toList ∧
    demoBlobRequest.received.mirrored = [] ∧
    (demoRegistry.registryHandler demoEmptyStore demoBlobRequest.received {}).calls =
      [.ociSize demoDigest, .routerResolve demoDigest] ∧
    (demoRegistry.registryHandler demoEmptyStore
      { demoBlobRequest.received with mirrored := mirroredValue } {}).calls =
      [.ociSize demoDigest] := by
  decide

theorem isDuplicate_iff (s : state.KeySource) (existingSources : List state.KeySource) :
    state.isDuplicate s existingSources = true ↔
      ∃ e ∈ existingSources, e.PeerAddr = s.PeerAddr ∧ e.ImageName = s.ImageName := by
  induction existingSources with
  | nil => simp [state.isDuplicate]
  | cons e rest ih =>
    unfold state.isDuplicate
    by_cases h : e.PeerAddr = s.PeerAddr ∧ e.ImageName = s.ImageName
    · simp only [if_pos h, true_iff]
      exact ⟨e, List.mem_cons_self _ _, h⟩
    · simp only [if_neg h, ih]
      constructor
      · rintro ⟨x, hx, hp⟩
        exact ⟨x, List.mem_cons_of_mem _ hx, hp⟩
      · rintro ⟨x, hx, hp⟩
        rcases List.mem_cons.mp hx with hx | hx
        · subst hx; exact absurd hp h
        · exact ⟨x, hx, hp⟩

theorem addSource_noDuplicate (m : state.MissingKeyInfo) (d : List Char) (s : state.KeySource)
    (h : m.NoDuplicate) : (state.addSource m d s).NoDuplicate := by
  intro d' sources hget
  rw [addSource_get] at hget
  by_cases hd : d = d'
  · subst hd
    simp only [if_true, Option.some.injEq] at hget
    cases hg : m.get d with
    | none =>
      rw [hg] at hget
      subst hget
      simp
    | some existingSources =>
      rw [hg] at hget
      simp only at hget
      by_cases hdup : state.isDuplicate s existingSources = true
      · simp only [hdup, if_true] at hget
        subst hget
        exact h d _ hg
      · simp only [hdup, Bool.false_eq_true, if_false] at hget
        subst hget
        rw [List.pairwise_append]
        refine ⟨h d _ hg, by simp, ?_⟩
        intro a ha b hb
        simp only [List.mem_singleton] at hb
        subst hb
        intro hp
        exact hdup ((isDuplicate_iff b existingSources).mpr ⟨a, ha, hp⟩)
  · simp only [if_neg hd] at hget
    exact h d' _ hget

theorem addSource_holds_mono (m : state.MissingKeyInfo) (d d' : List Char)
    (s t : state.KeySource) (h : m.Holds d' t) : (state.addSource m d s).Holds d' t := by
  obtain ⟨sources, hget, hmem⟩ := h
  unfold state.MissingKeyInfo.Holds
  rw [addSource_get]
  by_cases hd : d = d'
  · subst hd
    rw [hget]
    simp only [if_true]
    by_cases hdup : state.isDuplicate s sources = true
    · exact ⟨sources, by simp [hdup], hmem⟩
    · exact ⟨sources ++ [s], by simp [hdup], List.mem_append_left _ hmem⟩
  · simp only [if_neg hd]
    exact ⟨sources, hget, hmem⟩

theorem addSource_holdsPair_mono (m : state.MissingKeyInfo) (d d' : List Char)
    (s : state.KeySource) (p n : List Char) (h : m.HoldsPair d' p n) :
    (state.addSource m d s).HoldsPair d' p n := by
  obtain ⟨t, ht, hp, hn⟩ := h
  exact ⟨t, addSource_holds_mono m d d' s t ht, hp, hn⟩

theorem addSource_holdsPair_self (m : state.MissingKeyInfo) (d : List Char)
    (s : state.KeySource) : (state.addSource m d s).HoldsPair d s.PeerAddr s.ImageName := by
  unfold state.MissingKeyInfo.HoldsPair state.MissingKeyInfo.Holds
  simp only [addSource_get, if_true]
  cases hg : m.get d with
  | none => exact ⟨s, ⟨[s], rfl, List.mem_singleton_self _⟩, rfl, rfl⟩
  | some existingSources =>
    simp only
    by_cases hdup : state.isDuplicate s existingSources = true
    · obtain ⟨e, he, hp, hn⟩ := (isDuplicate_iff s existingSources).mp hdup
      exact ⟨e, ⟨existingSources, by simp [hdup], he⟩, hp, hn⟩
    · exact ⟨s, ⟨existingSources ++ [s], by simp [hdup], by simp⟩, rfl, rfl⟩

theorem layerLoop_sources (L : List (List Char)) (p n r : List Char) :
    ∀ (layers : List (Option (List Char))) (m : state.MissingKeyInfo),
      (m.NoDuplicate → (state.layerLoop L p n r layers m).NoDuplicate) ∧
      (∀ d p' n', m.HoldsPair d p' n' → (state.layerLoop L p n r layers m).HoldsPair d p' n') ∧
      (∀ d, d ∉ L → some d ∈ layers → (state.layerLoop L p n r layers m).HoldsPair d p n) := by
  intro layers
  induction layers with
  | nil => intro m; simp [state.layerLoop]
  | cons layer rest ih =>
    intro m
    cases layer with
    | none =>
      obtain ⟨h1, h2, h3⟩ := ih m
      simp only [state.layerLoop]
      refine ⟨h1, h2, ?_⟩
      intro d hd hmem
      rcases List.mem_cons.mp hmem with h | h
      · cases h
      · exact h3 d hd h
    | some digest =>
      simp only [state.layerLoop]
      by_cases hin : digest ∈ L
      · simp only [if_pos hin]
        obtain ⟨h1, h2, h3⟩ := ih m
        refine ⟨h1, h2, ?_⟩
        intro d hd hmem
        rcases List.mem_cons.mp hmem with h | h
        · have hdd : d = digest := by injection h
          exact absurd (hdd ▸ hin) hd
        · exact h3 d hd h
      · simp only [if_neg hin]
        obtain ⟨h1, h2, h3⟩ := ih (state.addSource m digest
          { PeerAddr := p, ImageName := n, Registry := r })
        refine ⟨fun hm => h1 (addSource_noDuplicate m digest _ hm), ?_, ?_⟩
        · intro d p' n' hh
          exact h2 d p' n' (addSource_holdsPair_mono m digest d _ p' n' hh)
        · intro d hd hmem
          rcases List.mem_cons.mp hmem with h | h
          · have hdd : d = digest := by injection h
            subst hdd
            exact h2 d p n (addSource_holdsPair_self m d
              { PeerAddr := p, ImageName := n, Registry := r })
          · exact h3 d hd h

theorem imageLoop_sources (L : List (List Char)) (p : List Char) :
    ∀ (images : List state.PeerImage) (m : state.MissingKeyInfo),
      (m.NoDuplicate → (state.imageLoop L p images m).NoDuplicate) ∧
      (∀ d p' n', m.HoldsPair d p' n' → (state.imageLoop L p images m).HoldsPair d p' n') ∧
      (∀ d n r, d ∉ L → (∃ img ∈ images, img.lists d n r) →
        (state.imageLoop L p images m).HoldsPair d p n) := by
  intro images
  induction images with
  | nil => intro m; simp [state.imageLoop]
  | cons image rest ih =>
    intro m
    have hskipped : (image.image_name = none ∨ image.layer_keys = none ∨ image.registry = none) →
        ((m.NoDuplicate → (state.imageLoop L p (image :: rest) m).NoDuplicate) ∧
        (∀ d p' n', m.HoldsPair d p' n' →
          (state.imageLoop L p (image :: rest) m).HoldsPair d p' n') ∧
        (∀ d n r, d ∉ L → (∃ img ∈ image :: rest, img.lists d n r) →
          (state.imageLoop L p (image :: rest) m).HoldsPair d p n)) := by
      intro h
      have he : state.imageLoop L p (image :: rest) m = state.imageLoop L p rest m := by
        rw [state.imageLoop]
        rcases h with h | h | h
        · simp only [h]
        · cases image.image_name <;> simp only [h]
        · cases image.image_name <;> cases image.layer_keys <;> simp only [h]
      obtain ⟨h1, h2, h3⟩ := ih m
      rw [he]
      refine ⟨h1, h2, ?_⟩
      rintro d n r hd ⟨img, himg, hl⟩
      rcases List.mem_cons.mp himg with himg | himg
      · subst himg
        obtain ⟨a, b, ls, c, _⟩ := hl
        rcases h with h | h | h
        · rw [h] at a; cases a
        · rw [h] at c; cases c
        · rw [h] at b; cases b
      · exact h3 d n r hd ⟨img, himg, hl⟩
    cases hn : image.image_name with
    | none => exact hskipped (Or.inl hn)
    | some imageName =>
      cases hk : image.layer_keys with
      | none => exact hskipped (Or.inr (Or.inl hk))
      | some layers =>
        cases hr : image.registry with
        | none => exact hskipped (Or.inr (Or.inr hr))
        | some registry =>
          have he : state.imageLoop L p (image :: rest) m =
              state.imageLoop L p rest (state.layerLoop L p imageName registry layers m) := by
            rw [state.imageLoop]
            simp only [hn, hk, hr]
          obtain ⟨h1, h2, h3⟩ := ih (state.layerLoop L p imageName registry layers m)
          obtain ⟨l1, l2, l3⟩ := layerLoop_sources L p imageName registry layers m
          rw [he]
          refine ⟨fun hm => h1 (l1 hm), fun d p' n' hh => h2 d p' n' (l2 d p' n' hh), ?_⟩
          rintro d n r hd ⟨img, himg, hl⟩
          rcases List.mem_cons.mp himg with himg | himg
          · subst himg
            obtain ⟨a, b, ls, c, e⟩ := hl
            rw [hn] at a; rw [hk] at c
            injection a with a; injection c with c
            subst a; subst c
            exact h2 d p imageName (l3 d hd e)
          · exact h3 d n r hd ⟨img, himg, hl⟩

theorem peerLoop_sources (fetch : List Char → state.PeerFetch) (L : List (List Char)) :
    ∀ (peers : List (List Char)) (m : state.MissingKeyInfo),
      (m.NoDuplicate → (state.peerLoop fetch L peers m).NoDuplicate) ∧
      (∀ d p n, m.HoldsPair d p n → (state.peerLoop fetch L peers m).HoldsPair d p n) ∧
      (∀ d s, d ∉ L → state.Listed fetch peers d s →
        (state.peerLoop fetch L peers m).HoldsPair d s.PeerAddr s.ImageName) := by
  intro peers
  induction peers with
  | nil =>
    intro m
    refine ⟨fun h => h, fun _ _ _ h => h, ?_⟩
    rintro d s _ ⟨hmem, _⟩
    cases hmem
  | cons peerAddr rest ih =>
    intro m
    have hskipped : (∀ imageLayers, fetch peerAddr ≠ .inventory imageLayers) →
        state.peerLoop fetch L (peerAddr :: rest) m = state.peerLoop fetch L rest m →
        ((m.NoDuplicate → (state.peerLoop fetch L (peerAddr :: rest) m).NoDuplicate) ∧
        (∀ d p n, m.HoldsPair d p n →
          (state.peerLoop fetch L (peerAddr :: rest) m).HoldsPair d p n) ∧
        (∀ d s, d ∉ L → state.Listed fetch (peerAddr :: rest) d s →
          (state.peerLoop fetch L (peerAddr :: rest) m).HoldsPair d s.PeerAddr s.ImageName)) := by
      intro hno he
      obtain ⟨h1, h2, h3⟩ := ih m
      rw [he]
      refine ⟨h1, h2, ?_⟩
      rintro d s hd ⟨hmem, imgs, hf, hrest⟩
      rcases List.mem_cons.mp hmem with hmem | hmem
      · rw [hmem] at hf
        exact absurd hf (hno imgs)
      · exact h3 d s hd ⟨hmem, imgs, hf, hrest⟩
    cases hf : fetch peerAddr with
    | failed =>
      exact hskipped (fun _ h => by rw [hf] at h; cases h) (by rw [state.peerLoop]; simp only [hf])
    | empty =>
      exact hskipped (fun _ h => by rw [hf] at h; cases h) (by rw [state.peerLoop]; simp only [hf])
    | malformed =>
      exact hskipped (fun _ h => by rw [hf] at h; cases h) (by rw [state.peerLoop]; simp only [hf])
    | inventory imageLayers =>
      have he : state.peerLoop fetch L (peerAddr :: rest) m =
          state.peerLoop fetch L rest (state.imageLoop L peerAddr imageLayers m) := by
        rw [state.peerLoop]
        simp only [hf]
      obtain ⟨h1, h2, h3⟩ := ih (state.imageLoop L peerAddr imageLayers m)
      obtain ⟨i1, i2, i3⟩ := imageLoop_sources L peerAddr imageLayers m
      rw [he]
      refine ⟨fun hm => h1 (i1 hm), fun d p n hh => h2 d p n (i2 d p n hh), ?_⟩
      rintro d s hd ⟨hmem, imgs, hfs, img, himg, hl⟩
      by_cases hp : s.PeerAddr = peerAddr
      · rw [hp, hf] at hfs
        injection hfs with hfs
        subst hfs
        rw [hp]
        exact h2 d peerAddr s.ImageName (i3 d s.ImageName s.Registry hd ⟨img, himg, hl⟩)
      · rcases List.mem_cons.mp hmem with hmem | hmem
        · exact absurd hmem hp
        · exact h3 d s hd ⟨hmem, imgs, hfs, img, himg, hl⟩

/-- C26: when `Resolve` succeeds, in the missing-key table that `synchronise`
builds no entry has two sources with the same peer address and image name,
and for every digest that has an entry (every listed digest that is not in
the local key set) the entry has a source for every pair of a peer and an
image name whose inventory that parsed listed the digest as a layer key. -/
theorem discover_sources_deduplicated_and_complete (env : state.SyncEnv)
    (images peers : List (List Char)) (hres : env.resolve = some peers) :
    ∃ m, state.discover env images = some m ∧
      (∀ d sources, m.get d = some sources →
        sources.Pairwise
          (fun a b => ¬ (a.PeerAddr = b.PeerAddr ∧ a.ImageName = b.ImageName))) ∧
      (∀ d s, (m.get d).isSome = true → state.Listed env.fetch peers d s →
        ∃ sources, m.get d = some sources ∧
          ∃ t ∈ sources, t.PeerAddr = s.PeerAddr ∧ t.ImageName = s.ImageName) ∧
      (∀ d s, d ∉ state.localSet env images → state.Listed env.fetch peers d s →
        ∃ sources, m.get d = some sources ∧
          ∃ t ∈ sources, t.PeerAddr = s.PeerAddr ∧ t.ImageName = s.ImageName) := by
  obtain ⟨h1, _, h3⟩ := peerLoop_sources env.fetch (state.localSet env images) peers []
  have hcomplete : ∀ d s, d ∉ state.localSet env images → state.Listed env.fetch peers d s →
      ∃ sources, (state.peerLoop env.fetch (state.localSet env images) peers []).get d =
        some sources ∧ ∃ t ∈ sources, t.PeerAddr = s.PeerAddr ∧ t.ImageName = s.ImageName := by
    intro d s hd hl
    obtain ⟨t, ⟨sources, hget, hmem⟩, hp, hn⟩ := h3 d s hd hl
    exact ⟨sources, hget, t, hmem, hp, hn⟩
  refine ⟨state.peerLoop env.fetch (state.localSet env images) peers [], ?_, ?_, ?_, hcomplete⟩
  · simp [state.discover, hres]
  · exact h1 (fun d sources hget => by simp [state.MissingKeyInfo.get] at hget)
  · intro d s hsome hl
    obtain ⟨k1, _⟩ := peerLoop_spec env.fetch (state.localSet env images) peers [] d
    rcases k1.mp hsome with h | ⟨hd, _⟩
    · simp [state.MissingKeyInfo.get] at h
    · exact hcomplete d s hd hl

/-- Witness for C26: two peers list the same layer of the same image, one of
them twice over; the table has one source for each peer. -/
theorem discover_sources_deduplicated_and_complete_witness :
    ∃ m, state.discover demoTwoPeers [] = some m ∧
      (∀ d sources, m.get d = some sources →
        sources.Pairwise
          (fun a b => ¬ (a.PeerAddr = b.PeerAddr ∧ a.ImageName = b.ImageName))) ∧
      (∀ d s, (m.get d).isSome = true →
        state.Listed demoTwoPeers.fetch
          ["10.0.0.2:5000".toList, "10.0.0.3:5000".toList, "10.0.0.3:5000".toList] d s →
        ∃ sources, m.get d = some sources ∧
          ∃ t ∈ sources, t.PeerAddr = s.PeerAddr ∧ t.ImageName = s.ImageName) ∧
      (∀ d s, d ∉ state.localSet demoTwoPeers [] →
        state.Listed demoTwoPeers.fetch
          ["10.0.0.2:5000".toList, "10.0.0.3:5000".toList, "10.0.0.3:5000".toList] d s →
        ∃ sources, m.get d = some sources ∧
          ∃ t ∈ sources, t.PeerAddr = s.PeerAddr ∧ t.ImageName = s.ImageName) :=
  discover_sources_deduplicated_and_complete demoTwoPeers []
    ["10.0.0.2:5000".toList, "10.0.0.3:5000".toList, "10.0.0.3:5000".toList] rfl

/-- C21: when `all` returns an error, because `ListImages` fails or because
`WalkImage` fails for an image, the ticker cycle ends after `all`: the
`continue` skips `synchronise`, `syncPip` and `syncHF`.  (When `all` returns
`nil`, here for an empty content store, the cycle invokes all four.) -/
theorem tickerCycle_stops_after_failed_all (env : state.TrackEnv) (resolveLatestTag : Bool)
    (includeImages : List (List Char)) (path : List Char) (fs : FS) (name : List Char) :
    (state.tickerCycle { env with sync := { env.sync with listImages := none } }
      resolveLatestTag includeImages path false fs).1 = [.all] ∧
    (state.tickerCycle
      { env with sync := { env.sync with listImages := some [{ name := name, walk := none }] } }
      resolveLatestTag includeImages path false fs).1 = [.all] ∧
    (state.tickerCycle
      { env with sync := { env.sync with listImages := some [], resolve := none } }
      resolveLatestTag includeImages path false fs).1 =
        [.all, .synchronise, .syncPip, .syncHF] := by
  refine ⟨rfl, ?_, rfl⟩
  cases resolveLatestTag <;> rfl

/-- C25: when `Resolve` of the peer index fails, `synchronise` returns with
the flag `busy` still set, and a ticker cycle that starts with the flag set
runs neither `all` nor `synchronise` and leaves the flag set. -/
theorem synchronise_leaves_busy_set (env : state.SyncEnv) (wenv : state.WorkerEnv)
    (tenv : state.TrackEnv) (resolveLatestTag : Bool) (images : List (List Char))
    (path : List Char) (fs : FS) :
    (state.synchronise { env with resolve := none } wenv images path fs).busy = true ∧
    (state.synchronise { env with resolve := none } wenv images path fs).result = .ok () ∧
    (state.tickerCycle tenv resolveLatestTag images path true fs).1 = [.syncPip, .syncHF] ∧
    (state.tickerCycle tenv resolveLatestTag images path true fs).2.busy = true :=
  ⟨rfl, rfl, rfl, rfl⟩

theorem bitLen_le (fuel : Nat) : ∀ n m : Nat, n < 2 ^ m → seed.bitLen fuel n ≤ m := by
  induction fuel with
  | zero => intro n m _; simp [seed.bitLen]
  | succ fuel ih =>
    intro n m h
    unfold seed.bitLen
    by_cases hn : n = 0
    · simp [hn]
    · simp only [if_neg hn]
      cases m with
      | zero =>
        simp at h
        exact absurd h hn
      | succ m =>
        have h2 : n / 2 < 2 ^ m := by
          rw [pow_succ] at h
          omega
        have := ih (n / 2) m h2
        omega

theorem roundFloat64_bounds (n : Nat) :
    n / 2 ^ (seed.bitLen 128 n - 53) * 2 ^ (seed.bitLen 128 n - 53) ≤ seed.roundFloat64 n ∧
    seed.roundFloat64 n ≤
      (n / 2 ^ (seed.bitLen 128 n - 53) + 1) * 2 ^ (seed.bitLen 128 n - 53) := by
  unfold seed.roundFloat64
  simp only
  have hmono : n / 2 ^ (seed.bitLen 128 n - 53) * 2 ^ (seed.bitLen 128 n - 53) ≤
      (n / 2 ^ (seed.bitLen 128 n - 53) + 1) * 2 ^ (seed.bitLen 128 n - 53) :=
    Nat.mul_le_mul_right _ (Nat.le_succ _)
  split
  · exact ⟨le_refl _, hmono⟩
  · split
    · exact ⟨hmono, le_refl _⟩
    · split
      · exact ⟨le_refl _, hmono⟩
      · exact ⟨hmono, le_refl _⟩

theorem roundFloat64_exact (n : Nat) (h : n < 2 ^ 53) : seed.roundFloat64 n = n := by
  have hs : seed.bitLen 128 n - 53 = 0 := by
    have := bitLen_le 128 n 53 h
    omega
  unfold seed.roundFloat64
  simp [hs, Nat.mod_one]

theorem roundFloat64_tenth (t : Nat) (ht : t < 2 ^ 50) :
    seed.roundFloat64 (t * seed.tenthNumerator) / 72057594037927936 = t / 10 := by
  have h50 : (2 : Nat) ^ 50 = 1125899906842624 := by norm_num
  have h56 : (2 : Nat) ^ 56 = 72057594037927936 := by norm_num
  have h103 : (2 : Nat) ^ 103 = 10141204801825835211973625643008 := by norm_num
  rw [h50] at ht
  have hn : t * seed.tenthNumerator = t * 7205759403792794 := rfl
  obtain ⟨hlo, hhi⟩ := roundFloat64_bounds (t * seed.tenthNumerator)
  have hnlt : t * seed.tenthNumerator < 2 ^ 103 := by rw [h103, hn]; omega
  have hshift : seed.bitLen 128 (t * seed.tenthNumerator) - 53 ≤ 50 := by
    have := bitLen_le 128 (t * seed.tenthNumerator) 103 hnlt
    omega
  generalize seed.roundFloat64 (t * seed.tenthNumerator) = M at hlo hhi ⊢
  generalize seed.bitLen 128 (t * seed.tenthNumerator) - 53 = shift at hlo hhi hshift
  generalize hnv : t * seed.tenthNumerator = n at hlo hhi hn
  have hule : 2 ^ shift ≤ 1125899906842624 := by
    rw [← h50]
    exact Nat.pow_le_pow_right (by norm_num) hshift
  have hsplit : 2 ^ (56 - shift) * 2 ^ shift = 72057594037927936 := by
    rw [← pow_add, ← h56]
    congr 1
    omega
  generalize 2 ^ shift = u at hlo hhi hule hsplit
  generalize 2 ^ (56 - shift) = c at hsplit
  have hK : t / 10 * 72057594037927936 ≤ n := by omega
  have hKu : t / 10 * 72057594037927936 = t / 10 * c * u := by
    rw [Nat.mul_assoc, hsplit]
  have hmod : n % u ≤ n - t / 10 * 72057594037927936 := by
    have h1 : n = (n - t / 10 * 72057594037927936) + t / 10 * c * u := by
      rw [← hKu]
      omega
    have h2 : n % u = (n - t / 10 * 72057594037927936) % u := by
      conv_lhs => rw [h1]
      exact Nat.add_mul_mod_self_right _ _ _
    rw [h2]
    exact Nat.mod_le _ _
  have hq : n / u * u + n % u = n := by
    have := Nat.div_add_mod n u
    rw [Nat.mul_comm] at this
    exact this
  have hup : (n / u + 1) * u = n / u * u + u := by
    rw [Nat.add_mul, Nat.one_mul]
  rw [hup] at hhi
  generalize n / u * u = qu at hlo hhi hq
  generalize n % u = r at hmod hq
  omega

theorem floorTenth_eq (total : Int) (h0 : 0 ≤ total) (hlt : total < 2 ^ 50) :
    seed.floorTenth total = total / 10 := by
  obtain ⟨t, rfl⟩ := Int.eq_ofNat_of_zero_le h0
  have ht : t < 2 ^ 50 := by exact_mod_cast hlt
  have ht53 : t < 2 ^ 53 := lt_of_lt_of_le ht (Nat.pow_le_pow_right (by norm_num) (by norm_num))
  unfold seed.floorTenth
  simp only [Int.natAbs_ofNat, roundFloat64_exact t ht53, roundFloat64_tenth t ht]
  have hneg : ¬ ((t : Int) < 0) := by omega
  rw [if_neg hneg]
  simp

/-- Counterexample for C22: for `total = 2 ^ 53 + 7` and no initial count
the conversion `float64(total)` and the `float64` product with `0.1` round
up, and the first wave is 900719925474100, while
`min(max(2, total / 10), total)` is 900719925474099. -/
theorem newDoublingPlanner_initial_rounds_up :
    (seed.NewDoublingPlanner 9007199254740999 0).initial = 900719925474100 ∧
    min (max 2 ((9007199254740999 : Int) / 10)) 9007199254740999 = 900719925474099 := by
  constructor
  · simp [seed.NewDoublingPlanner, seed.floorTenth, seed.roundFloat64, seed.bitLen,
      seed.tenthNumerator]
  · decide

/-- C22 (amended): for every `total` with `0 ≤ total < 2 ^ 50`, a range in
which the `float64` product `float64(total) * 0.1` has the floor
`total / 10`, `NewDoublingPlanner` sets the size of the first wave to
`min(initialCount, total)` when `initialCount > 0`, and otherwise to
`min(max(2, total / 10), total)`. -/
theorem newDoublingPlanner_initial (total initialCount : Int) (h0 : 0 ≤ total)
    (hlt : total < 2 ^ 50) :
    (seed.NewDoublingPlanner total initialCount).initial =
      if initialCount > 0 then min initialCount total
      else min (max 2 (total / 10)) total := by
  unfold seed.NewDoublingPlanner
  simp only [floorTenth_eq total h0 hlt]
  by_cases hi : initialCount > 0
  · simp only [if_pos hi]
    by_cases hgt : initialCount > total
    · rw [if_pos hgt, min_eq_right (le_of_lt hgt)]
    · rw [if_neg hgt, min_eq_left (not_lt.mp hgt)]
  · simp only [if_neg hi]
    by_cases hgt : max 2 (total / 10) > total
    · rw [if_pos hgt, min_eq_right (le_of_lt hgt)]
    · rw [if_neg hgt, min_eq_left (not_lt.mp hgt)]

/-- Witness for C22: a cluster of 100 nodes with the default first wave. -/
theorem newDoublingPlanner_initial_witness :
    (seed.NewDoublingPlanner 100 0).initial =
      if (0 : Int) > 0 then min 0 100 else min (max 2 ((100 : Int) / 10)) 100 :=
  newDoublingPlanner_initial 100 0 (by decide) (by decide)

theorem wrapInt_eq (x : Int) (h1 : -9223372036854775808 ≤ x) (h2 : x < 9223372036854775808) :
    seed.wrapInt x = x := by
  unfold seed.wrapInt
  omega

theorem nextBatch_core (p : seed.DoublingPlanner)
    (hs1 : -9223372036854775808 ≤ p.current + (if p.started then p.current else p.initial))
    (hs2 : p.current + (if p.started then p.current else p.initial) < 9223372036854775808)
    (hd1 : -9223372036854775808 ≤ p.total - p.current)
    (hd2 : p.total - p.current < 9223372036854775808)
    (ht : -9223372036854775808 ≤ p.total) :
    p.NextBatch.1 = min (if p.started then p.current else p.initial) (p.total - p.current) ∧
    p.NextBatch.2.current = p.current + p.NextBatch.1 := by
  have key : ∀ w : Int, -9223372036854775808 ≤ p.current + w →
      p.current + w < 9223372036854775808 →
      (if seed.wrapInt (p.current + w) > p.total then seed.wrapInt (p.total - p.current)
        else w) = min w (p.total - p.current) ∧
      seed.wrapInt (p.current +
        (if seed.wrapInt (p.current + w) > p.total then seed.wrapInt (p.total - p.current)
          else w)) =
        p.current +
          (if seed.wrapInt (p.current + w) > p.total then seed.wrapInt (p.total - p.current)
            else w) := by
    intro w hw1 hw2
    rw [wrapInt_eq _ hw1 hw2, wrapInt_eq _ hd1 hd2]
    by_cases hgt : p.current + w > p.total
    · rw [if_pos hgt, min_eq_right (by omega)]
      exact ⟨rfl, wrapInt_eq _ (by omega) (by omega)⟩
    · rw [if_neg hgt, min_eq_left (by omega)]
      exact ⟨rfl, wrapInt_eq _ hw1 hw2⟩
  unfold seed.DoublingPlanner.NextBatch
  cases hst : p.started
  · rw [hst] at hs1 hs2
    simp only [Bool.false_eq_true, if_false] at hs1 hs2
    simp only [Bool.not_false, if_true, Bool.false_eq_true, if_false]
    exact key p.initial hs1 hs2
  · rw [hst] at hs1 hs2
    simp only [if_true] at hs1 hs2
    simp only [Bool.not_true, Bool.false_eq_true, if_false, if_true]
    exact key p.current hs1 hs2

/-- Counterexample for C23: a started planner with `current = 2 ^ 62` of
`total = 2 ^ 63 - 1`.  The sum `current + batch` is `2 ^ 63`, which wraps to
`-2 ^ 63`, so the batch is not cut down: `NextBatch` returns `2 ^ 62`, not
`min(current, total - current) = 2 ^ 62 - 1`, and leaves `current = -2 ^ 63`. -/
theorem nextBatch_wraps :
    (4611686018427387904 : Int) ≤ 9223372036854775807 ∧
    (seed.DoublingPlanner.NextBatch
      { current := 4611686018427387904, total := 9223372036854775807,
        initial := 2, started := true }).1 = 4611686018427387904 ∧
    min (4611686018427387904 : Int) (9223372036854775807 - 4611686018427387904) =
      4611686018427387903 ∧
    (seed.DoublingPlanner.NextBatch
      { current := 4611686018427387904, total := 9223372036854775807,
        initial := 2, started := true }).2.current = -9223372036854775808 := by
  decide

/-- C23 (amended): for every planner state with `0 ≤ current ≤ total ≤
2 ^ 63 - 1` and `0 ≤ initial` in which `current + w` does not exceed
`2 ^ 63 - 1` (the 64-bit sum of `NextBatch` does not wrap), where `w` is the
initial wave size on the first call and `current` on every later call,
`NextBatch` returns `min(w, total - current)`; it advances `current` by the
value it returns and leaves `total` and `initial` (the planner is started
afterwards), so `Remaining()` after the call is `Remaining()` before the call
minus the batch. -/
theorem nextBatch_spec (p : seed.DoublingPlanner) (h0 : 0 ≤ p.current)
    (h : p.current ≤ p.total) (ht : p.total < (2 : Int) ^ 63) (hi : 0 ≤ p.initial)
    (hw : p.current + (if p.started then p.current else p.initial) < (2 : Int) ^ 63) :
    p.NextBatch.1 = min (if p.started then p.current else p.initial) (p.total - p.current) ∧
    p.NextBatch.2.current = p.current + p.NextBatch.1 ∧
    p.NextBatch.2.total = p.total ∧
    p.NextBatch.2.initial = p.initial ∧
    p.NextBatch.2.started = true ∧
    p.NextBatch.2.Remaining = p.Remaining - p.NextBatch.1 := by
  have h63 : (2 : Int) ^ 63 = 9223372036854775808 := by norm_num
  rw [h63] at ht hw
  have hw0 : 0 ≤ (if p.started then p.current else p.initial) := by
    split <;> assumption
  obtain ⟨hb, hcur⟩ := nextBatch_core p (by omega) hw (by omega) (by omega) (by omega)
  have hle : p.NextBatch.1 ≤ p.total - p.current := by
    rw [hb]
    exact min_le_right _ _
  have hge : 0 ≤ p.NextBatch.1 := by
    rw [hb]
    exact le_min hw0 (by omega)
  refine ⟨hb, hcur, rfl, rfl, rfl, ?_⟩
  unfold seed.DoublingPlanner.Remaining
  rw [hcur]
  have htot : p.NextBatch.2.total = p.total := rfl
  rw [htot]
  generalize p.NextBatch.1 = b at hle hge ⊢
  by_cases h1 : p.current + b ≥ p.total
  · rw [if_pos h1]
    by_cases h2 : p.current ≥ p.total
    · rw [if_pos h2]; omega
    · rw [if_neg h2, wrapInt_eq (p.total - p.current) (by omega) (by omega)]; omega
  · rw [if_neg h1, wrapInt_eq (p.total - (p.current + b)) (by omega) (by omega)]
    by_cases h2 : p.current ≥ p.total
    · omega
    · rw [if_neg h2, wrapInt_eq (p.total - p.current) (by omega) (by omega)]; omega

/-- Witness for C23: the planner of `TestRemaining` after its first batch,
`current = 2` of `total = 10`. -/
theorem nextBatch_spec_witness :
    (seed.DoublingPlanner.NextBatch
        { current := 2, total := 10, initial := 2, started := true }).1 =
      min (if true then (2 : Int) else 2) (10 - 2) ∧
    (seed.DoublingPlanner.NextBatch
        { current := 2, total := 10, initial := 2, started := true }).2.current =
      2 + (seed.DoublingPlanner.NextBatch
        { current := 2, total := 10, initial := 2, started := true }).1 ∧
    (seed.DoublingPlanner.NextBatch
        { current := 2, total := 10, initial := 2, started := true }).2.total = 10 ∧
    (seed.DoublingPlanner.NextBatch
        { current := 2, total := 10, initial := 2, started := true }).2.initial = 2 ∧
    (seed.DoublingPlanner.NextBatch
        { current := 2, total := 10, initial := 2, started := true }).2.started = true ∧
    (seed.DoublingPlanner.NextBatch
        { current := 2, total := 10, initial := 2, started := true }).2.Remaining =
      seed.DoublingPlanner.Remaining
        { current := 2, total := 10, initial := 2, started := true } -
      (seed.DoublingPlanner.NextBatch
        { current := 2, total := 10, initial := 2, started := true }).1 :=
  nextBatch_spec { current := 2, total := 10, initial := 2, started := true }
    (by decide) (by decide) (by decide) (by decide) (by decide)

theorem nextBatch_step (p : seed.DoublingPlanner) (h0 : 0 ≤ p.current)
    (hlt : p.current < p.total) (htot : p.total ≤ 4611686018427387904)
    (hs : p.started = true → 1 ≤ p.current)
    (hi : p.started = false → 1 ≤ p.initial ∧ p.initial ≤ p.total) :
    1 ≤ p.NextBatch.1 ∧ p.NextBatch.1 ≤ p.total - p.current ∧
    p.NextBatch.2.current = p.current + p.NextBatch.1 := by
  have hw : 1 ≤ (if p.started then p.current else p.initial) ∧
      (if p.started then p.current else p.initial) ≤ p.total := by
    cases hst : p.started
    · simpa using hi hst
    · have := hs hst
      simp only [if_true]
      omega
  have hw2 : p.started = true → (if p.started then p.current else p.initial) = p.current := by
    intro hst; rw [hst]; simp
  have hsum : p.current + (if p.started then p.current else p.initial) <
      9223372036854775808 := by
    cases hst : p.started
    · have := (hi hst).2
      simp only [Bool.false_eq_true, if_false]
      omega
    · simp only [if_true]
      omega
  obtain ⟨hb, hcur⟩ := nextBatch_core p (by omega) hsum (by omega) (by omega) (by omega)
  rw [hb]
  exact ⟨le_min hw.1 (by omega), min_le_right _ _, by rw [hcur, hb]⟩

theorem seedLoop_spec : ∀ (fuel : Nat) (p : seed.DoublingPlanner),
    0 ≤ p.current → p.current ≤ p.total → p.total ≤ 4611686018427387904 →
    (p.started = true → 1 ≤ p.current) →
    (p.started = false → p.current < p.total → 1 ≤ p.initial ∧ p.initial ≤ p.total) →
    (p.total - p.current).toNat ≤ fuel →
    ∃ waves, seed.seedLoop fuel p = some waves ∧
      (∀ x ∈ waves, 1 ≤ x.1 ∧ 0 ≤ x.2 ∧ x.2 ≤ p.total) ∧
      (waves.map Prod.fst).sum = p.total - p.current := by
  intro fuel
  induction fuel with
  | zero =>
    intro p _ hle _ _ _ hf
    have heq : p.current = p.total := by omega
    refine ⟨[], ?_, by simp, by simp [heq]⟩
    simp [seed.seedLoop, seed.DoublingPlanner.HasNext, heq]
  | succ fuel ih =>
    intro p h0 hle htot hs hi hf
    by_cases hn : p.current < p.total
    · obtain ⟨hb1, hb2, hc⟩ := nextBatch_step p h0 hn htot hs (fun h => hi h hn)
      have ht : p.NextBatch.2.total = p.total := rfl
      have hst : p.NextBatch.2.started = true := rfl
      obtain ⟨waves, hw, hall, hsum⟩ := ih p.NextBatch.2 (by rw [hc]; omega)
        (by rw [hc, ht]; omega) (by rw [ht]; exact htot) (fun _ => by rw [hc]; omega)
        (fun h => by rw [hst] at h; cases h) (by rw [hc, ht]; omega)
      refine ⟨(p.NextBatch.1, p.NextBatch.2.current) :: waves, ?_, ?_, ?_⟩
      · rw [seed.seedLoop]
        simp only [seed.DoublingPlanner.HasNext, hn, decide_True, if_true, hw]
      · intro x hx
        rcases List.mem_cons.mp hx with hx | hx
        · subst hx
          refine ⟨hb1, ?_, ?_⟩
          · show 0 ≤ p.NextBatch.2.current
            rw [hc]; omega
          · show p.NextBatch.2.current ≤ p.total
            rw [hc]; omega
        · have := hall x hx
          rw [ht] at this
          exact this
      · simp only [List.map_cons, List.sum_cons, hsum, hc, ht]
        omega
    · have heq : p.current = p.total := by omega
      refine ⟨[], ?_, by simp, by simp [heq]⟩
      rw [seed.seedLoop]
      simp [seed.DoublingPlanner.HasNext, heq]

theorem seedLoop_stuck (p : seed.DoublingPlanner) (hn : p.HasNext = true)
    (hfix : p.NextBatch.2 = p) : ∀ fuel, seed.seedLoop fuel p = none := by
  intro fuel
  induction fuel with
  | zero => simp [seed.seedLoop, hn]
  | succ fuel ih =>
    rw [seed.seedLoop]
    simp [hn, hfix, ih]

theorem seedLoop_none_step (p : seed.DoublingPlanner) (fuel : Nat) (hn : p.HasNext = true)
    (h : seed.seedLoop fuel p.NextBatch.2 = none) : seed.seedLoop (fuel + 1) p = none := by
  rw [seed.seedLoop]
  simp [hn, h]

/-- Counterexample for C30: for `total = 2 ^ 63 - 1` and `initialCount =
2 ^ 62` the batches are `2 ^ 62`, `2 ^ 62` (the sum wraps, `current` becomes
`-2 ^ 63`), `-2 ^ 63` (`current` wraps to 0) and from then on 0 with the
planner unchanged and `HasNext()` true: the loop has not ended after `total`
iterations, nor after any number. -/
theorem seedLoop_does_not_end :
    (seed.NewDoublingPlanner 9223372036854775807 4611686018427387904).NextBatch.1 =
      4611686018427387904 ∧
    (seed.NewDoublingPlanner 9223372036854775807
      4611686018427387904).NextBatch.2.NextBatch.2.current = -9223372036854775808 ∧
    (seed.NewDoublingPlanner 9223372036854775807
      4611686018427387904).NextBatch.2.NextBatch.2.NextBatch.2 =
        { current := 0, total := 9223372036854775807, initial := 4611686018427387904,
          started := true } ∧
    seed.DoublingPlanner.NextBatch
      { current := 0, total := 9223372036854775807, initial := 4611686018427387904,
        started := true } =
      (0, { current := 0, total := 9223372036854775807, initial := 4611686018427387904,
            started := true }) ∧
    seed.seedLoop (9223372036854775807 : Int).toNat
      (seed.NewDoublingPlanner 9223372036854775807 4611686018427387904) = none := by
  have h3 : (seed.NewDoublingPlanner 9223372036854775807
      4611686018427387904).NextBatch.2.NextBatch.2.NextBatch.2 =
        { current := 0, total := 9223372036854775807, initial := 4611686018427387904,
          started := true } := by decide
  have hfix : seed.DoublingPlanner.NextBatch
      { current := 0, total := 9223372036854775807, initial := 4611686018427387904,
        started := true } =
      (0, { current := 0, total := 9223372036854775807, initial := 4611686018427387904,
            started := true }) := by decide
  refine ⟨by decide, by decide, h3, hfix, ?_⟩
  have hfuel : (9223372036854775807 : Int).toNat = 9223372036854775804 + 1 + 1 + 1 := by
    decide
  rw [hfuel]
  apply seedLoop_none_step _ _ (by decide)
  apply seedLoop_none_step _ _ (by decide)
  apply seedLoop_none_step _ _ (by decide)
  rw [h3]
  exact seedLoop_stuck _ (by decide) (by rw [hfix]) _

/-- C30 (amended): for every `total` with `0 ≤ total ≤ 2 ^ 62` (every value
`(len(nodes) + 1) / 2` takes in `deployCmd`; no 64-bit sum of the planner
wraps there) and every `initialCount`, the loop `while HasNext() do
NextBatch()` on `NewDoublingPlanner(total, initialCount)` ends after at most
`total` iterations, every batch it returns is at least 1, the value of
`current` after every batch is between 0 and `total`, and the batches sum to
`total`. -/
theorem seedLoop_terminates (total initialCount : Int) (h0 : 0 ≤ total)
    (hmax : total ≤ (2 : Int) ^ 62) :
    ∃ waves, seed.seedLoop total.toNat (seed.NewDoublingPlanner total initialCount) =
        some waves ∧
      (∀ x ∈ waves, 1 ≤ x.1 ∧ 0 ≤ x.2 ∧ x.2 ≤ total) ∧
      (waves.map Prod.fst).sum = total := by
  have h62 : (2 : Int) ^ 62 = 4611686018427387904 := by norm_num
  rw [h62] at hmax
  have hinit : (0 : Int) < total →
      1 ≤ (seed.NewDoublingPlanner total initialCount).initial ∧
      (seed.NewDoublingPlanner total initialCount).initial ≤ total := by
    intro hpos
    unfold seed.NewDoublingPlanner
    simp only
    by_cases hi : initialCount > 0
    · simp only [if_pos hi]
      split <;> omega
    · simp only [if_neg hi]
      have h2 : (2 : Int) ≤ max 2 (seed.floorTenth total) := le_max_left _ _
      split <;> omega
  obtain ⟨waves, hw, hall, hsum⟩ := seedLoop_spec total.toNat
    (seed.NewDoublingPlanner total initialCount) (le_refl _) h0 hmax
    (fun h => by cases h) (fun _ hlt => hinit hlt)
    (by show (total - 0).toNat ≤ total.toNat; simp)
  refine ⟨waves, hw, hall, ?_⟩
  rw [hsum]
  show total - 0 = total
  simp

/-- Witness for C30: the planner of `TestRemaining`, ten nodes with a first
wave of two. -/
theorem seedLoop_terminates_witness :
    ∃ waves, seed.seedLoop (10 : Int).toNat (seed.NewDoublingPlanner 10 2) = some waves ∧
      (∀ x ∈ waves, 1 ≤ x.1 ∧ 0 ≤ x.2 ∧ x.2 ≤ (10 : Int)) ∧
      (waves.map Prod.fst).sum = (10 : Int) :=
  seedLoop_terminates 10 2 (by decide) (by decide)

theorem isPrivateIP_false_iff (parseIP : List Char → Option (List Nat)) (s : List Char) :
    kube.IsPrivateIP parseIP s = false ↔
      ∃ ip, parseIP s = some ip ∧ ipIsLoopback ip = false ∧
        ipIsLinkLocalMulticast ip = false ∧ ipIsLinkLocalUnicast ip = false ∧
        ipIsPrivate ip = false := by
  unfold kube.IsPrivateIP
  cases h : parseIP s with
  | none => simp
  | some ip => simp [Bool.or_eq_false_iff, and_assoc]

theorem hasPublicLoop_iff (parseIP : List Char → Option (List Nat)) :
    ∀ ips : List (List Char),
      kube.hasPublicLoop parseIP ips = true ↔ ∃ s ∈ ips, kube.IsPrivateIP parseIP s = false := by
  intro ips
  induction ips with
  | nil => simp [kube.hasPublicLoop]
  | cons ip rest ih =>
    unfold kube.hasPublicLoop
    cases h : kube.IsPrivateIP parseIP ip
    · simp [h]
    · simp [h, ih]

theorem mem_externalIPsLoop (s : List Char) :
    ∀ addrs : List kube.NodeAddress,
      s ∈ kube.externalIPsLoop addrs ↔
        ∃ a ∈ addrs, a.Type_ = kube.NodeExternalIP ∧ a.Address ≠ [] ∧ a.Address = s := by
  intro addrs
  induction addrs with
  | nil => simp [kube.externalIPsLoop]
  | cons addr rest ih =>
    unfold kube.externalIPsLoop
    by_cases h : addr.Type_ = kube.NodeExternalIP ∧ addr.Address ≠ []
    · simp only [if_pos h, List.mem_cons, ih]
      constructor
      · rintro (h1 | ⟨a, ha, hr⟩)
        · exact ⟨addr, Or.inl rfl, h.1, h.2, h1.symm⟩
        · exact ⟨a, Or.inr ha, hr⟩
      · rintro ⟨a, ha | ha, h1, h2, h3⟩
        · subst ha; exact Or.inl h3.symm
        · exact Or.inr ⟨a, ha, h1, h2, h3⟩
    · simp only [if_neg h, ih]
      constructor
      · rintro ⟨a, ha, hr⟩
        exact ⟨a, List.mem_cons_of_mem _ ha, hr⟩
      · rintro ⟨a, ha, h1, h2, h3⟩
        rcases List.mem_cons.mp ha with ha | ha
        · subst ha; exact absurd ⟨h1, h2⟩ h
        · exact ⟨a, ha, h1, h2, h3⟩

theorem nodeHasPublicExternalIP_iff (parseIP : List Char → Option (List Nat))
    (node : kube.Node) :
    kube.NodeHasPublicExternalIP parseIP node = true ↔ kube.HasPublicExternalIP parseIP node := by
  unfold kube.NodeHasPublicExternalIP kube.NodeExternalIPs kube.HasPublicExternalIP
  rw [hasPublicLoop_iff]
  constructor
  · rintro ⟨s, hs, hp⟩
    obtain ⟨a, ha, h1, h2, h3⟩ := (mem_externalIPsLoop s node.Addresses).mp hs
    subst h3
    exact ⟨a, ha, h1, h2, (isPrivateIP_false_iff parseIP _).mp hp⟩
  · rintro ⟨a, ha, h1, h2, hp⟩
    exact ⟨a.Address, (mem_externalIPsLoop _ node.Addresses).mpr ⟨a, ha, h1, h2, rfl⟩,
      (isPrivateIP_false_iff parseIP _).mpr hp⟩

theorem onlyPublicLoop_iff (parseIP : List Char → Option (List Nat)) :
    ∀ nodes : List kube.Node,
      kube.onlyPublicLoop parseIP nodes = true ↔
        ∀ node ∈ nodes, kube.HasPublicExternalIP parseIP node := by
  intro nodes
  induction nodes with
  | nil => simp [kube.onlyPublicLoop]
  | cons node rest ih =>
    unfold kube.onlyPublicLoop
    cases h : kube.NodeHasPublicExternalIP parseIP node
    · have hno : ¬ kube.HasPublicExternalIP parseIP node := by
        rw [← nodeHasPublicExternalIP_iff, h]
        simp
      simp [hno]
    · have hyes : kube.HasPublicExternalIP parseIP node :=
        (nodeHasPublicExternalIP_iff parseIP node).mp h
      simp [ih, hyes]

/-- Counterexample for C24: every node of the empty list has a public
external address, and `ClusterHasOnlyPublicNodes` returns false for it. -/
theorem clusterHasOnlyPublicNodes_empty :
    (∀ node ∈ ([] : List kube.Node), kube.HasPublicExternalIP demoParseIP node) ∧
    kube.ClusterHasOnlyPublicNodes demoParseIP [] = false :=
  ⟨fun _ h => absurd h (List.not_mem_nil _), rfl⟩

/-- C24 (amended): `ClusterHasOnlyPublicNodes(nodes)` returns true if and
only if the list is not empty and every node of it has a public external
address: an address of type `ExternalIP` that is not empty, parses as an IP
address and is not loopback, link-local (unicast or multicast) or private.
It returns false for the empty list and when some node has no such
address. -/
theorem clusterHasOnlyPublicNodes_iff (parseIP : List Char → Option (List Nat))
    (nodes : List kube.Node) :
    (kube.ClusterHasOnlyPublicNodes parseIP nodes = true ↔
      nodes ≠ [] ∧ ∀ node ∈ nodes, kube.HasPublicExternalIP parseIP node) ∧
    ((∃ node ∈ nodes, ¬ kube.HasPublicExternalIP parseIP node) →
      kube.ClusterHasOnlyPublicNodes parseIP nodes = false) := by
  have hiff : kube.ClusterHasOnlyPublicNodes parseIP nodes = true ↔
      nodes ≠ [] ∧ ∀ node ∈ nodes, kube.HasPublicExternalIP parseIP node := by
    unfold kube.ClusterHasOnlyPublicNodes
    cases nodes with
    | nil => simp
    | cons node rest =>
      simp only [List.length_cons, Nat.add_one_ne_zero, if_false, ne_eq, not_false_eq_true,
        true_and, reduceCtorEq]
      exact onlyPublicLoop_iff parseIP (node :: rest)
  refine ⟨hiff, ?_⟩
  rintro ⟨node, hmem, hno⟩
  cases hc : kube.ClusterHasOnlyPublicNodes parseIP nodes
  · rfl
  · exact absurd ((hiff.mp hc).2 node hmem) hno

/-- Witness for C24: the mixed cluster of `TestClusterHasOnlyPublicNodes`,
whose second node has only an internal address. -/
theorem clusterHasOnlyPublicNodes_iff_witness :
    kube.ClusterHasOnlyPublicNodes demoParseIP [demoPublicNode, demoPrivateNode] = false :=
  (clusterHasOnlyPublicNodes_iff demoParseIP [demoPublicNode, demoPrivateNode]).2
    ⟨demoPrivateNode, by simp, by
      rintro ⟨a, ha, h1, _⟩
      simp only [demoPrivateNode, List.mem_singleton] at ha
      subst ha
      exact absurd h1 (by decide)⟩

/-- C29: a node caches `model.bin` at
`/hf/models--org--model/snapshots/abc123/model.bin`, with `refs/main` naming
`abc123`: `WalkHFCacheDir` emits the key with the commit in the place of the
ref, `hf:/huggingface/org/model/resolve/abc123/model.bin`, while the handler
of a node that misses the file resolves the key with the ref of the request
`/huggingface/org/model/resolve/main/model.bin`,
`hf:/huggingface/org/model/resolve/main/model.bin`. -/
theorem hf_walk_key_differs_from_request_key :
    demoHF.WalkHFCacheDir demoModelWalk =
      some ["hf:/huggingface/org/model/resolve/abc123/model.bin".toList] ∧
    ((demoHF.HuggingFaceRegistryHandler demoEnv
        { method := "GET".toList, path := "/huggingface/org/model/resolve/main/model.bin".toList }
        { fs := demoModelRefs }).map (fun w => w.calls.head?)) =
      some (some (.routerResolve "hf:/huggingface/org/model/resolve/main/model.bin".toList)) := by
  decide

end Clyde
